import Mathlib

/-! # isengo: the WebAurion session and catalog engine

A shallow embedding of `src/webaurion/webaurion.go` and of the `catalog`
package (`catalog.go`, `parser.go`, `entry.go`), followed by theorems about it.

Modelling conventions.

* Go strings are Lean strings.  All texts are taken to be valid UTF-8 and every
  pattern the code searches for is ASCII, so the byte offsets of the source and
  the character offsets used here cut a text at the same places.
* A Go `error` is its message: `Option String` (`none` is `nil`) next to a
  value, or the `error` side of `Except String _`.
* Library code outside the repository (goquery/cascadia, `net/http`, `net/url`,
  `fmt.Sscanf`, `math/rand`) is not re-implemented.  A parsed page is a
  `Document`: the answers goquery gives to the queries the code makes on it.
  What the network returns is an input of each operation (`Reply`, `Attempt`).
* A run-time panic (index out of range) and the exhaustion of the iteration
  budget of a loop are the value `none` of an `Option` result.
-/

set_option autoImplicit false

namespace Isengo

/-! # Definitions -/

deriving instance DecidableEq for Except

/-! ## Go string helpers (package `strings`) -/

namespace strings

/-- Go `unicode.IsSpace`: the white space characters trimmed by `TrimSpace`. -/
def isSpace (c : Char) : Bool :=
  let n := c.toNat
  (9 ≤ n && n ≤ 13) || n == 32 || n == 0x85 || n == 0xA0 || n == 0x1680 ||
  (0x2000 ≤ n && n ≤ 0x200A) || n == 0x2028 || n == 0x2029 || n == 0x202F ||
  n == 0x205F || n == 0x3000

/-- Go `strings.TrimSpace`: leading and trailing white space removed. -/
def TrimSpace (s : String) : String :=
  ⟨((s.data.dropWhile isSpace).reverse.dropWhile isSpace).reverse⟩

/-- Go `strings.ReplaceAll(s, old, new)` for a one-character `old` and `new`. -/
def ReplaceAll (s : String) (old new : Char) : String :=
  ⟨s.data.map (fun c => if c = old then new else c)⟩

/-- Go `strings.HasPrefix`. -/
def HasPrefix (s pre : String) : Bool :=
  pre.data.isPrefixOf s.data

/-- Go `strings.TrimPrefix`. -/
def TrimPrefix (s pre : String) : String :=
  if HasPrefix s pre then ⟨s.data.drop pre.data.length⟩ else s

/-- Splitting of a character list at every occurrence of `sep`. -/
def splitChars (sep : Char) : List Char → List (List Char)
  | [] => [[]]
  | c :: cs =>
    if c = sep then [] :: splitChars sep cs
    else
      match splitChars sep cs with
      | [] => [[c]]
      | p :: ps => (c :: p) :: ps

/-- Go `strings.Split(s, sep)` for a one-character separator. -/
def Split (s : String) (sep : Char) : List String :=
  (splitChars sep s.data).map String.mk

/-- Position of the first occurrence of `sub` in `s`, counted from `i`. -/
def indexFrom (sub : List Char) : List Char → Nat → Option Nat
  | [], i => if sub.isPrefixOf [] then some i else none
  | c :: cs, i => if sub.isPrefixOf (c :: cs) then some i else indexFrom sub cs (i + 1)

/-- Go `strings.Index`: the offset of the first occurrence, `-1` when absent. -/
def Index (s sub : String) : Int :=
  match indexFrom sub.data s.data 0 with
  | some i => (i : Int)
  | none => -1

/-- Go `strings.Contains`. -/
def Contains (s sub : String) : Bool :=
  (indexFrom sub.data s.data 0).isSome

/-- Go slice expression `s[lo:]` (offsets inside the string). -/
def sliceFrom (s : String) (lo : Int) : String :=
  ⟨s.data.drop lo.toNat⟩

/-- Go slice expression `s[lo:hi]`; `none` when the bounds are out of range,
where the Go runtime panics. -/
def slice (s : String) (lo hi : Int) : Option String :=
  if 0 ≤ lo ∧ lo ≤ hi ∧ hi ≤ (s.data.length : Int) then
    some ⟨(s.data.take hi.toNat).drop lo.toNat⟩
  else none

end strings

/-! ## Data containers (`catalog/catalog.go`) -/

/-- A catalog of the portal: a menu target. -/
structure Catalog where
  Name : String
  SubmenuID : String
  MenuID : String
  deriving DecidableEq, Repr

/-- One row of a paginated listing. -/
structure CatalogEntry where
  Company : String
  City : String
  PostalCode : String
  Year : String
  RowIndex : Int
  deriving DecidableEq, Repr

/-- The expanded record of one entry. -/
structure CatalogDetails where
  Title : String := ""
  StartDate : String := ""
  EndDate : String := ""
  Description : String := ""
  Company : String := ""
  City : String := ""
  PostalCode : String := ""
  Year : String := ""
  StudentName : String := ""
  deriving DecidableEq, Repr

/-- A report: a count and the entries. -/
structure CatalogReport where
  TotalEntries : Int
  Entries : List CatalogEntry
  deriving DecidableEq, Repr

/-- Constructor `NewCatalog`. -/
def NewCatalog (name submenuID menuID : String) : Catalog :=
  { Name := name, SubmenuID := submenuID, MenuID := menuID }

/-- Constructor `NewCatalogEntry`. -/
def NewCatalogEntry (company city postalCode year : String) (rowIndex : Int) : CatalogEntry :=
  { Company := company, City := city, PostalCode := postalCode, Year := year,
    RowIndex := rowIndex }

/-- Constructor `NewCatalogReport`: the count is the length of the entries. -/
def NewCatalogReport (entries : List CatalogEntry) : CatalogReport :=
  { TotalEntries := (entries.length : Int), Entries := entries }

/-- A value returned by the `Get` methods as `interface{}`. -/
inductive FieldValue where
  | str (s : String)
  | int (n : Int)
  | entries (l : List CatalogEntry)
  deriving DecidableEq, Repr

/-- Method `Catalog.Get`. -/
def Catalog.Get (c : Catalog) (key : String) : Except String FieldValue :=
  if key = "name" then .ok (.str c.Name)
  else if key = "submenuId" then .ok (.str c.SubmenuID)
  else if key = "menuId" then .ok (.str c.MenuID)
  else
    .error ("invalid key: " ++ key ++
      ", valid keys are \x27name\x27, \x27submenuId\x27, and \x27menuId\x27")

/-- Method `CatalogEntry.Get`. -/
def CatalogEntry.Get (ce : CatalogEntry) (key : String) : Except String FieldValue :=
  if key = "company" then .ok (.str ce.Company)
  else if key = "city" then .ok (.str ce.City)
  else if key = "postalCode" then .ok (.str ce.PostalCode)
  else if key = "year" then .ok (.str ce.Year)
  else
    .error ("invalid key: " ++ key ++
      ", valid keys are \x27company\x27, \x27city\x27, \x27postalCode\x27, and \x27year\x27")

/-- Method `CatalogDetails.Get`. -/
def CatalogDetails.Get (cd : CatalogDetails) (key : String) : Except String FieldValue :=
  if key = "title" then .ok (.str cd.Title)
  else if key = "startDate" then .ok (.str cd.StartDate)
  else if key = "endDate" then .ok (.str cd.EndDate)
  else if key = "description" then .ok (.str cd.Description)
  else if key = "company" then .ok (.str cd.Company)
  else if key = "city" then .ok (.str cd.City)
  else if key = "postalCode" then .ok (.str cd.PostalCode)
  else if key = "year" then .ok (.str cd.Year)
  else if key = "studentName" then .ok (.str cd.StudentName)
  else .error ("invalid key: " ++ key)

/-- Method `CatalogReport.Get`. -/
def CatalogReport.Get (cr : CatalogReport) (key : String) : Except String FieldValue :=
  if key = "totalEntries" then .ok (.int cr.TotalEntries)
  else if key = "entries" then .ok (.entries cr.Entries)
  else
    .error ("invalid key: " ++ key ++
      ", valid keys are \x27totalEntries\x27 and \x27entries\x27")

/-! ## Parsed pages: what goquery answers -/

/-- An element of a page: its attributes in source order and its text
(`Selection.Text` of the element). -/
structure Element where
  attrs : List (String × String) := []
  text : String := ""
  deriving DecidableEq, Repr

/-- Attribute lookup on one element: the first attribute with that key. -/
def Element.Attr (e : Element) (key : String) : Option String :=
  (e.attrs.find? (fun kv => kv.1 == key)).map Prod.snd

/-- The goquery call `Selection.Attr(key)`: the attribute of the first element
of the selection, absent when the selection is empty or the element lacks it. -/
def selAttr (sel : List Element) (key : String) : Option String :=
  match sel with
  | [] => none
  | e :: _ => e.Attr key

/-- The cascadia attribute selector `[key='val']` on a list of elements. -/
def whereAttr (sel : List Element) (key val : String) : List Element :=
  sel.filter (fun e => e.attrs.any (fun kv => kv.1 == key && kv.2 == val))

/-- A table cell (`td`) as the listing extractors read it. -/
structure Cell where
  /-- Text of `cell.Find("span.preformatted")`. -/
  preformatted : String := ""
  /-- Text of the cell once its `span.ui-column-title` children are removed. -/
  rest : String := ""
  deriving DecidableEq, Repr

/-- A table row (`tr`): its attributes and `row.Find("td")`. -/
structure Row where
  attrs : List (String × String) := []
  cells : List Cell := []
  deriving DecidableEq, Repr

/-- The goquery call `row.Attr(key)`. -/
def Row.Attr (r : Row) (key : String) : Option String :=
  (r.attrs.find? (fun kv => kv.1 == key)).map Prod.snd

/-- A `div.ligne` of a detail page as `GetCatalogEntryDetails` reads it. -/
structure Ligne where
  /-- Text of `ligne.Find("label span.ev_libelle")`. -/
  label : String := ""
  /-- Text of `colonne2.Find("span.composant-type-string")`. -/
  typeString : String := ""
  /-- Text of `colonne2.Find("span.composant-type-text")`. -/
  typeText : String := ""
  /-- Text of `colonne2.Find("span").First()`. -/
  firstSpan : String := ""
  deriving DecidableEq, Repr

/-- A parsed page.  Each field is the result of one goquery query of the
source, taken at the point where the code makes it. -/
structure Document where
  /-- The selection `doc.Find("input")`, in document order. -/
  inputs : List Element := []
  /-- Text of `doc.Find("div.menuMonCompte h3")`. -/
  accountName : String := ""
  /-- The selection `doc.Find("a.lien-cliquable")`. -/
  clickableLinks : List Element := []
  /-- The selection `doc.Find("a.ui-paginator-next:not(.ui-state-disabled)")`. -/
  paginatorNext : List Element := []
  /-- The selection `doc.Find("tbody#form\\:j_idt193_data tr")`. -/
  catalogRows : List Row := []
  /-- The selection `doc.Find("tr")`. -/
  rows : List Row := []
  /-- The selection `doc.Find("div.ligne")`. -/
  lignes : List Ligne := []
  deriving DecidableEq, Repr

/-- What `Client.Do` followed by `io.ReadAll` gives for one request. -/
inductive Reply where
  | transportError (e : String)
  | readError (e : String)
  | body (s : String)
  deriving DecidableEq, Repr

/-- Library functions the code calls and that are not modelled further. -/
structure Env where
  /-- The goquery call `NewDocumentFromReader` on a text. -/
  parseHTML : String → Except String Document
  /-- Error of `http.NewRequest(method, url, _)`, `none` when it succeeds. -/
  httpNewRequest : String → String → Option String
  /-- Error of `url.Parse`, `none` when it succeeds. -/
  urlParse : String → Option String
  /-- Value left in `idx` by `fmt.Sscanf(s, "%d", &idx)` starting from 0. -/
  sscanfInt : String → Int
  /-- The function `url.QueryEscape`. -/
  queryEscape : String → String
  /-- The permutation `rand.Shuffle` applies to the proxy list. -/
  shuffle : List String → List String

/-- The interface `WebAurionClient` of `catalog/entry.go`, as the values its
methods return (`GetClient().Do` is the `Reply` input of each operation). -/
structure WebAurionClient where
  GetBaseURL : String
  GetPayload : String
  /-- Method `GetViewState(reader, isInitial)`: token and error. -/
  GetViewState : String → Bool → String × Option String

/-! ## Listing extraction (`catalog/parser.go`) -/

/-- The non-breaking space U+00A0. -/
def nbsp : Char := Char.ofNat 0xA0

/-- The goquery call `cells.Eq(i)`: the selection holding the i-th cell, empty
when there is none. -/
def cellsEq (cells : List Cell) (i : Nat) : List Cell :=
  (cells.drop i).take 1

/-- Text of `sel.Find("span.preformatted")` for a selection of cells. -/
def preformattedText (sel : List Cell) : String :=
  String.join (sel.map Cell.preformatted)

/-- Text of a selection of cells after `Find("span.ui-column-title").Remove()`. -/
def restText (sel : List Cell) : String :=
  String.join (sel.map Cell.rest)

/-- The closure `extractCellText` of `ParseCatalogEntries`. -/
def extractCellText (cell : List Cell) : String :=
  let text := strings.TrimSpace (preformattedText cell)
  if text ≠ "" then text
  else strings.TrimSpace (restText cell)

/-- The record the callback of `ParseCatalogEntries` builds for a row that
passed its two guards: `rowIndex` is the value of `data-ri`. -/
def catalogRowEntry (env : Env) (rowIndex : String) (cells : List Cell) : CatalogEntry :=
  let company := extractCellText (cellsEq cells 0)
  let fields : String × String × String :=
    if cells.length = 6 then
      (extractCellText (cellsEq cells 1), extractCellText (cellsEq cells 2),
        strings.ReplaceAll (extractCellText (cellsEq cells 4)) nbsp ' ')
    else if cells.length = 5 then
      (extractCellText (cellsEq cells 1), extractCellText (cellsEq cells 2),
        strings.ReplaceAll (extractCellText (cellsEq cells 4)) nbsp ' ')
    else if cells.length = 4 then
      (extractCellText (cellsEq cells 1), extractCellText (cellsEq cells 2),
        strings.ReplaceAll (extractCellText (cellsEq cells 3)) nbsp ' ')
    else if cells.length ≥ 2 then
      ("", "", strings.ReplaceAll (extractCellText (cellsEq cells 1)) nbsp ' ')
    else ("", "", "")
  let idx := env.sscanfInt rowIndex
  NewCatalogEntry company fields.1 fields.2.1 fields.2.2 idx

/-- Body of the callback `ParseCatalogEntries` runs on each selected row, with
the entries gathered so far. -/
def parseCatalogRow (env : Env) (entries : List CatalogEntry) (row : Row) :
    List CatalogEntry :=
  match row.Attr "data-ri" with
  | none => entries
  | some rowIndex =>
    let cells := row.cells
    if cells.length < 1 then entries
    else entries ++ [catalogRowEntry env rowIndex cells]

/-- Function `ParseCatalogEntries`: the rows of the listing table, in document
order, each handed to the callback. -/
def ParseCatalogEntries (env : Env) (doc : Document) : List CatalogEntry :=
  doc.catalogRows.foldl (parseCatalogRow env) []

/-! ## Catalog access and pagination (`catalog/entry.go`) -/

/-- Function `BuildCatalogPayload`. -/
def BuildCatalogPayload (basePayload menuID : String) : String :=
  basePayload ++ "&form:sidebar=form:sidebar&form:sidebar_menuid=" ++ menuID

/-- Function `GetCatalogPayload`. -/
def GetCatalogPayload (w : WebAurionClient) (catalogIndex : Int) (catalogs : List Catalog) :
    Except String String :=
  if catalogIndex < 0 ∨ catalogIndex ≥ (catalogs.length : Int) then
    .error "catalog index out of range"
  else
    let catalog := catalogs.getD catalogIndex.toNat (NewCatalog "" "" "")
    .ok (BuildCatalogPayload w.GetPayload catalog.MenuID)

/-- One step of the loop of `getCatalogPage` over the parts of the base
payload: the pair is `(largeurDivCenter, jIdt267Input)`. -/
def scanPayloadPart (acc : String × String) (part : String) : String × String :=
  if strings.HasPrefix part "form:largeurDivCenter=" then
    (strings.TrimPrefix part "form:largeurDivCenter=", acc.2)
  else if strings.HasPrefix part "form:j_idt820_input=" then
    (acc.1, strings.TrimPrefix part "form:j_idt820_input=")
  else acc

/-- The values `getCatalogPage` lifts from the base payload: both start empty. -/
def paginationFields (basePayload : String) : String × String :=
  (strings.Split basePayload '&').foldl scanPayloadPart ("", "")

/-- The `fmt.Sprintf` of `getCatalogPage`: the body of the pagination POST. -/
def paginationBody (env : Env) (first : Nat) (largeurDivCenter idInit jIdt267Input
    viewState : String) : String :=
  "javax.faces.partial.ajax=true&javax.faces.source=form:j_idt193&javax.faces.partial.execute=form:j_idt193&javax.faces.partial.render=form:j_idt193&form:j_idt193=form:j_idt193&form:j_idt193_pagination=true&form:j_idt193_first="
    ++ toString first
    ++ "&form:j_idt193_rows=20&form:j_idt193_skipChildren=true&form:j_idt193_encodeFeature=true&form=form&form:largeurDivCenter="
    ++ largeurDivCenter
    ++ "&form:idInit="
    ++ idInit
    ++ "&form:messagesRubriqueInaccessible=&form:search-texte=&form:search-texte-avancer=&form:input-expression-exacte=&form:input-un-des-mots=&form:input-aucun-des-mots=&form:input-nombre-debut=&form:input-nombre-fin=&form:calendarDebut_input=&form:calendarFin_input=&form:j_idt193_reflowDD=0_0&form:j_idt193:j_idt198:filter=&form:j_idt193:j_idt200:filter=&form:j_idt193:j_idt202:filter=&form:j_idt193:j_idt204:filter=&form:j_idt267_focus=&form:j_idt267_input="
    ++ jIdt267Input
    ++ "&javax.faces.ViewState="
    ++ env.queryEscape viewState

/-- Body of the callback `getCatalogPage` runs on each `tr` of a later page. -/
def parsePageRow (env : Env) (entries : List CatalogEntry) (row : Row) : List CatalogEntry :=
  match row.Attr "data-ri" with
  | none => entries
  | some rowIndex =>
    let cells := row.cells
    if cells.length < 4 then entries
    else
      let company := strings.TrimSpace (preformattedText (cellsEq cells 0))
      let city := strings.TrimSpace (preformattedText (cellsEq cells 1))
      let postalCode := strings.TrimSpace (preformattedText (cellsEq cells 2))
      let year :=
        strings.ReplaceAll (strings.TrimSpace (preformattedText (cellsEq cells 3))) nbsp ' '
      let idx := env.sscanfInt rowIndex
      entries ++ [NewCatalogEntry company city postalCode year idx]

/-- What one call of `getCatalogPage` does: the body of the POST it hands to
the client (`none` when the request is not created) and what it returns. -/
structure PageFetch where
  sent : Option String
  result : Except String (List CatalogEntry × Bool)
  deriving DecidableEq

/-- Second half of `getCatalogPage` (from `responseStr := string(bodyBytes)`
to the end): the rows of the update section `form:j_idt193` of a partial
response.  The result is `none` when a slice expression is out of range. -/
def decodeCatalogPage (env : Env) (responseStr : String) :
    Option (Except String (List CatalogEntry × Bool)) :=
  let tableUpdateStart := strings.Index responseStr "<update id=\"form:j_idt193\">"
  if tableUpdateStart = -1 then
    some (.error "table update section not found in pagination response")
  else
    let cdataStart :=
      strings.Index (strings.sliceFrom responseStr tableUpdateStart) "<![CDATA["
    if cdataStart = -1 then
      some (.error "CDATA not found in table update section")
    else
      let cdataStart := cdataStart + tableUpdateStart
      let cdataEnd := strings.Index (strings.sliceFrom responseStr cdataStart) "]]>"
      if cdataEnd = -1 then
        some (.error "CDATA end not found")
      else
        let cdataEnd := cdataEnd + cdataStart
        match strings.slice responseStr (cdataStart + 9) cdataEnd with
        | none => none
        | some htmlContent =>
          let wrappedHTML := "<table><tbody>" ++ htmlContent ++ "</tbody></table>"
          match env.parseHTML wrappedHTML with
          | .error e => some (.error ("error parsing page HTML: " ++ e))
          | .ok doc =>
            let entries := doc.rows.foldl (parsePageRow env) []
            let hasMore := entries.length == 20
            some (.ok (entries, hasMore))

/-- Function `getCatalogPage`; `reply` is what the client gives for its POST.
The result is `none` when a slice expression is out of range. -/
def getCatalogPage (env : Env) (w : WebAurionClient) (first : Nat) (viewState idInit : String)
    (reply : Reply) : Option PageFetch :=
  let fields := paginationFields w.GetPayload
  let payload := paginationBody env first fields.1 idInit fields.2 viewState
  match env.httpNewRequest "POST"
      (w.GetBaseURL ++ "/webAurion/faces/ChoixEvenementDUnFormulaire.xhtml") with
  | some e => some ⟨none, .error ("error creating pagination request: " ++ e)⟩
  | none =>
    match reply with
    | .transportError e => some ⟨some payload, .error ("error getting page: " ++ e)⟩
    | .readError e => some ⟨some payload, .error ("error reading page body: " ++ e)⟩
    | .body responseStr =>
      (decodeCatalogPage env responseStr).map (fun result => ⟨some payload, result⟩)

/-- One call of `getCatalogPage` made by `GetCatalogEntries`: its arguments. -/
structure PageCall where
  first : Nat
  viewState : String
  idInit : String
  deriving DecidableEq, Repr

/-- The `for hasMorePages` loop of `GetCatalogEntries`, entered with
`hasMorePages` true.  `replies n` is what the client gives to the POST of the
call number `n` (from 0); `log` lists the calls made so far.  The first
argument bounds the number of iterations; the result is `none` when it is
used up or when `getCatalogPage` panics. -/
def pageLoop (env : Env) (w : WebAurionClient) (viewState idInit : String)
    (replies : Nat → Reply) :
    Nat → Nat → Nat → List CatalogEntry → List PageCall →
      Option (List CatalogEntry × List PageCall)
  | 0, _, _, _, _ => none
  | fuel + 1, first, pageNum, entries, log =>
    match getCatalogPage env w first viewState idInit (replies log.length) with
    | none => none
    | some fetch =>
      let log := log ++ [⟨first, viewState, idInit⟩]
      match fetch.result with
      | .error _ => some (entries, log)
      | .ok (moreEntries, more) =>
        if moreEntries.length = 0 then some (entries, log)
        else
          let entries := entries ++ moreEntries
          let first := first + 20
          let pageNum := pageNum + 1
          if pageNum > 100 then some (entries, log)
          else if more then pageLoop env w viewState idInit replies fuel first pageNum entries log
          else some (entries, log)

/-- The value of `idInit` that `GetCatalogEntries` reads on the first page. -/
def pageIdInit (doc : Document) : String :=
  let input := whereAttr doc.inputs "name" "form:idInit"
  if input.length > 0 then (selAttr input "value").getD "" else ""

/-- What `GetCatalogEntries` returns, with the calls of `getCatalogPage` it
made, in order. -/
structure CatalogRun where
  result : Except String CatalogReport
  calls : List PageCall

/-- Function `GetCatalogEntries`.  `doRequest` is its function argument and
`replies` what the client gives to the successive pagination POSTs. -/
def GetCatalogEntries (env : Env) (w : WebAurionClient) (catalogIndex : Int)
    (catalogs : List Catalog) (doRequest : String → Except String String)
    (replies : Nat → Reply) : Option CatalogRun :=
  match GetCatalogPayload w catalogIndex catalogs with
  | .error e => some ⟨.error e, []⟩
  | .ok payload =>
    match doRequest payload with
    | .error e => some ⟨.error ("error loading catalog: " ++ e), []⟩
    | .ok data =>
      match env.parseHTML data with
      | .error e => some ⟨.error ("error parsing catalog HTML: " ++ e), []⟩
      | .ok doc =>
        let entries := ParseCatalogEntries env doc
        let hasMorePages := doc.paginatorNext.length > 0
        if hasMorePages then
          let viewState := (w.GetViewState data false).1
          let idInit := pageIdInit doc
          match pageLoop env w viewState idInit replies 99 20 2 entries [] with
          | none => none
          | some (entries, log) => some ⟨.ok (NewCatalogReport entries), log⟩
        else some ⟨.ok (NewCatalogReport entries), []⟩

/-- One step of the loop of `GetCatalogEntryDetails` over the parts of the
base payload: the triple is `(largeurDivCenter, idInit, jIdt267Input)`. -/
def scanDetailsPart (acc : String × String × String) (part : String) :
    String × String × String :=
  if strings.HasPrefix part "form:largeurDivCenter=" then
    (strings.TrimPrefix part "form:largeurDivCenter=", acc.2.1, acc.2.2)
  else if strings.HasPrefix part "form:idInit=" then
    (acc.1, strings.TrimPrefix part "form:idInit=", acc.2.2)
  else if strings.HasPrefix part "form:j_idt820_input=" then
    (acc.1, acc.2.1, strings.TrimPrefix part "form:j_idt820_input=")
  else acc

/-- The `fmt.Sprintf` of `GetCatalogEntryDetails`: the body of the POST of the
button "Consulter" of a row. -/
def detailsBody (env : Env) (largeurDivCenter idInit : String) (rowIndex : Int)
    (jIdt267Input viewState : String) : String :=
  "form=form&form:largeurDivCenter="
    ++ largeurDivCenter
    ++ "&form:idInit="
    ++ idInit
    ++ "&form:messagesRubriqueInaccessible=&form:search-texte=&form:search-texte-avancer=&form:input-expression-exacte=&form:input-un-des-mots=&form:input-aucun-des-mots=&form:input-nombre-debut=&form:input-nombre-fin=&form:calendarDebut_input=&form:calendarFin_input=&form:j_idt193_reflowDD=0_0&form:j_idt193:j_idt198:filter=&form:j_idt193:j_idt200:filter=&form:j_idt193:j_idt202:filter=&form:j_idt193:j_idt204:filter=&form:j_idt193:"
    ++ toString rowIndex
    ++ ":j_idt215=&form:j_idt265_focus=&form:j_idt265_input="
    ++ jIdt267Input
    ++ "&javax.faces.ViewState="
    ++ env.queryEscape viewState

/-- The value `GetCatalogEntryDetails` reads on a line: the first non empty of
the three texts it tries, trimmed. -/
def ligneValue (ligne : Ligne) : String :=
  let value := strings.TrimSpace ligne.typeString
  let value := if value = "" then strings.TrimSpace ligne.typeText else value
  if value = "" then strings.TrimSpace ligne.firstSpan else value

/-- Body of the callback `GetCatalogEntryDetails` runs on each `div.ligne`:
the `switch label`. -/
def fillDetails (details : CatalogDetails) (ligne : Ligne) : CatalogDetails :=
  let label := strings.TrimSpace ligne.label
  let value := ligneValue ligne
  if label = "Titre de la mission" ∨ label = "Titre du stage" ∨
      label = "Titre de l\x27apprentissage" then
    { details with Title := value }
  else if label = "Début de l\x27apprentissage" ∨ label = "Début du stage" ∨
      label = "Date de début" then
    { details with StartDate := value }
  else if label = "Fin de l\x27apprentissage" ∨ label = "Fin du stage" ∨
      label = "Date de fin" then
    { details with EndDate := value }
  else if label = "Description de l\x27activité prévue" ∨
      label = "Description de l\x27activité" then
    { details with Description := value }
  else if label = "NOM Prénom" ∨ label = "Nom Prénom" ∨ label = "Étudiant" then
    { details with StudentName := value }
  else details

/-- What one call of `GetCatalogEntryDetails` does: the body of the POST it
hands to the client (`none` when it does not get that far) and what it
returns. -/
structure DetailsFetch where
  sent : Option String
  result : Except String CatalogDetails
  deriving DecidableEq

/-- Function `GetCatalogEntryDetails`.  `page` is what the client gives for
the GET of the listing page, `reply` what it gives for the POST. -/
def GetCatalogEntryDetails (env : Env) (w : WebAurionClient) (entry : CatalogEntry)
    (page reply : Reply) : DetailsFetch :=
  match env.httpNewRequest "GET"
      (w.GetBaseURL ++ "/webAurion/faces/ChoixEvenementDUnFormulaire.xhtml") with
  | some e => ⟨none, .error ("error creating request: " ++ e)⟩
  | none =>
    match page with
    | .transportError e => ⟨none, .error ("error getting page: " ++ e)⟩
    | .readError e => ⟨none, .error ("error reading body: " ++ e)⟩
    | .body bodyBytes =>
      match env.parseHTML bodyBytes with
      | .error e => ⟨none, .error ("error parsing HTML: " ++ e)⟩
      | .ok doc =>
        match w.GetViewState bodyBytes false with
        | (_, some e) => ⟨none, .error ("error getting ViewState: " ++ e)⟩
        | (viewState, none) =>
          let fields := (strings.Split w.GetPayload '&').foldl scanDetailsPart ("", "", "")
          let idInitInput := whereAttr doc.inputs "name" "form:idInit"
          let idInit :=
            if idInitInput.length > 0 then
              match selAttr idInitInput "value" with
              | some val => val
              | none => fields.2.1
            else fields.2.1
          let payload := detailsBody env fields.1 idInit entry.RowIndex fields.2.2 viewState
          match env.httpNewRequest "POST"
              (w.GetBaseURL ++ "/webAurion/faces/ChoixEvenementDUnFormulaire.xhtml") with
          | some e => ⟨none, .error ("error creating detail request: " ++ e)⟩
          | none =>
            match reply with
            | .transportError e => ⟨some payload, .error ("error getting details: " ++ e)⟩
            | .readError e => ⟨some payload, .error ("error reading details body: " ++ e)⟩
            | .body bodyBytes2 =>
              match env.parseHTML bodyBytes2 with
              | .error e => ⟨some payload, .error ("error parsing details HTML: " ++ e)⟩
              | .ok doc2 =>
                let details : CatalogDetails :=
                  { Company := entry.Company, City := entry.City,
                    PostalCode := entry.PostalCode, Year := entry.Year }
                ⟨some payload, .ok (doc2.lignes.foldl fillDetails details)⟩

/-! ## Embedded parameter blocks (`catalog/parser.go`, `catalog/manager.go`) -/

namespace strings

/-- The first occurrence of the separator `sep` in a text: the text before it
and the text after it. -/
def cut (sep : List Char) : List Char → Option (List Char × List Char)
  | [] => if sep.isPrefixOf [] then some ([], []) else none
  | c :: cs =>
    if sep.isPrefixOf (c :: cs) then some ([], (c :: cs).drop sep.length)
    else (cut sep cs).map (fun p => (c :: p.1, p.2))

/-- The loop of Go `strings.Split`: cut at the first occurrence, go on with
the text after it.  The first argument bounds the number of cuts. -/
def splitLoop (sep : List Char) : Nat → List Char → List (List Char)
  | 0, s => [s]
  | n + 1, s =>
    match cut sep s with
    | none => [s]
    | some (a, b) => a :: splitLoop sep n b

/-- Go `strings.Split(s, sep)` for a non-empty separator `sep`: a text of `n`
characters has at most `n` occurrences of it. -/
def SplitSep (s sep : String) : List String :=
  (splitLoop sep.data (s.data.length + 1) s.data).map String.mk

/-- Position of the last occurrence of `sub` in `s`, counted from `i`. -/
def lastIndexFrom (sub : List Char) : List Char → Nat → Option Nat
  | [], i => if sub.isPrefixOf [] then some i else none
  | c :: cs, i =>
    match lastIndexFrom sub cs (i + 1) with
    | some j => some j
    | none => if sub.isPrefixOf (c :: cs) then some i else none

/-- Go `strings.LastIndex`: the offset of the last occurrence, `-1` when
absent. -/
def LastIndex (s sub : String) : Int :=
  match lastIndexFrom sub.data s.data 0 with
  | some i => (i : Int)
  | none => -1

end strings

/-- A Go `map[string]string`: its bindings, one per key, the most recently
written first. -/
abbrev StringMap := List (String × String)

/-- The assignment `m[k] = v`. -/
def StringMap.set (m : StringMap) (k v : String) : StringMap :=
  (k, v) :: m.filter (fun p => p.1 ≠ k)

/-- The lookup `m[k]` with its presence flag: `none` when `k` has no binding. -/
def StringMap.get (m : StringMap) (k : String) : Option String :=
  m.lookup k

/-- The single quote, the byte `\x27`. -/
def quote : Char := Char.ofNat 39

/-- The `for i < len(paramString)` loop of `parseOnclickButtonParams`.  The
index `i` is represented by the text from `i` on (every `paramString[i]` of
the source is guarded by `i < len(paramString)`); a slice
`paramString[keyStart:i]` is the text skipped by the inner loop.  The first
argument bounds the number of iterations, `none` when it is exhausted. -/
def paramsLoop : Nat → List Char → StringMap → Option StringMap
  | 0, _, _ => none
  | _ + 1, [], params => some params
  | fuel + 1, c :: cs, params =>
    if c ≠ quote then paramsLoop fuel cs params
    else
      let key : String := ⟨cs.takeWhile (fun x => x ≠ quote)⟩
      match cs.dropWhile (fun x => x ≠ quote) with
      | [] => some params
      | _ :: afterKey =>
        let rest := afterKey.dropWhile (fun x => x = ':' ∨ x = ' ')
        match rest with
        | [] => paramsLoop fuel rest params
        | q :: afterQuote =>
          if q ≠ quote then paramsLoop fuel rest params
          else
            let value : String := ⟨afterQuote.takeWhile (fun x => x ≠ quote)⟩
            match afterQuote.dropWhile (fun x => x ≠ quote) with
            | [] => some params
            | _ :: afterValue =>
              paramsLoop fuel (afterValue.dropWhile (fun x => x = ',' ∨ x = ' '))
                (params.set key value)

/-- Function `parseOnclickButtonParams` of `catalog/manager.go`.  The result
is `none` when a slice or index expression is out of range, or the loop budget
is exhausted. -/
def parseOnclickButtonParams (onclick : String) : Option StringMap :=
  let parts := strings.SplitSep onclick "PrimeFaces.addSubmitParam"
  if parts.length < 2 then some []
  else
    match parts[1]? with
    | none => none
    | some paramPart =>
      let startIndex := strings.Index paramPart "\x7b"
      let endIndex := strings.Index paramPart "\x7d"
      if startIndex = -1 ∨ endIndex = -1 ∨ endIndex ≤ startIndex then some []
      else
        match strings.slice paramPart (startIndex + 1) endIndex with
        | none => none
        | some paramString =>
          paramsLoop (paramString.data.length + 1) paramString.data []

/-- The `for i < len(paramString)` loop of `parseOnclickButton`, with the
same representation of the index as `paramsLoop`. -/
def buttonLoop : Nat → List Char → StringMap → Option StringMap
  | 0, _, _ => none
  | _ + 1, [], params => some params
  | fuel + 1, c :: cs, params =>
    if c ≠ quote then buttonLoop fuel cs params
    else
      let key : String := ⟨cs.takeWhile (fun x => x ≠ quote)⟩
      match cs.dropWhile (fun x => x ≠ quote) with
      | [] => some params
      | _ :: afterKey =>
        match afterKey.dropWhile (fun x => x ≠ quote) with
        | [] => some params
        | _ :: afterQuote =>
          let value : String := ⟨afterQuote.takeWhile (fun x => x ≠ quote)⟩
          match afterQuote.dropWhile (fun x => x ≠ quote) with
          | [] => some params
          | _ :: afterValue => buttonLoop fuel afterValue (params.set key value)

/-- Function `parseOnclickButton` of `catalog/parser.go`.  The result is
`none` when the slice `onclick[start+1 : end]` is out of range, where the Go
runtime panics, or the loop budget is exhausted. -/
def parseOnclickButton (onclick : String) : Option StringMap :=
  let start := strings.Index onclick "\x7b"
  let stop := strings.LastIndex onclick "\x7d"
  if start = -1 ∨ stop = -1 then some []
  else
    match strings.slice onclick (start + 1) stop with
    | none => none
    | some paramString => buttonLoop (paramString.data.length + 1) paramString.data []

/-! ## The session (`webaurion.go`) -/

/-- The part of `http.Client` the session sets: the egress proxy of its
transport and its timeout in seconds (0: none). -/
structure HttpClient where
  proxy : Option String := none
  timeoutSeconds : Nat := 0
  deriving DecidableEq, Repr

/-- The struct `WebAurion`.  Times are instants on an integer clock. -/
structure WebAurion where
  BaseURL : String := ""
  Cookies : List String := []
  ViewState : String := ""
  Link : List (String × String) := []
  LastRequetTime : Int := 0
  Name : String := ""
  LoggedIn : Bool := false
  Client : HttpClient := {}
  GradeLink : String := ""
  AbsenceLink : String := ""
  PlanningLink : String := ""
  IdInit : String := ""
  IdBasic : String := ""
  Payload : String := ""
  ProxyEndpoints : List String := []
  currentProxyIndex : Nat := 0
  deriving DecidableEq, Repr

/-- Constructor `NewWebAurion`. -/
def NewWebAurion : WebAurion :=
  { BaseURL := "https://web.isen-ouest.fr", Link := [], LoggedIn := false, Client := {},
    ProxyEndpoints := [], currentProxyIndex := 0 }

/-- Method `updateClientWithProxy`: error and session.  The result is `none`
when `ProxyEndpoints[currentProxyIndex]` is out of range. -/
def updateClientWithProxy (env : Env) (w : WebAurion) : Option (Option String × WebAurion) :=
  if w.ProxyEndpoints.length = 0 then
    some (none, { w with Client := {} })
  else
    match w.ProxyEndpoints[w.currentProxyIndex]? with
    | none => none
    | some endpoint =>
      match env.urlParse endpoint with
      | some e => some (some ("invalid proxy URL: " ++ e), w)
      | none => some (none, { w with Client := { proxy := some endpoint, timeoutSeconds := 30 } })

/-- Method `SetProxies`. -/
def SetProxies (env : Env) (proxyEndpoints : List String) (w : WebAurion) :
    Option (Option String × WebAurion) :=
  let w := { w with ProxyEndpoints := proxyEndpoints, currentProxyIndex := 0 }
  if proxyEndpoints.length > 0 then
    let w := { w with ProxyEndpoints := env.shuffle w.ProxyEndpoints }
    updateClientWithProxy env w
  else some (none, w)

/-- Method `rotateProxy`. -/
def rotateProxy (env : Env) (w : WebAurion) : Option (Option String × WebAurion) :=
  if w.ProxyEndpoints.length ≤ 1 then some (none, w)
  else
    let w := { w with
      currentProxyIndex := (w.currentProxyIndex + 1) % w.ProxyEndpoints.length }
    updateClientWithProxy env w

/-- Method `getCurrentProxy`; `none` when the index is out of range. -/
def getCurrentProxy (w : WebAurion) : Option String :=
  if w.ProxyEndpoints.length = 0 then some "Aucun proxy"
  else w.ProxyEndpoints[w.currentProxyIndex]?

/-- One step of the loop of `getViewState` over the links `a.lien-cliquable`. -/
def harvestLink (w : WebAurion) (s : Element) : WebAurion :=
  let id := (s.Attr "id").getD ""
  if strings.Contains s.text "note" then { w with GradeLink := id }
  else if strings.Contains s.text "Absences" then { w with AbsenceLink := id }
  else if strings.Contains s.text "Planning" then { w with PlanningLink := id }
  else w

/-- One step of the loop of `getViewState` over the inputs of the page. -/
def harvestInput (w : WebAurion) (s : Element) : WebAurion :=
  let name := (s.Attr "name").getD ""
  let value := (s.Attr "value").getD ""
  { w with Payload := w.Payload ++ (name ++ "=" ++ value ++ "&") }

/-- The branch `if first` of `getViewState`. -/
def harvest (doc : Document) (w : WebAurion) : WebAurion :=
  let w := { w with Name := doc.accountName }
  let w := doc.clickableLinks.foldl harvestLink w
  let w := doc.inputs.foldl harvestInput w
  let w := { w with IdBasic := (selAttr (whereAttr doc.inputs "value" "basicDay") "id").getD "" }
  { w with Payload := w.Payload ++ "form:j_idt820_input=275805" }

/-- Method `getViewState`.  `body` is the reader: the text it yields or the
error of reading it.  Returns the token, the error and the session. -/
def getViewState (env : Env) (body : Except String String) (first : Bool) (w : WebAurion) :
    (String × Option String) × WebAurion :=
  match body.bind env.parseHTML with
  | .error e => (("", some e), w)
  | .ok doc =>
    let w := if first then harvest doc w else w
    match selAttr (whereAttr doc.inputs "name" "javax.faces.ViewState") "value" with
    | none => (("", some "ViewState not found"), w)
    | some viewState => ((viewState, none), w)

/-- What the network gives during one call of `performLogin`. -/
structure Attempt where
  /-- Result of `Client.Do` for the credential POST: the cookies of the response. -/
  post : Except String (List String)
  /-- Result of `Client.Do` for the GET of the landing page: the reader of the
  response body, which yields a text or fails. -/
  get : Except String (Except String String)
  /-- Value of `time.Now()` at the end of the attempt. -/
  now : Int := 0

/-- Method `performLogin`: the pair it returns and the session.  The
credentials travel in the POST; what the server makes of them is `a`. -/
def performLogin (env : Env) (_username _password : String) (a : Attempt) (w : WebAurion) :
    (Bool × Option String) × WebAurion :=
  match env.httpNewRequest "POST" (w.BaseURL ++ "/webAurion/login") with
  | some _ => ((false, some "error creating login request"), w)
  | none =>
    match a.post with
    | .error e => ((false, some ("error during login request: " ++ e)), w)
    | .ok cookies =>
      let w := { w with Cookies := cookies }
      match env.httpNewRequest "GET" (w.BaseURL ++ "/webAurion/") with
      | some _ => ((false, some "error creating main page request"), w)
      | none =>
        match a.get with
        | .error e => ((false, some ("error getting main page: " ++ e)), w)
        | .ok body =>
          let r := getViewState env body true w
          let w := { r.2 with ViewState := r.1.1 }
          match r.1.2 with
          | some _ => ((false, some "username or password incorrect"), w)
          | none => ((true, none), { w with LoggedIn := true, LastRequetTime := a.now })

/-- The verb `%v` applied to an error. -/
def fmtError (e : Option String) : String :=
  match e with
  | none => "<nil>"
  | some msg => msg

/-- One call of `performLogin` made by `LoginWithRetry`: the proxy index and
the proxy in use (`getCurrentProxy`) when it is made, the client, and what the
call returned. -/
structure AttemptRecord where
  proxyIndex : Nat
  proxy : Option String
  client : HttpClient
  success : Bool
  err : Option String
  deriving DecidableEq, Repr

/-- What `LoginWithRetry` returns, the session it leaves and the attempts it
made, in order. -/
structure LoginRun where
  success : Bool
  err : Option String
  session : WebAurion
  attempts : List AttemptRecord
  deriving DecidableEq, Repr

/-- The `for attempt` loop of `LoginWithRetry`: the first argument is
`maxRetries - attempt`, the number of iterations left.  `attempts k` is what
the network gives during the attempt number `k`.  The result is `none` on a
panic. -/
def loginLoop (env : Env) (username password : String) (attempts : Nat → Attempt)
    (maxRetries : Int) :
    Nat → Nat → WebAurion → Option String → List AttemptRecord → Option LoginRun
  | 0, _, w, lastError, trace =>
    some ⟨false,
      some ("login failed after " ++ toString maxRetries ++ " attempts. Last error: "
        ++ fmtError lastError), w, trace⟩
  | left + 1, attempt, w, _, trace =>
    let rotated : Option WebAurion :=
      if attempt > 0 ∧ w.ProxyEndpoints.length > 1 then
        match rotateProxy env w with
        | none => none
        | some (_, w1) =>
          match getCurrentProxy w1 with
          | none => none
          | some _ => some w1
      else some w
    match rotated with
    | none => none
    | some w1 =>
      let r := performLogin env username password (attempts attempt) w1
      let trace := trace ++
        [⟨w1.currentProxyIndex, getCurrentProxy w1, w1.Client, r.1.1, r.1.2⟩]
      if r.1.1 then some ⟨true, none, r.2, trace⟩
      else loginLoop env username password attempts maxRetries left (attempt + 1) r.2 r.1.2 trace

/-- Method `LoginWithRetry`. -/
def LoginWithRetry (env : Env) (username password : String) (attempts : Nat → Attempt)
    (maxRetries : Int) (w : WebAurion) : Option LoginRun :=
  loginLoop env username password attempts maxRetries maxRetries.toNat 0 w none []

/-- Method `Login`. -/
def Login (env : Env) (username password : String) (attempts : Nat → Attempt) (w : WebAurion) :
    Option LoginRun :=
  LoginWithRetry env username password attempts 3 w

/-- Method `GetGradesPayload`. -/
def GetGradesPayload (w : WebAurion) : String :=
  w.Payload ++ "&" ++ w.GradeLink ++ "=" ++ w.GradeLink

/-- The URL `performRequest` posts to: the main menu page unless a first,
non empty `referer` is given. -/
def requestTarget (w : WebAurion) (referer : List String) : String :=
  match referer with
  | [] => w.BaseURL ++ "/webAurion/faces/MainMenuPage.xhtml"
  | r :: _ =>
    if r ≠ "" then w.BaseURL ++ r
    else w.BaseURL ++ "/webAurion/faces/MainMenuPage.xhtml"

/-- Method `performRequest`; `reply` is what the client gives for the POST.
The data that `io.ReadAll` returns next to an error is not kept, its only
caller drops it.  The result is `none` when `getCurrentProxy` panics. -/
def performRequest (env : Env) (_payload : String) (referer : List String) (reply : Reply)
    (w : WebAurion) : Option (Except String String) :=
  let targetURL := requestTarget w referer
  match env.httpNewRequest "POST" targetURL with
  | some e => some (.error e)
  | none =>
    match reply with
    | .transportError e =>
      match getCurrentProxy w with
      | none => none
      | some proxy => some (.error ("request failed with proxy " ++ proxy ++ ": " ++ e))
    | .readError e => some (.error e)
    | .body data => some (.ok data)

/-- One POST handed to the client by `performRequest`. -/
structure PostRecord where
  url : String
  body : String
  deriving DecidableEq, Repr

/-- The POST a call of `performRequest` hands to the client, if it gets as far
as `Client.Do`. -/
def postOf (env : Env) (payload : String) (referer : List String) (w : WebAurion) :
    List PostRecord :=
  match env.httpNewRequest "POST" (requestTarget w referer) with
  | some _ => []
  | none => [⟨requestTarget w referer, payload⟩]

/-- What `DoRequestWithRetry` returns, the session it leaves and the POSTs it
handed to the client, in order. -/
structure RequestRun where
  result : Except String String
  session : WebAurion
  posts : List PostRecord
  deriving DecidableEq, Repr

/-- The `for attempt` loop of `DoRequestWithRetry`: the first argument is
`maxRetries - attempt`.  `replies k` is what the client gives to the POST of
the attempt number `k`.  The result is `none` on a panic. -/
def requestLoop (env : Env) (payload : String) (referer : List String)
    (replies : Nat → Reply) (maxRetries : Int) :
    Nat → Nat → WebAurion → Option String → List PostRecord → Option RequestRun
  | 0, _, w, lastError, posts =>
    some ⟨.error ("request failed after " ++ toString maxRetries ++ " attempts. Last error: "
      ++ fmtError lastError), w, posts⟩
  | left + 1, attempt, w, _, posts =>
    let rotated : Option WebAurion :=
      if attempt > 0 ∧ w.ProxyEndpoints.length > 1 then
        match rotateProxy env w with
        | none => none
        | some (_, w1) => some w1
      else some w
    match rotated with
    | none => none
    | some w1 =>
      let posts := posts ++ postOf env payload referer w1
      match performRequest env payload referer (replies attempt) w1 with
      | none => none
      | some (.ok data) => some ⟨.ok data, w1, posts⟩
      | some (.error e) =>
        requestLoop env payload referer replies maxRetries left (attempt + 1) w1 (some e) posts

/-- Method `DoRequestWithRetry`. -/
def DoRequestWithRetry (env : Env) (replies : Nat → Reply) (payload : String)
    (maxRetries : Int) (referer : List String) (w : WebAurion) : Option RequestRun :=
  requestLoop env payload referer replies maxRetries maxRetries.toNat 0 w none []

/-- Method `DoRequest`. -/
def DoRequest (env : Env) (replies : Nat → Reply) (payload : String) (referer : List String)
    (w : WebAurion) : Option RequestRun :=
  DoRequestWithRetry env replies payload 3 referer w

/-- The duration `30*time.Minute`, in nanoseconds, the unit of the clock. -/
def thirtyMinutes : Int := 30 * (60 * 1000000000)

/-- What `Refresh` returns, the session it leaves and the POSTs it handed to
the client. -/
structure RefreshRun where
  err : Option String
  session : WebAurion
  posts : List PostRecord
  deriving DecidableEq, Repr

/-- Method `Refresh`.  `now` is the clock when `time.Since` reads it, `later`
the clock when `time.Now()` is read after the request. -/
def Refresh (env : Env) (replies : Nat → Reply) (now later : Int) (w : WebAurion) :
    Option RefreshRun :=
  if now - w.LastRequetTime > thirtyMinutes then
    match DoRequest env replies (GetGradesPayload w) [] w with
    | none => none
    | some run =>
      match run.result with
      | .error e => some ⟨some e, run.session, run.posts⟩
      | .ok _ => some ⟨none, { run.session with LastRequetTime := later }, run.posts⟩
  else some ⟨none, w, []⟩

/-! ## Vocabulary of the statements -/

/-- The records of `m` successive pages, from page number `start`, in page order. -/
def pagesFrom (pages : Nat → List CatalogEntry) (start : Nat) : Nat → List CatalogEntry
  | 0 => []
  | m + 1 => pages start ++ pagesFrom pages (start + 1) m

/-- The arguments of `m` successive calls of `getCatalogPage`, the first one at
offset `first`, each 20 further than the one before. -/
def callsFrom (viewState idInit : String) (first : Nat) : Nat → List PageCall
  | 0 => []
  | m + 1 => ⟨first, viewState, idInit⟩ :: callsFrom viewState idInit (first + 20) m

/-- The state token of the landing page of a login attempt: present when both
exchanges complete (requests created, no transport error), the page is read
and parsed, and its first input `javax.faces.ViewState` carries a value. -/
def landingToken (env : Env) (baseURL : String) (a : Attempt) : Option String :=
  if env.httpNewRequest "POST" (baseURL ++ "/webAurion/login") = none ∧
      env.httpNewRequest "GET" (baseURL ++ "/webAurion/") = none then
    match a.post, a.get with
    | .ok _, .ok body =>
      match body.bind env.parseHTML with
      | .ok doc => selAttr (whereAttr doc.inputs "name" "javax.faces.ViewState") "value"
      | .error _ => none
    | _, _ => none
  else none

/-- Both exchanges of a login attempt complete: the two requests are created
and neither `Client.Do` fails. -/
def exchangesComplete (env : Env) (baseURL : String) (a : Attempt) : Bool :=
  (env.httpNewRequest "POST" (baseURL ++ "/webAurion/login")).isNone &&
  (env.httpNewRequest "GET" (baseURL ++ "/webAurion/")).isNone &&
  (match a.post, a.get with
    | .ok _, .ok _ => true
    | _, _ => false)

/-- The session fields `performLogin` and `rotateProxy` have in common with
the transport: base URL, proxy pool and current index. -/
def samePool (w w2 : WebAurion) : Prop :=
  w2.BaseURL = w.BaseURL ∧ w2.ProxyEndpoints = w.ProxyEndpoints ∧
  w2.currentProxyIndex = w.currentProxyIndex ∧ w2.Client = w.Client

instance (w w2 : WebAurion) : Decidable (samePool w w2) := by
  unfold samePool
  infer_instance

/-- The session `LoginWithRetry` hands to `performLogin` at an attempt: the
proxy is rotated first on a retry when the pool has more than one endpoint. -/
def sessionAtAttempt (env : Env) (attempt : Nat) (w : WebAurion) : WebAurion :=
  if attempt > 0 ∧ w.ProxyEndpoints.length > 1 then
    ((rotateProxy env w).map Prod.snd).getD w
  else w

/-- A line of a detail page that has a label. -/
def labelled (ligne : Ligne) : Bool :=
  strings.TrimSpace ligne.label != ""

/-- A row `ParseCatalogEntries` keeps: the marker `data-ri` is present and the
row has at least one cell. -/
def wellFormedRow (r : Row) : Bool :=
  (r.Attr "data-ri").isSome && decide (1 ≤ r.cells.length)

/-- What `getCatalogPage` returns for a reply, when it does not panic. -/
def fetchResult (env : Env) (w : WebAurionClient) (first : Nat) (viewState idInit : String)
    (reply : Reply) : Option (Except String (List CatalogEntry × Bool)) :=
  (getCatalogPage env w first viewState idInit reply).map PageFetch.result

/-- The record the paginated-page extractor of `getCatalogPage` builds for a
row that passed its two guards: `rowIndex` is the value of `data-ri`. -/
def pageRowEntry (env : Env) (rowIndex : String) (cells : List Cell) : CatalogEntry :=
  NewCatalogEntry (strings.TrimSpace (preformattedText (cellsEq cells 0)))
    (strings.TrimSpace (preformattedText (cellsEq cells 1)))
    (strings.TrimSpace (preformattedText (cellsEq cells 2)))
    (strings.ReplaceAll (strings.TrimSpace (preformattedText (cellsEq cells 3))) nbsp ' ')
    (env.sscanfInt rowIndex)

/-- A row the paginated-page extractor keeps: the marker `data-ri` is present
and the row has at least four cells. -/
def wellFormedPageRow (r : Row) : Bool :=
  (r.Attr "data-ri").isSome && decide (4 ≤ r.cells.length)

/-- The serialization of the input fields of a page: each input as
`name=value` followed by `&`, in document order, then the fixed field
`form:j_idt820_input=275805`. -/
def basePayloadOf (doc : Document) : String :=
  String.join (doc.inputs.map
    (fun s => (s.Attr "name").getD "" ++ "=" ++ (s.Attr "value").getD "" ++ "&"))
    ++ "form:j_idt820_input=275805"

/-- The pattern `sub` occurs in `s` at offset `k`. -/
def occursAt (sub s : String) (k : Nat) : Bool :=
  decide (k ≤ s.data.length) && sub.data.isPrefixOf (s.data.drop k)

/-- Offset `k` is the first one at or after `p` at which `sub` occurs in `s`. -/
def firstAtOrAfter (sub s : String) (p k : Nat) : Bool :=
  decide (p ≤ k) && occursAt sub s k &&
    (List.range k).all (fun j => decide (j < p) || !occursAt sub s j)

/-- The pattern `sub` does not occur in `s` at or after offset `p`. -/
def absentFrom (sub s : String) (p : Nat) : Bool :=
  (List.range (s.data.length + 1)).all (fun k => decide (k < p) || !occursAt sub s k)

/-- The text of `s` strictly between a CDATA opening at offset `c` and a CDATA
end at offset `e`. -/
def cdataText (s : String) (c e : Nat) : String :=
  ⟨(s.data.take e).drop (c + 9)⟩

/-- The session without its transport state (the client and the index of the
proxy in use). -/
def sessionData (w : WebAurion) : WebAurion :=
  { w with currentProxyIndex := 0, Client := {} }

/-- The index of the proxy in use points into the pool, or the pool is empty. -/
def proxyIndexValid (w : WebAurion) : Bool :=
  w.ProxyEndpoints.isEmpty || decide (w.currentProxyIndex < w.ProxyEndpoints.length)

/-- The function name `parseOnclickButtonParams` splits its input on. -/
def submitParamName : String := "PrimeFaces.addSubmitParam"

/-- One pair of a parameter block: the key and the value, each between single
quotes, with a colon between them. -/
def pairText (p : String × String) : String :=
  "\x27" ++ p.1 ++ "\x27:\x27" ++ p.2 ++ "\x27"

/-- The pairs of a parameter block, separated by commas. -/
def pairsText : List (String × String) → String
  | [] => ""
  | p :: ps =>
    match ps with
    | [] => pairText p
    | _ :: _ => pairText p ++ "," ++ pairsText ps

/-- A well-formed parameter block: the pairs between braces. -/
def paramBlock (pairs : List (String × String)) : String :=
  "\x7b" ++ pairsText pairs ++ "\x7d"

/-- The mapping `{k1 -> v1, ..., kn -> vn}` of a list of pairs, a later pair
overriding an earlier one with the same key. -/
def mappingOf (pairs : List (String × String)) : StringMap :=
  pairs.foldl (fun m p => m.set p.1 p.2) []

/-- No key and no value of the pairs holds a single quote or a closing brace. -/
def plainPairs (pairs : List (String × String)) : Bool :=
  pairs.all (fun p => !p.1.data.contains quote && !p.1.data.contains '}' &&
    !p.2.data.contains quote && !p.2.data.contains '}')

/-- The text holds no brace. -/
def braceFree (s : String) : Bool :=
  !s.data.contains '{' && !s.data.contains '}'

/-! ## Fixtures: a small synthetic portal -/

/-- The value `fmt.Sscanf(s, "%d", &idx)` leaves in `idx`, which starts at 0:
blanks are skipped, then an optional sign and the decimal digits that follow
are read; 0 when no digit follows.  Values are taken within the range of
`int`. -/
def scanDecimal (s : String) : Int :=
  let body := s.data.dropWhile (fun c => c = ' ')
  let negative := body.head? = some '-'
  let unsigned :=
    match body with
    | '-' :: rest => rest
    | '+' :: rest => rest
    | _ => body
  let digits := unsigned.takeWhile Char.isDigit
  let value : Nat := digits.foldl (fun n c => 10 * n + (c.toNat - '0'.toNat)) 0
  if negative then -(value : Int) else (value : Int)

/-- A listing row with the marker and four cells. -/
def fixtureRow : Row :=
  { attrs := [("data-ri", "7")],
    cells := [{ preformatted := "ACME" }, { preformatted := "Brest" },
      { preformatted := "29200" }, { preformatted := "2024" }] }

/-- A first page: 20 rows, an enabled next-page control, a state token. -/
def fixtureFirstPage : Document :=
  { inputs := [{ attrs := [("name", "javax.faces.ViewState"), ("value", "tok")] }],
    paginatorNext := [{ text := ">" }],
    catalogRows := List.replicate 20 fixtureRow }

/-- A landing page after a successful login: account name, three links, two
hidden inputs and the state token. -/
def fixtureLanding : Document :=
  { accountName := "DUPONT Jean"
    clickableLinks :=
      [{ attrs := [("id", "form:j_idt10")], text := "Mes notes" },
        { attrs := [("id", "form:j_idt11")], text := "Absences" }]
    inputs :=
      [{ attrs := [("type", "hidden"), ("name", "form"), ("value", "form")] },
        { attrs := [("type", "hidden"), ("name", "form:largeurDivCenter"), ("value", "1022")] },
        { attrs := [("type", "hidden"), ("name", "javax.faces.ViewState"), ("value", "tok1")] }] }

/-- The page the portal serves when the credentials are refused: the login
form, without state token. -/
def fixtureLoginForm : Document :=
  { inputs :=
      [{ attrs := [("type", "text"), ("name", "username")] },
        { attrs := [("type", "password"), ("name", "password")] }] }

/-- A page whose token input has no `value` attribute. -/
def fixtureNoValue : Document :=
  { inputs := [{ attrs := [("type", "hidden"), ("name", "javax.faces.ViewState")] }] }

/-- A page whose token input has an empty `value` attribute. -/
def fixtureEmptyValue : Document :=
  { inputs :=
      [{ attrs := [("type", "hidden"), ("name", "javax.faces.ViewState"), ("value", "")] }] }

/-- A detail page with two labelled lines, "Titre du stage" and "Date de
début", and two lines without label. -/
def fixtureDetailsPage : Document :=
  { lignes :=
      [{ firstSpan := "Fiche" },
        { label := " Titre du stage ", typeString := "Stage ingénieur" },
        {},
        { label := "Date de début", firstSpan := " 02/09/2024 " }] }

/-- Library behaviour of the fixtures: the known pages, everything else is an
empty page; requests and URLs are always accepted. -/
def fixtureEnv : Env :=
  { parseHTML := fun s =>
      if s = "first" then .ok fixtureFirstPage
      else if s = "<table><tbody>full</tbody></table>" then
        .ok { rows := List.replicate 20 fixtureRow }
      else if s = "<table><tbody>short</tbody></table>" then
        .ok { rows := List.replicate 5 fixtureRow }
      else if s = "landing" then .ok fixtureLanding
      else if s = "login form" then .ok fixtureLoginForm
      else if s = "no value" then .ok fixtureNoValue
      else if s = "empty value" then .ok fixtureEmptyValue
      else if s = "details" then .ok fixtureDetailsPage
      else .ok {}
    httpNewRequest := fun _ _ => none
    urlParse := fun _ => none
    sscanfInt := scanDecimal
    queryEscape := fun s => s
    shuffle := fun l => l }

/-- A client whose base payload holds both pagination fields. -/
def fixtureClient : WebAurionClient :=
  { GetBaseURL := "https://portal"
    GetPayload := "form:largeurDivCenter=1022&form:j_idt820_input=275805"
    GetViewState := fun _ _ => ("tok", none) }

/-- The catalogs of the fixtures. -/
def fixtureCatalogs : List Catalog := [NewCatalog "Catalogue des stages" "submenu_1" "1_0"]

/-- A pagination reply carrying a full page of 20 rows. -/
def fullReply : Reply :=
  .body "<partial-response><changes><update id=\"form:j_idt193\"><![CDATA[full]]></update></changes></partial-response>"

/-- A pagination reply carrying a page of 5 rows. -/
def shortReply : Reply :=
  .body "<partial-response><changes><update id=\"form:j_idt193\"><![CDATA[short]]></update></changes></partial-response>"

/-- A listing whose table body interleaves malformed and well-formed rows. -/
def fixtureMixedListing : Document :=
  { catalogRows :=
      [{ cells := [{ preformatted := "no marker" }] },
        fixtureRow,
        { attrs := [("data-ri", "8")], cells := [] },
        { attrs := [("data-ri", "9")],
          cells := [{ rest := " Initech " }, { preformatted := "2023" }] },
        { attrs := [("data-ri", "10")], cells := [{ preformatted := "Globex" }] }] }

/-- A client whose base payload has no part `form:largeurDivCenter`. -/
def fixtureBareClient : WebAurionClient :=
  { GetBaseURL := "https://portal"
    GetPayload := "form=form&form:j_idt820_input=275805"
    GetViewState := fun _ _ => ("tok", none) }

/-- The attempts of the login fixtures: the first one is refused (the portal
serves the login form again), the following ones reach the landing page. -/
def fixtureAttempts (k : Nat) : Attempt :=
  if k = 0 then { post := .ok ["JSESSIONID=a"], get := .ok (.ok "login form"), now := 100 }
  else { post := .ok ["JSESSIONID=b"], get := .ok (.ok "landing"), now := 200 }

/-- An always-failing transport: every exchange ends on a transport error. -/
def fixtureDeadAttempts (_k : Nat) : Attempt :=
  { post := .error "connection refused", get := .error "connection refused" }

/-- A session with a pool of two distinct proxies, as `SetProxies` leaves it. -/
def fixtureProxied : WebAurion :=
  { NewWebAurion with
    ProxyEndpoints := ["http://proxy-a:3128", "http://proxy-b:3128"]
    currentProxyIndex := 0
    Client := { proxy := some "http://proxy-a:3128", timeoutSeconds := 30 } }

/-- A catalog entry of the fixtures. -/
def fixtureEntry : CatalogEntry := NewCatalogEntry "ACME" "Brest" "29200" "2024" 7

/-- Catalog details of the fixtures. -/
def fixtureDetails : CatalogDetails :=
  { Title := "Stage ingénieur", StartDate := "02/09/2024", EndDate := "28/02/2025",
    Description := "Conception", Company := "ACME", City := "Brest", PostalCode := "29200",
    Year := "2024", StudentName := "DUPONT Jean" }

/-- Listing rows of 6, 5, 3 and 1 cells; the period label of the first one
holds non-breaking spaces. -/
def fixtureRow6 : Row :=
  { attrs := [("data-ri", "0")],
    cells := [{ preformatted := "ACME" }, { preformatted := "Brest" },
      { preformatted := "29200" }, { preformatted := "France" },
      { preformatted := "\u00A02024\u00A0-\u00A02025\u00A0" }, { rest := "Consulter" }] }

/-- A listing row of three cells, a count with no layout of its own. -/
def fixtureRow3 : Row :=
  { attrs := [("data-ri", "1")],
    cells := [{ preformatted := "Initech" }, { preformatted := "2023" },
      { preformatted := "extra" }] }

/-- Body of a pagination reply that carries a full page and, in a second
update section, a new state token. -/
def tokenReplyBody : String :=
  "<partial-response><changes><update id=\"form:j_idt193\"><![CDATA[full]]></update><update id=\"j_id1:javax.faces.ViewState:0\"><![CDATA[tok2]]></update></changes></partial-response>"

/-- A client whose token extraction reads "tok" on the first page and "tok2"
on the reply that delivers the second page. -/
def fixtureTokenClient : WebAurionClient :=
  { GetBaseURL := "https://portal"
    GetPayload := "form:largeurDivCenter=1022&form:j_idt820_input=275805"
    GetViewState := fun body _ =>
      if body = "first" then ("tok", none)
      else if body = tokenReplyBody then ("tok2", none)
      else ("", some "ViewState not found") }

/-- The pagination replies of a three-page listing: a full page with a new
token, then a short page. -/
def fixtureTokenReplies (n : Nat) : Reply :=
  if n = 0 then .body tokenReplyBody else shortReply

/-- A partial response with three update sections: the CDATA of the first one
is a full page, the section `form:j_idt193` holds a short page. -/
def multiSectionBody : String :=
  "<partial-response><changes><update id=\"form:messages\"><![CDATA[full]]></update><update id=\"form:j_idt193\"><![CDATA[short]]></update><update id=\"j_id1:javax.faces.ViewState:0\"><![CDATA[tok2]]></update></changes></partial-response>"

/-- A logged-in session whose last activity dates from instant 100. -/
def fixtureIdle : WebAurion :=
  { NewWebAurion with
    BaseURL := "https://portal", LoggedIn := true, LastRequetTime := 100,
    Payload := "form=form", GradeLink := "form:j_idt1" }

/-- The session `fixtureIdle` behind the pool of two proxies. -/
def fixtureIdleProxied : WebAurion :=
  { fixtureIdle with
    ProxyEndpoints := ["http://proxy-a:3128", "http://proxy-b:3128"]
    currentProxyIndex := 0
    Client := { proxy := some "http://proxy-a:3128", timeoutSeconds := 30 } }

/-- The client fails on the first POST and answers the second one. -/
def fixtureRetryReplies : Nat → Reply := fun k =>
  if k = 0 then .transportError "timeout" else .body "grades"

/-- A listing row of five cells, each with its text in `span.preformatted`:
company, city, postal code, country, period. -/
def fixtureRow5 : Row :=
  { attrs := [("data-ri", "21")],
    cells := [{ preformatted := "ACME" }, { preformatted := "Brest" },
      { preformatted := "29200" }, { preformatted := "France" },
      { preformatted := "2024 - 2025" }] }

/-- The environment of the fixtures with a `url.Parse` that rejects the
endpoint `10.0.0.2:3128`, an address and a port without a scheme. -/
def fixtureStrictEnv : Env :=
  { fixtureEnv with
    urlParse := fun s =>
      if s = "10.0.0.2:3128" then
        some "parse \"10.0.0.2:3128\": first path segment in URL cannot contain colon"
      else none }

/-- A pool of two distinct endpoints, the second one without a scheme. -/
def fixtureMixedPool : List String := ["http://proxy-a:3128", "10.0.0.2:3128"]

/-! # Theorems -/

/-! ## Pagination: lemmas on the page loop -/

theorem pagesFrom_length (pages : Nat → List CatalogEntry) (n : Nat) :
    ∀ (m start : Nat), (∀ k, k < m → (pages (start + k)).length = n) →
      (pagesFrom pages start m).length = n * m := by
  intro m
  induction m with
  | zero => intro start _; simp [pagesFrom]
  | succ m ih =>
    intro start h
    have h0 : (pages start).length = n := by simpa using h 0 (Nat.succ_pos m)
    have hrest : ∀ k, k < m → (pages (start + 1 + k)).length = n := by
      intro k hk
      have := h (k + 1) (Nat.succ_lt_succ hk)
      rwa [show start + (k + 1) = start + 1 + k by omega] at this
    simp [pagesFrom, h0, ih (start + 1) hrest, Nat.mul_succ, Nat.add_comm]

theorem pagesFrom_append (pages : Nat → List CatalogEntry) :
    ∀ (m start : Nat),
      pagesFrom pages start (m + 1) = pagesFrom pages start m ++ pages (start + m) := by
  intro m
  induction m with
  | zero => intro start; simp [pagesFrom]
  | succ m ih =>
    intro start
    rw [pagesFrom, ih (start + 1), pagesFrom]
    simp [List.append_assoc, show start + 1 + m = start + (m + 1) by omega]

theorem callsFrom_length (viewState idInit : String) :
    ∀ (m first : Nat), (callsFrom viewState idInit first m).length = m := by
  intro m
  induction m with
  | zero => intro first; rfl
  | succ m ih => intro first; simp [callsFrom, ih]

theorem decodeCatalogPage_more (env : Env) (responseStr : String)
    (page : List CatalogEntry) (more : Bool)
    (h : decodeCatalogPage env responseStr = some (.ok (page, more))) :
    more = (page.length == 20) := by
  unfold decodeCatalogPage at h
  simp only [] at h
  split at h
  · cases h
  · split at h
    · cases h
    · split at h
      · cases h
      · split at h
        · cases h
        · split at h
          · cases h
          · cases h
            rfl

/-- What `fetchResult` is, case by case. -/
theorem fetchResult_eq (env : Env) (w : WebAurionClient) (first : Nat)
    (viewState idInit : String) (reply : Reply) :
    fetchResult env w first viewState idInit reply =
      match env.httpNewRequest "POST"
          (w.GetBaseURL ++ "/webAurion/faces/ChoixEvenementDUnFormulaire.xhtml") with
      | some e => some (.error ("error creating pagination request: " ++ e))
      | none =>
        match reply with
        | .transportError e => some (.error ("error getting page: " ++ e))
        | .readError e => some (.error ("error reading page body: " ++ e))
        | .body responseStr => decodeCatalogPage env responseStr := by
  unfold fetchResult getCatalogPage
  cases env.httpNewRequest "POST"
      (w.GetBaseURL ++ "/webAurion/faces/ChoixEvenementDUnFormulaire.xhtml") with
  | some e => rfl
  | none =>
    cases reply with
    | transportError e => rfl
    | readError e => rfl
    | body responseStr =>
      show Option.map PageFetch.result (Option.map _ (decodeCatalogPage env responseStr)) =
        decodeCatalogPage env responseStr
      cases decodeCatalogPage env responseStr <;> rfl

/-- The flag a successful `getCatalogPage` returns says whether the page holds
exactly 20 records. -/
theorem fetchResult_more (env : Env) (w : WebAurionClient) (first : Nat)
    (viewState idInit : String) (reply : Reply) (page : List CatalogEntry) (more : Bool)
    (h : fetchResult env w first viewState idInit reply = some (.ok (page, more))) :
    more = (page.length == 20) := by
  rw [fetchResult_eq] at h
  split at h
  · cases h
  · split at h
    · cases h
    · cases h
    · exact decodeCatalogPage_more env _ page more h

theorem fetchResult_some {env : Env} {w : WebAurionClient} {first : Nat}
    {viewState idInit : String} {reply : Reply} {r : Except String (List CatalogEntry × Bool)}
    (h : fetchResult env w first viewState idInit reply = some r) :
    ∃ f, getCatalogPage env w first viewState idInit reply = some f ∧ f.result = r := by
  unfold fetchResult at h
  cases hf : getCatalogPage env w first viewState idInit reply with
  | none => simp [hf] at h
  | some f => exact ⟨f, rfl, by simpa [hf] using h⟩

theorem pageLoop_error (env : Env) (w : WebAurionClient) (viewState idInit : String)
    (replies : Nat → Reply) (fuel first pageNum : Nat) (entries : List CatalogEntry)
    (log : List PageCall) (e : String)
    (h : fetchResult env w first viewState idInit (replies log.length) = some (.error e)) :
    pageLoop env w viewState idInit replies (fuel + 1) first pageNum entries log =
      some (entries, log ++ [⟨first, viewState, idInit⟩]) := by
  obtain ⟨f, hf, hr⟩ := fetchResult_some h
  simp [pageLoop, hf, hr]

theorem pageLoop_empty (env : Env) (w : WebAurionClient) (viewState idInit : String)
    (replies : Nat → Reply) (fuel first pageNum : Nat) (entries : List CatalogEntry)
    (log : List PageCall) (more : Bool)
    (h : fetchResult env w first viewState idInit (replies log.length) = some (.ok ([], more))) :
    pageLoop env w viewState idInit replies (fuel + 1) first pageNum entries log =
      some (entries, log ++ [⟨first, viewState, idInit⟩]) := by
  obtain ⟨f, hf, hr⟩ := fetchResult_some h
  simp [pageLoop, hf, hr]

theorem pageLoop_short (env : Env) (w : WebAurionClient) (viewState idInit : String)
    (replies : Nat → Reply) (fuel first pageNum : Nat) (entries : List CatalogEntry)
    (log : List PageCall) (page : List CatalogEntry)
    (h : fetchResult env w first viewState idInit (replies log.length) =
      some (.ok (page, false))) :
    pageLoop env w viewState idInit replies (fuel + 1) first pageNum entries log =
      some (entries ++ page, log ++ [⟨first, viewState, idInit⟩]) := by
  obtain ⟨f, hf, hr⟩ := fetchResult_some h
  cases page with
  | nil => simp [pageLoop, hf, hr]
  | cons a l => simp [pageLoop, hf, hr]

theorem pageLoop_ceiling (env : Env) (w : WebAurionClient) (viewState idInit : String)
    (replies : Nat → Reply) (fuel first pageNum : Nat) (entries : List CatalogEntry)
    (log : List PageCall) (page : List CatalogEntry) (more : Bool)
    (h : fetchResult env w first viewState idInit (replies log.length) =
      some (.ok (page, more)))
    (hp : 100 ≤ pageNum) :
    pageLoop env w viewState idInit replies (fuel + 1) first pageNum entries log =
      some (entries ++ page, log ++ [⟨first, viewState, idInit⟩]) := by
  obtain ⟨f, hf, hr⟩ := fetchResult_some h
  have hp2 : pageNum + 1 > 100 := by omega
  cases page with
  | nil => simp [pageLoop, hf, hr]
  | cons a l => simp [pageLoop, hf, hr, hp2]

theorem pageLoop_continue (env : Env) (w : WebAurionClient) (viewState idInit : String)
    (replies : Nat → Reply) (fuel first pageNum : Nat) (entries : List CatalogEntry)
    (log : List PageCall) (page : List CatalogEntry)
    (h : fetchResult env w first viewState idInit (replies log.length) =
      some (.ok (page, true)))
    (hp : pageNum < 100) :
    pageLoop env w viewState idInit replies (fuel + 1) first pageNum entries log =
      pageLoop env w viewState idInit replies fuel (first + 20) (pageNum + 1)
        (entries ++ page) (log ++ [⟨first, viewState, idInit⟩]) := by
  obtain ⟨f, hf, hr⟩ := fetchResult_some h
  have hlen : page.length = 20 := by
    have := fetchResult_more env w first viewState idInit _ page true h
    simpa using this.symm
  have hne : page.length ≠ 0 := by omega
  have hp2 : ¬ (pageNum + 1 > 100) := by omega
  conv_lhs => unfold pageLoop
  simp [hf, hr, hne, hp2]

/-- As long as the fetched pages are full and the ceiling is not reached, the
loop appends each page and goes on to the next offset. -/
theorem pageLoop_full (env : Env) (w : WebAurionClient) (viewState idInit : String)
    (replies : Nat → Reply) (pages : Nat → List CatalogEntry) :
    ∀ (m fuel first pageNum : Nat) (entries : List CatalogEntry) (log : List PageCall),
      (∀ k, k < m →
        fetchResult env w (first + 20 * k) viewState idInit (replies (log.length + k)) =
          some (.ok (pages (log.length + k), true))) →
      pageNum + m ≤ 100 →
      pageLoop env w viewState idInit replies (fuel + m) first pageNum entries log =
        pageLoop env w viewState idInit replies fuel (first + 20 * m) (pageNum + m)
          (entries ++ pagesFrom pages log.length m)
          (log ++ callsFrom viewState idInit first m) := by
  intro m
  induction m with
  | zero => intro fuel first pageNum entries log _ _; simp [pagesFrom, callsFrom]
  | succ m ih =>
    intro fuel first pageNum entries log h hp
    have h0 := h 0 (Nat.succ_pos m)
    simp only [Nat.mul_zero, Nat.add_zero] at h0
    rw [show fuel + (m + 1) = (fuel + m) + 1 by omega,
      pageLoop_continue env w viewState idInit replies (fuel + m) first pageNum entries log
        (pages log.length) h0 (by omega)]
    have hlen : (log ++ [(⟨first, viewState, idInit⟩ : PageCall)]).length = log.length + 1 := by
      simp
    rw [ih fuel (first + 20) (pageNum + 1) (entries ++ pages log.length)
      (log ++ [(⟨first, viewState, idInit⟩ : PageCall)])]
    · rw [hlen]
      simp only [pagesFrom, callsFrom, List.append_assoc, List.singleton_append]
      congr 1 <;> omega
    · intro k hk
      rw [hlen]
      have := h (k + 1) (Nat.succ_lt_succ hk)
      rw [show first + 20 * (k + 1) = first + 20 + 20 * k by omega,
        show log.length + (k + 1) = log.length + 1 + k by omega] at this
      exact this
    · omega

theorem callsFrom_append (viewState idInit : String) :
    ∀ (m first : Nat),
      callsFrom viewState idInit first (m + 1) =
        callsFrom viewState idInit first m ++ [⟨first + 20 * m, viewState, idInit⟩] := by
  intro m
  induction m with
  | zero => intro first; simp [callsFrom]
  | succ m ih =>
    intro first
    rw [callsFrom, ih (first + 20), callsFrom]
    simp [show first + 20 + 20 * m = first + 20 * (m + 1) by omega]

/-- The result of `getCatalogPage` does not depend on the offset, the token
or the identifier it sends. -/
theorem fetchResult_args (env : Env) (w : WebAurionClient) (first first2 : Nat)
    (viewState idInit viewState2 idInit2 : String) (reply : Reply) :
    fetchResult env w first viewState idInit reply =
      fetchResult env w first2 viewState2 idInit2 reply := by
  rw [fetchResult_eq, fetchResult_eq]

/-- With a parsed first page that carries an enabled next-page control,
`GetCatalogEntries` returns what the page loop gathers. -/
theorem GetCatalogEntries_paged (env : Env) (w : WebAurionClient) (catalogIndex : Int)
    (catalogs : List Catalog) (doRequest : String → Except String String)
    (replies : Nat → Reply) (payload data : String) (doc : Document)
    (es : List CatalogEntry) (log : List PageCall)
    (hpayload : GetCatalogPayload w catalogIndex catalogs = .ok payload)
    (hdata : doRequest payload = .ok data)
    (hdoc : env.parseHTML data = .ok doc)
    (hnext : doc.paginatorNext.length > 0)
    (hloop : pageLoop env w (w.GetViewState data false).1 (pageIdInit doc) replies 99 20 2
      (ParseCatalogEntries env doc) [] = some (es, log)) :
    GetCatalogEntries env w catalogIndex catalogs doRequest replies =
      some ⟨.ok (NewCatalogReport es), log⟩ := by
  unfold GetCatalogEntries
  simp [hpayload, hdata, hdoc, hnext, hloop]

/-- Walk that ends on a page the loop takes for the last one: `n` full pages,
then a page flagged as not full. -/
theorem pageLoop_walk_short (env : Env) (w : WebAurionClient) (viewState idInit : String)
    (replies : Nat → Reply) (pages : Nat → List CatalogEntry) (entries : List CatalogEntry)
    (n : Nat) (hn : n ≤ 98)
    (hfull : ∀ k, k < n →
      fetchResult env w (20 * (k + 1)) viewState idInit (replies k) =
        some (.ok (pages k, true)))
    (hlast : fetchResult env w (20 * (n + 1)) viewState idInit (replies n) =
      some (.ok (pages n, false))) :
    pageLoop env w viewState idInit replies 99 20 2 entries [] =
      some (entries ++ pagesFrom pages 0 (n + 1), callsFrom viewState idInit 20 (n + 1)) := by
  have h1 := pageLoop_full env w viewState idInit replies pages n (99 - n) 20 2 entries []
    (by
      intro k hk
      have := hfull k hk
      simpa [show 20 + 20 * k = 20 * (k + 1) by omega] using this)
    (by omega)
  rw [show 99 - n + n = 99 by omega] at h1
  rw [h1, show 99 - n = (98 - n) + 1 by omega]
  have hlen : ([] ++ callsFrom viewState idInit 20 n).length = n := by
    simp [callsFrom_length]
  rw [pageLoop_short env w viewState idInit replies (98 - n) (20 + 20 * n) (2 + n) _ _ (pages n)
    (by
      rw [hlen, show 20 + 20 * n = 20 * (n + 1) by omega]
      exact hlast)]
  simp [pagesFrom_append, callsFrom_append, List.append_assoc]

/-- Walk that reaches the ceiling: 99 fetched pages, all flagged as full. -/
theorem pageLoop_walk_ceiling (env : Env) (w : WebAurionClient) (viewState idInit : String)
    (replies : Nat → Reply) (pages : Nat → List CatalogEntry) (entries : List CatalogEntry)
    (hfull : ∀ k, k < 99 →
      fetchResult env w (20 * (k + 1)) viewState idInit (replies k) =
        some (.ok (pages k, true))) :
    pageLoop env w viewState idInit replies 99 20 2 entries [] =
      some (entries ++ pagesFrom pages 0 99, callsFrom viewState idInit 20 99) := by
  have h1 := pageLoop_full env w viewState idInit replies pages 98 1 20 2 entries []
    (by
      intro k hk
      have := hfull k (by omega)
      simpa [show 20 + 20 * k = 20 * (k + 1) by omega] using this)
    (by omega)
  rw [show (1 : Nat) + 98 = 99 by rfl] at h1
  rw [h1]
  have hlen : ([] ++ callsFrom viewState idInit 20 98).length = 98 := by
    simp [callsFrom_length]
  rw [pageLoop_ceiling env w viewState idInit replies 0 (20 + 20 * 98) (2 + 98) _ _ (pages 98)
    true
    (by
      rw [hlen]
      exact hfull 98 (by omega))
    (by omega)]
  rw [pagesFrom_append pages 98 0, callsFrom_append viewState idInit 98 20]
  simp only [List.nil_append, List.append_assoc, Nat.zero_add, List.length_nil]

/-- Walk cut by a failing fetch: `j` full pages, then an error. -/
theorem pageLoop_walk_error (env : Env) (w : WebAurionClient) (viewState idInit : String)
    (replies : Nat → Reply) (pages : Nat → List CatalogEntry) (entries : List CatalogEntry)
    (j : Nat) (e : String) (hj : j < 99)
    (hfull : ∀ k, k < j →
      fetchResult env w (20 * (k + 1)) viewState idInit (replies k) =
        some (.ok (pages k, true)))
    (herr : fetchResult env w (20 * (j + 1)) viewState idInit (replies j) =
      some (.error e)) :
    pageLoop env w viewState idInit replies 99 20 2 entries [] =
      some (entries ++ pagesFrom pages 0 j, callsFrom viewState idInit 20 (j + 1)) := by
  have h1 := pageLoop_full env w viewState idInit replies pages j (99 - j) 20 2 entries []
    (by
      intro k hk
      have := hfull k hk
      simpa [show 20 + 20 * k = 20 * (k + 1) by omega] using this)
    (by omega)
  rw [show 99 - j + j = 99 by omega] at h1
  rw [h1, show 99 - j = (98 - j) + 1 by omega]
  have hlen : ([] ++ callsFrom viewState idInit 20 j).length = j := by
    simp [callsFrom_length]
  rw [pageLoop_error env w viewState idInit replies (98 - j) (20 + 20 * j) (2 + j) _ _ e
    (by
      rw [hlen, show 20 + 20 * j = 20 * (j + 1) by omega]
      exact herr)]
  simp [callsFrom_append]

/-! ## Pagination: the claims -/

/-- C1 (amended): for every K with 2 ≤ K ≤ 100 and every r < 20, when the first
page carries an enabled next-page control and yields 20 records, every fetched
page before the last yields 20 records and the K-th page yields r records,
`GetCatalogEntries` returns a report of exactly 20*(K-1) + r records, the
records of the pages in page order, and calls `getCatalogPage` exactly K-1
times, at the offsets 20, 40, ...: the first page comes from `doRequest`. -/
theorem C1_pagination_K_pages (env : Env) (w : WebAurionClient) (catalogIndex : Int)
    (catalogs : List Catalog) (doRequest : String → Except String String)
    (replies : Nat → Reply) (payload data : String) (doc : Document)
    (pages : Nat → List CatalogEntry) (K r : Nat)
    (hK : 2 ≤ K) (hK100 : K ≤ 100) (hr : r < 20)
    (hpayload : GetCatalogPayload w catalogIndex catalogs = .ok payload)
    (hdata : doRequest payload = .ok data)
    (hdoc : env.parseHTML data = .ok doc)
    (hnext : doc.paginatorNext.length > 0)
    (hfirst : (ParseCatalogEntries env doc).length = 20)
    (hfetch : ∀ k, k < K - 1 → ∃ more,
      fetchResult env w (20 * (k + 1)) (w.GetViewState data false).1 (pageIdInit doc)
        (replies k) = some (.ok (pages k, more)))
    (hfull : ∀ k, k < K - 2 → (pages k).length = 20)
    (hlast : (pages (K - 2)).length = r) :
    ∃ run, GetCatalogEntries env w catalogIndex catalogs doRequest replies = some run ∧
      run.result =
        .ok (NewCatalogReport (ParseCatalogEntries env doc ++ pagesFrom pages 0 (K - 1))) ∧
      (ParseCatalogEntries env doc ++ pagesFrom pages 0 (K - 1)).length = 20 * (K - 1) + r ∧
      run.calls = callsFrom (w.GetViewState data false).1 (pageIdInit doc) 20 (K - 1) ∧
      run.calls.length = K - 1 := by
  obtain ⟨n, rfl⟩ : ∃ n, K = n + 2 := ⟨K - 2, by omega⟩
  simp only [Nat.add_sub_cancel, show n + 2 - 1 = n + 1 by omega] at *
  have hfullFetch : ∀ k, k < n →
      fetchResult env w (20 * (k + 1)) (w.GetViewState data false).1 (pageIdInit doc)
        (replies k) = some (.ok (pages k, true)) := by
    intro k hk
    obtain ⟨more, hm⟩ := hfetch k (by omega)
    have := fetchResult_more _ _ _ _ _ _ _ _ hm
    rw [hfull k hk] at this
    rw [hm, this]
    rfl
  have hlastFetch :
      fetchResult env w (20 * (n + 1)) (w.GetViewState data false).1 (pageIdInit doc)
        (replies n) = some (.ok (pages n, false)) := by
    obtain ⟨more, hm⟩ := hfetch n (by omega)
    have := fetchResult_more _ _ _ _ _ _ _ _ hm
    rw [hlast] at this
    have hne : (r == 20) = false := by simp; omega
    rw [hm, this, hne]
  have hloop := pageLoop_walk_short env w _ _ replies pages (ParseCatalogEntries env doc) n
    (by omega) hfullFetch hlastFetch
  refine ⟨_, GetCatalogEntries_paged env w catalogIndex catalogs doRequest replies payload data
    doc _ _ hpayload hdata hdoc hnext hloop, rfl, ?_, rfl, ?_⟩
  · have h20 : (pagesFrom pages 0 n).length = 20 * n :=
      pagesFrom_length pages 20 n 0 (by intro k hk; simpa using hfull k hk)
    rw [List.length_append, pagesFrom_append, List.length_append, h20, hfirst]
    simp only [Nat.zero_add, hlast]
    omega
  · simp [callsFrom_length]

/-- C1, as stated, fails on a two-page listing (K = 2, r = 5): the first page
has an enabled next-page control and 20 records, the second page yields 5
records, the report holds 25 = 20*(2-1) + 5 records, and `getCatalogPage` has
been called once, not twice. -/
theorem C1_counterexample :
    fixtureFirstPage.paginatorNext.length > 0 ∧
    (ParseCatalogEntries fixtureEnv fixtureFirstPage).length = 20 ∧
    fetchResult fixtureEnv fixtureClient 20 "tok" "" shortReply =
      some (.ok (List.replicate 5 (NewCatalogEntry "ACME" "Brest" "29200" "2024" 7), false)) ∧
    (GetCatalogEntries fixtureEnv fixtureClient 0 fixtureCatalogs (fun _ => .ok "first")
      (fun _ => shortReply)).map
        (fun run => (run.result.map CatalogReport.TotalEntries, run.calls.length)) =
      some (.ok 25, 1) ∧
    (1 : Nat) ≠ 2 := by
  set_option maxRecDepth 100000 in decide

set_option maxRecDepth 100000 in
/-- C1 (amended) on the two-page fixture: K = 2, r = 5. -/
theorem C1_pagination_K_pages_witness :
    ∃ run, GetCatalogEntries fixtureEnv fixtureClient 0 fixtureCatalogs (fun _ => .ok "first")
        (fun _ => shortReply) = some run ∧
      run.result =
        .ok (NewCatalogReport (ParseCatalogEntries fixtureEnv fixtureFirstPage ++
          pagesFrom (fun _ => List.replicate 5 (NewCatalogEntry "ACME" "Brest" "29200" "2024" 7))
            0 (2 - 1))) ∧
      (ParseCatalogEntries fixtureEnv fixtureFirstPage ++
          pagesFrom (fun _ => List.replicate 5 (NewCatalogEntry "ACME" "Brest" "29200" "2024" 7))
            0 (2 - 1)).length = 20 * (2 - 1) + 5 ∧
      run.calls = callsFrom (fixtureClient.GetViewState "first" false).1
        (pageIdInit fixtureFirstPage) 20 (2 - 1) ∧
      run.calls.length = 2 - 1 :=
  C1_pagination_K_pages fixtureEnv fixtureClient 0 fixtureCatalogs (fun _ => .ok "first")
    (fun _ => shortReply)
    (BuildCatalogPayload fixtureClient.GetPayload "1_0") "first" fixtureFirstPage
    (fun _ => List.replicate 5 (NewCatalogEntry "ACME" "Brest" "29200" "2024" 7)) 2 5
    (by decide) (by decide) (by decide) (by decide) rfl (by decide) (by decide) (by decide)
    (by
      intro k _
      refine ⟨false, ?_⟩
      rw [fetchResult_args fixtureEnv fixtureClient _ 20 _ _ "tok" ""]
      beta_reduce
      decide)
    (by intro k hk; omega) (by decide)

/-- C2: when the first page has 20 records and an enabled next-page control and
every page fetch returns exactly 20 records, `GetCatalogEntries` stops at the
100-page ceiling: the report holds the first page and the 99 pages fetched
after it, 100 * 20 = 2000 records, and `getCatalogPage` is called exactly 99
times (pages 2 to 100), never for a page beyond the 100th. -/
theorem C2_pagination_stops_at_ceiling (env : Env) (w : WebAurionClient) (catalogIndex : Int)
    (catalogs : List Catalog) (doRequest : String → Except String String)
    (replies : Nat → Reply) (payload data : String) (doc : Document)
    (pages : Nat → List CatalogEntry)
    (hpayload : GetCatalogPayload w catalogIndex catalogs = .ok payload)
    (hdata : doRequest payload = .ok data)
    (hdoc : env.parseHTML data = .ok doc)
    (hnext : doc.paginatorNext.length > 0)
    (hfirst : (ParseCatalogEntries env doc).length = 20)
    (hfetch : ∀ k, k < 99 → ∃ more,
      fetchResult env w (20 * (k + 1)) (w.GetViewState data false).1 (pageIdInit doc)
        (replies k) = some (.ok (pages k, more)) ∧ (pages k).length = 20) :
    ∃ run, GetCatalogEntries env w catalogIndex catalogs doRequest replies = some run ∧
      run.result =
        .ok (NewCatalogReport (ParseCatalogEntries env doc ++ pagesFrom pages 0 99)) ∧
      (ParseCatalogEntries env doc ++ pagesFrom pages 0 99).length = 100 * 20 ∧
      run.calls = callsFrom (w.GetViewState data false).1 (pageIdInit doc) 20 99 ∧
      run.calls.length = 99 := by
  have hfullFetch : ∀ k, k < 99 →
      fetchResult env w (20 * (k + 1)) (w.GetViewState data false).1 (pageIdInit doc)
        (replies k) = some (.ok (pages k, true)) := by
    intro k hk
    obtain ⟨more, hm, hl⟩ := hfetch k hk
    have := fetchResult_more _ _ _ _ _ _ _ _ hm
    rw [hl] at this
    rw [hm, this]
    rfl
  have hloop := pageLoop_walk_ceiling env w _ _ replies pages (ParseCatalogEntries env doc)
    hfullFetch
  refine ⟨_, GetCatalogEntries_paged env w catalogIndex catalogs doRequest replies payload data
    doc _ _ hpayload hdata hdoc hnext hloop, rfl, ?_, rfl, ?_⟩
  · have h20 : (pagesFrom pages 0 99).length = 20 * 99 :=
      pagesFrom_length pages 20 99 0 (by
        intro k hk
        obtain ⟨_, _, hl⟩ := hfetch k hk
        simpa using hl)
    rw [List.length_append, h20, hfirst]
  · simp [callsFrom_length]

set_option maxRecDepth 100000 in
/-- C2 on the fixture whose every pagination reply is a full page. -/
theorem C2_pagination_stops_at_ceiling_witness :
    ∃ run, GetCatalogEntries fixtureEnv fixtureClient 0 fixtureCatalogs (fun _ => .ok "first")
        (fun _ => fullReply) = some run ∧
      run.result =
        .ok (NewCatalogReport (ParseCatalogEntries fixtureEnv fixtureFirstPage ++
          pagesFrom (fun _ => List.replicate 20 (NewCatalogEntry "ACME" "Brest" "29200" "2024" 7))
            0 99)) ∧
      (ParseCatalogEntries fixtureEnv fixtureFirstPage ++
          pagesFrom (fun _ => List.replicate 20 (NewCatalogEntry "ACME" "Brest" "29200" "2024" 7))
            0 99).length = 100 * 20 ∧
      run.calls = callsFrom (fixtureClient.GetViewState "first" false).1
        (pageIdInit fixtureFirstPage) 20 99 ∧
      run.calls.length = 99 :=
  C2_pagination_stops_at_ceiling fixtureEnv fixtureClient 0 fixtureCatalogs
    (fun _ => .ok "first") (fun _ => fullReply)
    (BuildCatalogPayload fixtureClient.GetPayload "1_0") "first" fixtureFirstPage
    (fun _ => List.replicate 20 (NewCatalogEntry "ACME" "Brest" "29200" "2024" 7))
    (by decide) rfl (by decide) (by decide) (by decide)
    (by
      intro k _
      refine ⟨true, ?_, by beta_reduce; decide⟩
      rw [fetchResult_args fixtureEnv fixtureClient _ 20 _ _ "tok" ""]
      beta_reduce
      decide)

/-- C3: if the fetch number `j` of the walk returns an error (the `j` fetches
before it having each returned a full page, so that the walk reached it),
`GetCatalogEntries` stops there (`j + 1` calls) and returns, with a nil error,
the report of the records of the first page followed by the records of the `j`
pages fetched before the failure, in order. -/
theorem C3_fetch_error_keeps_gathered_records (env : Env) (w : WebAurionClient)
    (catalogIndex : Int) (catalogs : List Catalog)
    (doRequest : String → Except String String) (replies : Nat → Reply)
    (payload data : String) (doc : Document) (pages : Nat → List CatalogEntry)
    (j : Nat) (e : String) (hj : j < 99)
    (hpayload : GetCatalogPayload w catalogIndex catalogs = .ok payload)
    (hdata : doRequest payload = .ok data)
    (hdoc : env.parseHTML data = .ok doc)
    (hnext : doc.paginatorNext.length > 0)
    (hok : ∀ k, k < j →
      fetchResult env w (20 * (k + 1)) (w.GetViewState data false).1 (pageIdInit doc)
        (replies k) = some (.ok (pages k, true)))
    (herr : fetchResult env w (20 * (j + 1)) (w.GetViewState data false).1 (pageIdInit doc)
      (replies j) = some (.error e)) :
    ∃ run, GetCatalogEntries env w catalogIndex catalogs doRequest replies = some run ∧
      run.result =
        .ok (NewCatalogReport (ParseCatalogEntries env doc ++ pagesFrom pages 0 j)) ∧
      run.calls.length = j + 1 := by
  have hloop := pageLoop_walk_error env w _ _ replies pages (ParseCatalogEntries env doc) j e
    hj hok herr
  refine ⟨_, GetCatalogEntries_paged env w catalogIndex catalogs doRequest replies payload data
    doc _ _ hpayload hdata hdoc hnext hloop, rfl, ?_⟩
  simp [callsFrom_length]

set_option maxRecDepth 100000 in
/-- C3 on a fixture whose second pagination POST fails: one full page gathered
after the first one, then a transport error. -/
theorem C3_fetch_error_keeps_gathered_records_witness :
    ∃ run, GetCatalogEntries fixtureEnv fixtureClient 0 fixtureCatalogs (fun _ => .ok "first")
        (fun n => if n = 0 then fullReply else .transportError "timeout") = some run ∧
      run.result =
        .ok (NewCatalogReport (ParseCatalogEntries fixtureEnv fixtureFirstPage ++
          pagesFrom (fun _ => List.replicate 20 (NewCatalogEntry "ACME" "Brest" "29200" "2024" 7))
            0 1)) ∧
      run.calls.length = 1 + 1 :=
  C3_fetch_error_keeps_gathered_records fixtureEnv fixtureClient 0 fixtureCatalogs
    (fun _ => .ok "first") (fun n => if n = 0 then fullReply else .transportError "timeout")
    (BuildCatalogPayload fixtureClient.GetPayload "1_0") "first" fixtureFirstPage
    (fun _ => List.replicate 20 (NewCatalogEntry "ACME" "Brest" "29200" "2024" 7))
    1 "error getting page: timeout" (by decide) (by decide) rfl (by decide) (by decide)
    (by
      intro k hk
      obtain rfl : k = 0 := by omega
      decide)
    (by decide)

/-! ## Listing extraction -/

/-- The callback keeps a well-formed row as one record and drops any other. -/
theorem parseCatalogRow_eq (env : Env) (entries : List CatalogEntry) (row : Row) :
    parseCatalogRow env entries row =
      entries ++ (if wellFormedRow row then
        [catalogRowEntry env ((row.Attr "data-ri").getD "") row.cells] else []) := by
  unfold parseCatalogRow wellFormedRow
  cases h : row.Attr "data-ri" with
  | none => simp
  | some ri =>
    by_cases hc : row.cells.length < 1
    · have : ¬ (1 ≤ row.cells.length) := by omega
      simp [hc, this]
    · have : 1 ≤ row.cells.length := by omega
      simp [hc, this]

theorem foldl_parseCatalogRow (env : Env) (rows : List Row) :
    ∀ entries : List CatalogEntry,
      rows.foldl (parseCatalogRow env) entries =
        entries ++ (rows.filter wellFormedRow).map
          (fun r => catalogRowEntry env ((r.Attr "data-ri").getD "") r.cells) := by
  induction rows with
  | nil => intro entries; simp
  | cons r rs ih =>
    intro entries
    rw [List.foldl_cons, ih, parseCatalogRow_eq]
    by_cases h : wellFormedRow r = true
    · simp [h, List.filter_cons]
    · simp [h, List.filter_cons]

/-- C4: for every listing document whose table body holds N well-formed rows
(marker `data-ri` present and at least one cell) and M malformed rows (marker
absent or no cell), in any order, `ParseCatalogEntries` returns exactly N
records: the record of each well-formed row, in the document order of those
rows.  The function has no error result. -/
theorem C4_ParseCatalogEntries_one_record_per_wellformed_row (env : Env) (doc : Document)
    (N M : Nat)
    (hN : (doc.catalogRows.filter wellFormedRow).length = N)
    (hM : (doc.catalogRows.filter (fun r => !wellFormedRow r)).length = M) :
    doc.catalogRows.length = N + M ∧
    (ParseCatalogEntries env doc).length = N ∧
    ParseCatalogEntries env doc =
      (doc.catalogRows.filter wellFormedRow).map
        (fun r => catalogRowEntry env ((r.Attr "data-ri").getD "") r.cells) := by
  have hparse := foldl_parseCatalogRow env doc.catalogRows []
  simp only [List.nil_append] at hparse
  refine ⟨?_, ?_, hparse⟩
  · rw [← hN, ← hM]
    have := List.length_eq_countP_add_countP (l := doc.catalogRows) (fun r => wellFormedRow r)
    simpa [List.countP_eq_length_filter] using this
  · unfold ParseCatalogEntries
    rw [hparse, List.length_map, hN]

/-- C4 on a table body that interleaves two malformed rows (no marker, no
cell) with three well-formed rows of 4, 2 and 1 cells. -/
theorem C4_ParseCatalogEntries_one_record_per_wellformed_row_witness :
    fixtureMixedListing.catalogRows.length = 3 + 2 ∧
    (ParseCatalogEntries fixtureEnv fixtureMixedListing).length = 3 ∧
    ParseCatalogEntries fixtureEnv fixtureMixedListing =
      (fixtureMixedListing.catalogRows.filter wellFormedRow).map
        (fun r => catalogRowEntry fixtureEnv ((r.Attr "data-ri").getD "") r.cells) :=
  C4_ParseCatalogEntries_one_record_per_wellformed_row fixtureEnv fixtureMixedListing 3 2
    (by decide) (by decide)

/-! ## String search: where `strings.Index` points -/

theorem indexFrom_spec (sub : List Char) :
    ∀ (s : List Char) (i j : Nat), strings.indexFrom sub s i = some j →
      ∃ k, j = i + k ∧ k ≤ s.length ∧ sub.isPrefixOf (s.drop k) = true := by
  intro s
  induction s with
  | nil =>
    intro i j h
    unfold strings.indexFrom at h
    split at h
    · next hp =>
      refine ⟨0, ?_, Nat.le_refl _, by simpa using hp⟩
      simpa using (Option.some.inj h).symm
    · simp at h
  | cons c cs ih =>
    intro i j h
    unfold strings.indexFrom at h
    split at h
    · next hp =>
      refine ⟨0, ?_, Nat.zero_le _, by simpa using hp⟩
      simpa using (Option.some.inj h).symm
    · obtain ⟨k, hk, hle, hp⟩ := ih (i + 1) j h
      exact ⟨k + 1, by omega, by simp; omega, by simpa using hp⟩

/-- A found occurrence: `Index` is a position of the text at which the pattern
starts. -/
theorem Index_found (s sub : String) (h : strings.Index s sub ≠ -1) :
    ∃ k : Nat, strings.Index s sub = (k : Int) ∧ k ≤ s.data.length ∧
      sub.data.isPrefixOf (s.data.drop k) = true := by
  unfold strings.Index at h ⊢
  cases hi : strings.indexFrom sub.data s.data 0 with
  | none => simp [hi] at h
  | some j =>
    obtain ⟨k, hk, hle, hp⟩ := indexFrom_spec sub.data s.data 0 j hi
    refine ⟨k, ?_, hle, hp⟩
    simp [hk]

theorem isPrefixOf_length {a b : List Char} (h : a.isPrefixOf b = true) :
    a.length ≤ b.length := by
  have := List.isPrefixOf_iff_prefix.mp h
  exact this.length_le

/-- The end marker of a CDATA section is never found inside its opening. -/
theorem cdata_end_after_opening (s2 : List Char) (c2 : Nat)
    (hopen : "<![CDATA[".data.isPrefixOf s2 = true)
    (hend : "]]>".data.isPrefixOf (s2.drop c2) = true) : 9 ≤ c2 := by
  obtain ⟨rest, rfl⟩ := List.isPrefixOf_iff_prefix.mp hopen
  by_contra hlt
  have hc : c2 < 9 := by omega
  interval_cases c2 <;> simp [List.isPrefixOf] at hend

/-- The slice `responseStr[cdataStart+9 : cdataEnd]` of `getCatalogPage` is
always in range. -/
theorem cdata_slice_in_range (responseStr : String)
    (h1 : strings.Index responseStr "<update id=\"form:j_idt193\">" ≠ -1)
    (h2 : strings.Index (strings.sliceFrom responseStr
      (strings.Index responseStr "<update id=\"form:j_idt193\">")) "<![CDATA[" ≠ -1)
    (h3 : strings.Index (strings.sliceFrom responseStr
      (strings.Index (strings.sliceFrom responseStr
        (strings.Index responseStr "<update id=\"form:j_idt193\">")) "<![CDATA[" +
        strings.Index responseStr "<update id=\"form:j_idt193\">")) "]]>" ≠ -1) :
    ∃ html, strings.slice responseStr
      (strings.Index (strings.sliceFrom responseStr
        (strings.Index responseStr "<update id=\"form:j_idt193\">")) "<![CDATA[" +
        strings.Index responseStr "<update id=\"form:j_idt193\">" + 9)
      (strings.Index (strings.sliceFrom responseStr
        (strings.Index (strings.sliceFrom responseStr
          (strings.Index responseStr "<update id=\"form:j_idt193\">")) "<![CDATA[" +
          strings.Index responseStr "<update id=\"form:j_idt193\">")) "]]>" +
        (strings.Index (strings.sliceFrom responseStr
          (strings.Index responseStr "<update id=\"form:j_idt193\">")) "<![CDATA[" +
          strings.Index responseStr "<update id=\"form:j_idt193\">")) = some html := by
  obtain ⟨t, ht, htle, _⟩ := Index_found _ _ h1
  rw [ht] at h2 h3 ⊢
  obtain ⟨c1, hc1, hc1le, hp1⟩ := Index_found _ _ h2
  rw [hc1] at h3 ⊢
  obtain ⟨c2, hc2, hc2le, hp2⟩ := Index_found _ _ h3
  rw [hc2]
  simp only [strings.sliceFrom, Int.toNat_ofNat, List.drop_drop, List.length_drop] at *
  have hcast : ((c1 : Int) + (t : Int)).toNat = c1 + t := by omega
  rw [hcast] at hp2 hc2le
  rw [show t + c1 = c1 + t by omega] at hp1
  have h9 : 9 ≤ c2 :=
    cdata_end_after_opening (responseStr.data.drop (c1 + t)) c2 hp1
      (by rw [List.drop_drop]; exact hp2)
  have hlen1 := isPrefixOf_length hp1
  have hlen2 := isPrefixOf_length hp2
  simp only [List.length_drop] at hlen1 hlen2
  have e1 : "<![CDATA[".data.length = 9 := by decide
  have e2 : "]]>".data.length = 3 := by decide
  rw [e1] at hlen1
  rw [e2] at hlen2
  unfold strings.slice
  rw [if_pos (by omega)]
  exact ⟨_, rfl⟩

/-! ## The pagination request -/

/-- The decoding of a reply never slices out of range. -/
theorem decodeCatalogPage_isSome (env : Env) (responseStr : String) :
    ∃ r, decodeCatalogPage env responseStr = some r := by
  unfold decodeCatalogPage
  simp only []
  split
  · exact ⟨_, rfl⟩
  · next h1 =>
    split
    · exact ⟨_, rfl⟩
    · next h2 =>
      split
      · exact ⟨_, rfl⟩
      · next h3 =>
        obtain ⟨html, hh⟩ := cdata_slice_in_range responseStr h1 h2 h3
        rw [hh]
        simp only []
        split <;> exact ⟨_, rfl⟩

/-- Function `getCatalogPage` never panics. -/
theorem getCatalogPage_isSome (env : Env) (w : WebAurionClient) (first : Nat)
    (viewState idInit : String) (reply : Reply) :
    ∃ f, getCatalogPage env w first viewState idInit reply = some f := by
  unfold getCatalogPage
  simp only []
  split
  · exact ⟨_, rfl⟩
  · split
    · exact ⟨_, rfl⟩
    · exact ⟨_, rfl⟩
    · next responseStr =>
      obtain ⟨r, hr⟩ := decodeCatalogPage_isSome env responseStr
      rw [hr]
      exact ⟨_, rfl⟩

/-- Once the request is created, the body handed to the client is the
pagination body built from the values lifted from the base payload. -/
theorem getCatalogPage_sent (env : Env) (w : WebAurionClient) (first : Nat)
    (viewState idInit : String) (reply : Reply) (f : PageFetch)
    (hreq : env.httpNewRequest "POST"
      (w.GetBaseURL ++ "/webAurion/faces/ChoixEvenementDUnFormulaire.xhtml") = none)
    (hf : getCatalogPage env w first viewState idInit reply = some f) :
    f.sent = some (paginationBody env first (paginationFields w.GetPayload).1 idInit
      (paginationFields w.GetPayload).2 viewState) := by
  unfold getCatalogPage at hf
  simp only [hreq] at hf
  split at hf
  · cases hf; rfl
  · cases hf; rfl
  · next responseStr =>
    cases hd : decodeCatalogPage env responseStr with
    | none => rw [hd] at hf; cases hf
    | some r => rw [hd] at hf; cases hf; rfl

theorem foldl_scanPayloadPart_fst (parts : List String) :
    ∀ acc : String × String,
      (∀ part, part ∈ parts → strings.HasPrefix part "form:largeurDivCenter=" = false) →
      (parts.foldl scanPayloadPart acc).1 = acc.1 := by
  induction parts with
  | nil => intro acc _; rfl
  | cons p ps ih =>
    intro acc h
    rw [List.foldl_cons, ih _ (fun part hp => h part (List.mem_cons_of_mem _ hp))]
    have hp := h p (List.mem_cons_self _ _)
    unfold scanPayloadPart
    rw [hp]
    simp only [Bool.false_eq_true, if_false]
    split <;> rfl

theorem foldl_scanPayloadPart_snd (parts : List String) :
    ∀ acc : String × String,
      (∀ part, part ∈ parts → strings.HasPrefix part "form:j_idt820_input=" = false) →
      (parts.foldl scanPayloadPart acc).2 = acc.2 := by
  induction parts with
  | nil => intro acc _; rfl
  | cons p ps ih =>
    intro acc h
    rw [List.foldl_cons, ih _ (fun part hp => h part (List.mem_cons_of_mem _ hp))]
    have hp := h p (List.mem_cons_self _ _)
    unfold scanPayloadPart
    rw [hp]
    simp only [Bool.false_eq_true, if_false]
    split <;> rfl

/-- C8 (amended): `getCatalogPage` does not check the two values it lifts from
the base payload.  When the base payload has no part `form:largeurDivCenter=`
(resp. no part `form:j_idt820_input=`) the value stays empty and, the request
being created, the pagination body is handed to the client with that field
blank (`form:largeurDivCenter=` resp. `form:j_idt267_input=` followed by
nothing); no error comes from the missing field: what the call returns is what
it returns with any other base payload. -/
theorem C8_missing_pagination_field_sent_blank (env : Env) (w : WebAurionClient) (first : Nat)
    (viewState idInit : String) (reply : Reply)
    (hreq : env.httpNewRequest "POST"
      (w.GetBaseURL ++ "/webAurion/faces/ChoixEvenementDUnFormulaire.xhtml") = none) :
    ∃ f, getCatalogPage env w first viewState idInit reply = some f ∧
      ((∀ part, part ∈ strings.Split w.GetPayload '&' →
          strings.HasPrefix part "form:largeurDivCenter=" = false) →
        f.sent = some (paginationBody env first "" idInit (paginationFields w.GetPayload).2
          viewState)) ∧
      ((∀ part, part ∈ strings.Split w.GetPayload '&' →
          strings.HasPrefix part "form:j_idt820_input=" = false) →
        f.sent = some (paginationBody env first (paginationFields w.GetPayload).1 idInit ""
          viewState)) ∧
      (∀ w2 : WebAurionClient, w2.GetBaseURL = w.GetBaseURL →
        fetchResult env w2 first viewState idInit reply = some f.result) := by
  obtain ⟨f, hf⟩ := getCatalogPage_isSome env w first viewState idInit reply
  have hsent := getCatalogPage_sent env w first viewState idInit reply f hreq hf
  refine ⟨f, hf, ?_, ?_, ?_⟩
  · intro h
    rw [hsent]
    have := foldl_scanPayloadPart_fst (strings.Split w.GetPayload '&') ("", "") h
    unfold paginationFields
    rw [this]
  · intro h
    rw [hsent]
    have := foldl_scanPayloadPart_snd (strings.Split w.GetPayload '&') ("", "") h
    unfold paginationFields
    rw [this]
  · intro w2 hbase
    have : fetchResult env w first viewState idInit reply = some f.result := by
      unfold fetchResult
      rw [hf]
      rfl
    rw [← this, fetchResult_eq, fetchResult_eq, hbase]

set_option maxRecDepth 100000 in
/-- C8, as stated, fails on a base payload without `form:largeurDivCenter`:
`getCatalogPage` returns the 5 records of the page with no error, and the body
it sent carries `form:largeurDivCenter=` with a blank value. -/
theorem C8_counterexample :
    (∀ part, part ∈ strings.Split fixtureBareClient.GetPayload '&' →
      strings.HasPrefix part "form:largeurDivCenter=" = false) ∧
    getCatalogPage fixtureEnv fixtureBareClient 20 "tok" "id0" shortReply =
      some
        { sent := some "javax.faces.partial.ajax=true&javax.faces.source=form:j_idt193&javax.faces.partial.execute=form:j_idt193&javax.faces.partial.render=form:j_idt193&form:j_idt193=form:j_idt193&form:j_idt193_pagination=true&form:j_idt193_first=20&form:j_idt193_rows=20&form:j_idt193_skipChildren=true&form:j_idt193_encodeFeature=true&form=form&form:largeurDivCenter=&form:idInit=id0&form:messagesRubriqueInaccessible=&form:search-texte=&form:search-texte-avancer=&form:input-expression-exacte=&form:input-un-des-mots=&form:input-aucun-des-mots=&form:input-nombre-debut=&form:input-nombre-fin=&form:calendarDebut_input=&form:calendarFin_input=&form:j_idt193_reflowDD=0_0&form:j_idt193:j_idt198:filter=&form:j_idt193:j_idt200:filter=&form:j_idt193:j_idt202:filter=&form:j_idt193:j_idt204:filter=&form:j_idt267_focus=&form:j_idt267_input=275805&javax.faces.ViewState=tok"
          result :=
            .ok (List.replicate 5 (NewCatalogEntry "ACME" "Brest" "29200" "2024" 7), false) } := by
  decide

set_option maxRecDepth 100000 in
/-- C8 (amended) on the base payload without `form:largeurDivCenter`. -/
theorem C8_missing_pagination_field_sent_blank_witness :
    ∃ f, getCatalogPage fixtureEnv fixtureBareClient 20 "tok" "id0" shortReply = some f ∧
      f.sent = some (paginationBody fixtureEnv 20 "" "id0" "275805" "tok") ∧
      fetchResult fixtureEnv fixtureClient 20 "tok" "id0" shortReply = some f.result := by
  obtain ⟨f, hf, h1, _, h3⟩ :=
    C8_missing_pagination_field_sent_blank fixtureEnv fixtureBareClient 20 "tok" "id0"
      shortReply (by decide)
  exact ⟨f, hf, h1 (by decide), h3 fixtureClient rfl⟩

/-- The iteration budget of the page loop is never used up: from page number
`pageNum ≤ 100`, `101 - pageNum` iterations are enough. -/
theorem pageLoop_isSome (env : Env) (w : WebAurionClient) (viewState idInit : String) (replies : Nat → Reply) :
    ∀ (fuel first pageNum : Nat) (entries : List CatalogEntry) (log : List PageCall),
      pageNum ≤ 100 → 101 ≤ fuel + pageNum →
      ∃ r, pageLoop env w viewState idInit replies fuel first pageNum entries log = some r := by
  intro fuel
  induction fuel with
  | zero => intro first pageNum entries log h1 h2; omega
  | succ fuel ih =>
    intro first pageNum entries log h1 h2
    obtain ⟨f, hf⟩ := getCatalogPage_isSome env w first viewState idInit (replies log.length)
    unfold pageLoop
    simp only [hf]
    split
    · exact ⟨_, rfl⟩
    · split
      · exact ⟨_, rfl⟩
      · split
        · exact ⟨_, rfl⟩
        · split
          · exact ih _ _ _ _ (by omega) (by omega)
          · exact ⟨_, rfl⟩

/-- `GetCatalogEntries` always returns: no panic, and the budget of 99
iterations it gives the page loop is enough. -/
theorem GetCatalogEntries_isSome (env : Env) (w : WebAurionClient) (catalogIndex : Int)
    (catalogs : List Catalog) (doRequest : String → Except String String)
    (replies : Nat → Reply) :
    ∃ run, GetCatalogEntries env w catalogIndex catalogs doRequest replies = some run := by
  unfold GetCatalogEntries
  cases GetCatalogPayload w catalogIndex catalogs with
  | error e => exact ⟨_, rfl⟩
  | ok payload =>
    dsimp only
    cases doRequest payload with
    | error e => exact ⟨_, rfl⟩
    | ok data =>
      dsimp only
      cases env.parseHTML data with
      | error e => exact ⟨_, rfl⟩
      | ok doc =>
        dsimp only
        split
        · obtain ⟨r, hr⟩ := pageLoop_isSome env w (w.GetViewState data false).1 (pageIdInit doc)
            replies 99 20 2 (ParseCatalogEntries env doc) [] (by omega) (by omega)
          rw [hr]
          exact ⟨_, rfl⟩
        · exact ⟨_, rfl⟩

/-! ## State token extraction -/

/-- With `first = false`, `getViewState` leaves the session as it is. -/
theorem getViewState_session (env : Env) (body : Except String String) (w : WebAurion) :
    (getViewState env body false w).2 = w := by
  unfold getViewState
  split
  · rfl
  · simp only [Bool.false_eq_true, if_false]
    split <;> rfl

/-- C5 (amended): state token extraction (`getViewState` with `first = false`)
on a page that is read and parsed.  With no input named
`javax.faces.ViewState` it returns the error "ViewState not found" and an
empty token.  When the first such input carries a `value` attribute it
returns, with no error, exactly the string of that attribute, the empty string
included.  When the first such input has no `value` attribute it returns the
not-found error and an empty token as well.  The session is unchanged. -/
theorem C5_getViewState_token (env : Env) (body : Except String String) (doc : Document)
    (w : WebAurion) (hdoc : body.bind env.parseHTML = .ok doc) :
    (whereAttr doc.inputs "name" "javax.faces.ViewState" = [] →
      getViewState env body false w = (("", some "ViewState not found"), w)) ∧
    (∀ (e : Element) (rest : List Element) (v : String),
      whereAttr doc.inputs "name" "javax.faces.ViewState" = e :: rest →
      e.Attr "value" = some v →
      getViewState env body false w = ((v, none), w)) ∧
    (∀ (e : Element) (rest : List Element),
      whereAttr doc.inputs "name" "javax.faces.ViewState" = e :: rest →
      e.Attr "value" = none →
      getViewState env body false w = (("", some "ViewState not found"), w)) := by
  refine ⟨?_, ?_, ?_⟩
  · intro h
    unfold getViewState
    simp [hdoc, h, selAttr]
  · intro e rest v h hv
    unfold getViewState
    simp [hdoc, h, selAttr, hv]
  · intro e rest h hv
    unfold getViewState
    simp [hdoc, h, selAttr, hv]

/-- C5, as stated, fails on a page that has the token input without a `value`
attribute: the page has the input, and `getViewState` returns the not-found
error. -/
theorem C5_counterexample :
    fixtureEnv.parseHTML "no value" = .ok fixtureNoValue ∧
    whereAttr fixtureNoValue.inputs "name" "javax.faces.ViewState" =
      [{ attrs := [("type", "hidden"), ("name", "javax.faces.ViewState")] }] ∧
    getViewState fixtureEnv (.ok "no value") false NewWebAurion =
      (("", some "ViewState not found"), NewWebAurion) := by
  decide

/-- C5 (amended) on a page whose token input has an empty `value`: the token
is the empty string and there is no error. -/
theorem C5_getViewState_token_witness :
    getViewState fixtureEnv (.ok "empty value") false NewWebAurion =
      (("", none), NewWebAurion) :=
  (C5_getViewState_token fixtureEnv (.ok "empty value") fixtureEmptyValue NewWebAurion
    (by decide)).2.1
    { attrs := [("type", "hidden"), ("name", "javax.faces.ViewState"), ("value", "")] } [] ""
    (by decide) (by decide)

/-! ## Login -/

theorem samePool_refl (w : WebAurion) : samePool w w := ⟨rfl, rfl, rfl, rfl⟩

theorem samePool_trans {w w2 w3 : WebAurion} (h1 : samePool w w2) (h2 : samePool w2 w3) :
    samePool w w3 :=
  ⟨h2.1.trans h1.1, h2.2.1.trans h1.2.1, h2.2.2.1.trans h1.2.2.1, h2.2.2.2.trans h1.2.2.2⟩

theorem harvestLink_samePool (w : WebAurion) (s : Element) : samePool w (harvestLink w s) := by
  unfold harvestLink
  simp only []
  split
  · exact ⟨rfl, rfl, rfl, rfl⟩
  · split
    · exact ⟨rfl, rfl, rfl, rfl⟩
    · split
      · exact ⟨rfl, rfl, rfl, rfl⟩
      · exact samePool_refl w

theorem foldl_harvestLink_samePool (l : List Element) :
    ∀ w : WebAurion, samePool w (l.foldl harvestLink w) := by
  induction l with
  | nil => intro w; exact samePool_refl w
  | cons s l ih =>
    intro w
    exact samePool_trans (harvestLink_samePool w s) (ih _)

theorem foldl_harvestInput_samePool (l : List Element) :
    ∀ w : WebAurion, samePool w (l.foldl harvestInput w) := by
  induction l with
  | nil => intro w; exact samePool_refl w
  | cons s l ih =>
    intro w
    exact samePool_trans (⟨rfl, rfl, rfl, rfl⟩ : samePool w (harvestInput w s)) (ih _)

theorem harvest_samePool (doc : Document) (w : WebAurion) : samePool w (harvest doc w) := by
  unfold harvest
  have h1 : samePool w { w with Name := doc.accountName } := ⟨rfl, rfl, rfl, rfl⟩
  have h2 := foldl_harvestLink_samePool doc.clickableLinks { w with Name := doc.accountName }
  have h3 := foldl_harvestInput_samePool doc.inputs
    (doc.clickableLinks.foldl harvestLink { w with Name := doc.accountName })
  have h123 := samePool_trans (samePool_trans h1 h2) h3
  exact ⟨h123.1, h123.2.1, h123.2.2.1, h123.2.2.2⟩

theorem getViewState_samePool (env : Env) (body : Except String String) (first : Bool)
    (w : WebAurion) : samePool w (getViewState env body first w).2 := by
  unfold getViewState
  split
  · exact samePool_refl w
  · cases first with
    | false =>
      simp only [Bool.false_eq_true, if_false]
      split <;> exact samePool_refl w
    | true =>
      simp only [if_true]
      split <;> exact harvest_samePool _ w

/-- A login attempt leaves the base URL, the proxy pool, the proxy index and
the client as they are. -/
theorem performLogin_samePool (env : Env) (u p : String) (a : Attempt) (w : WebAurion) :
    samePool w (performLogin env u p a w).2 := by
  obtain ⟨post, get, now⟩ := a
  cases hP : env.httpNewRequest "POST" (w.BaseURL ++ "/webAurion/login") with
  | some e => simp only [performLogin, hP]; exact samePool_refl w
  | none =>
    cases post with
    | error e => simp only [performLogin, hP]; exact samePool_refl w
    | ok cookies =>
      cases hG : env.httpNewRequest "GET" (w.BaseURL ++ "/webAurion/") with
      | some e => simp only [performLogin, hP, hG]; exact ⟨rfl, rfl, rfl, rfl⟩
      | none =>
        cases get with
        | error e => simp only [performLogin, hP, hG]; exact ⟨rfl, rfl, rfl, rfl⟩
        | ok body =>
          have h := getViewState_samePool env body true { w with Cookies := cookies }
          simp only [performLogin, hP, hG]
          split
          · exact ⟨h.1, h.2.1, h.2.2.1, h.2.2.2⟩
          · exact ⟨h.1, h.2.1, h.2.2.1, h.2.2.2⟩

/-- A login attempt that finds the state token of the landing page succeeds:
it returns `(true, nil)`, marks the session logged in and stores the token. -/
theorem performLogin_token (env : Env) (u p : String) (a : Attempt) (w : WebAurion)
    (token : String) (h : landingToken env w.BaseURL a = some token) :
    (performLogin env u p a w).1 = (true, none) ∧
    (performLogin env u p a w).2.LoggedIn = true ∧
    (performLogin env u p a w).2.ViewState = token ∧
    (performLogin env u p a w).2.LastRequetTime = a.now := by
  obtain ⟨post, get, now⟩ := a
  unfold landingToken at h
  split at h
  · next hc =>
    obtain ⟨hP, hG⟩ := hc
    cases post with
    | error e => simp at h
    | ok cookies =>
      cases get with
      | error e => simp at h
      | ok body =>
        simp only [] at h
        cases hd : body.bind env.parseHTML with
        | error e => simp [hd] at h
        | ok doc =>
          simp only [hd] at h
          unfold performLogin getViewState
          simp [hP, hG, hd, h]
  · simp at h

/-- A login attempt that finds no state token fails with an error; when both
exchanges complete, the error is the authentication one. -/
theorem performLogin_no_token (env : Env) (u p : String) (a : Attempt) (w : WebAurion)
    (h : landingToken env w.BaseURL a = none) :
    (performLogin env u p a w).1.1 = false ∧
    (∃ e, (performLogin env u p a w).1.2 = some e) ∧
    (exchangesComplete env w.BaseURL a = true →
      (performLogin env u p a w).1 = (false, some "username or password incorrect")) := by
  obtain ⟨post, get, now⟩ := a
  unfold landingToken at h
  unfold exchangesComplete
  cases hP : env.httpNewRequest "POST" (w.BaseURL ++ "/webAurion/login") with
  | some e => simp [performLogin, hP]
  | none =>
    cases post with
    | error e => simp [performLogin, hP]
    | ok cookies =>
      cases hG : env.httpNewRequest "GET" (w.BaseURL ++ "/webAurion/") with
      | some e => simp [performLogin, hP, hG]
      | none =>
        cases get with
        | error e => simp [performLogin, hP, hG]
        | ok body =>
          simp only [hP, hG, and_self, if_true] at h
          cases hd : body.bind env.parseHTML with
          | error e => simp [performLogin, getViewState, hP, hG, hd]
          | ok doc =>
            simp only [hd] at h
            simp [performLogin, getViewState, hP, hG, hd, h]

/-! ## Proxy rotation and the login loop -/

theorem rotateProxy_small (env : Env) (w : WebAurion) (h : w.ProxyEndpoints.length ≤ 1) :
    rotateProxy env w = some (none, w) := by
  unfold rotateProxy
  rw [if_pos h]

/-- With at least two endpoints `rotateProxy` never panics: it moves the index
one step forward modulo the size of the pool and touches neither the pool nor
the base URL. -/
theorem rotateProxy_spec (env : Env) (w : WebAurion) (h : 2 ≤ w.ProxyEndpoints.length) :
    ∃ err w2, rotateProxy env w = some (err, w2) ∧
      w2.BaseURL = w.BaseURL ∧ w2.ProxyEndpoints = w.ProxyEndpoints ∧
      w2.currentProxyIndex = (w.currentProxyIndex + 1) % w.ProxyEndpoints.length := by
  have hlt : (w.currentProxyIndex + 1) % w.ProxyEndpoints.length < w.ProxyEndpoints.length :=
    Nat.mod_lt _ (by omega)
  unfold rotateProxy updateClientWithProxy
  rw [if_neg (by omega)]
  simp only []
  rw [if_neg (by omega)]
  cases hg : w.ProxyEndpoints[(w.currentProxyIndex + 1) % w.ProxyEndpoints.length]? with
  | none =>
    rw [List.getElem?_eq_none_iff] at hg
    omega
  | some endpoint =>
    simp only []
    cases env.urlParse endpoint with
    | some e => exact ⟨_, _, rfl, rfl, rfl, rfl⟩
    | none => exact ⟨_, _, rfl, rfl, rfl, rfl⟩

/-- A valid index: the pool is empty or the index points into it. -/
theorem getCurrentProxy_valid (w : WebAurion)
    (h : w.ProxyEndpoints = [] ∨ w.currentProxyIndex < w.ProxyEndpoints.length) :
    ∃ p, getCurrentProxy w = some p := by
  unfold getCurrentProxy
  by_cases h0 : w.ProxyEndpoints.length = 0
  · rw [if_pos h0]
    exact ⟨_, rfl⟩
  · rw [if_neg h0]
    rcases h with h | h
    · rw [h] at h0
      simp at h0
    · exact ⟨_, List.getElem?_eq_getElem h⟩

/-- The session of an attempt: same base URL and pool, index moved one step on
a retry with a pool of at least two endpoints, otherwise the same session. -/
theorem sessionAtAttempt_spec (env : Env) (attempt : Nat) (w : WebAurion) :
    (sessionAtAttempt env attempt w).BaseURL = w.BaseURL ∧
    (sessionAtAttempt env attempt w).ProxyEndpoints = w.ProxyEndpoints ∧
    (sessionAtAttempt env attempt w).currentProxyIndex =
      (if attempt > 0 ∧ w.ProxyEndpoints.length > 1 then
        (w.currentProxyIndex + 1) % w.ProxyEndpoints.length
      else w.currentProxyIndex) := by
  unfold sessionAtAttempt
  by_cases hc : attempt > 0 ∧ w.ProxyEndpoints.length > 1
  · rw [if_pos hc, if_pos hc]
    obtain ⟨err, w2, hr, h1, h2, h3⟩ := rotateProxy_spec env w (by omega)
    rw [hr]
    exact ⟨h1, h2, h3⟩
  · rw [if_neg hc, if_neg hc]
    exact ⟨rfl, rfl, rfl⟩

/-- One iteration of the loop of `LoginWithRetry`: it never panics. -/
theorem loginLoop_step (env : Env) (u p : String) (attempts : Nat → Attempt) (maxRetries : Int)
    (left attempt : Nat) (w : WebAurion) (lastError : Option String)
    (trace : List AttemptRecord) :
    loginLoop env u p attempts maxRetries (left + 1) attempt w lastError trace =
      if (performLogin env u p (attempts attempt) (sessionAtAttempt env attempt w)).1.1 then
        some ⟨true, none,
          (performLogin env u p (attempts attempt) (sessionAtAttempt env attempt w)).2,
          trace ++ [⟨(sessionAtAttempt env attempt w).currentProxyIndex,
            getCurrentProxy (sessionAtAttempt env attempt w),
            (sessionAtAttempt env attempt w).Client,
            (performLogin env u p (attempts attempt) (sessionAtAttempt env attempt w)).1.1,
            (performLogin env u p (attempts attempt) (sessionAtAttempt env attempt w)).1.2⟩]⟩
      else
        loginLoop env u p attempts maxRetries left (attempt + 1)
          (performLogin env u p (attempts attempt) (sessionAtAttempt env attempt w)).2
          (performLogin env u p (attempts attempt) (sessionAtAttempt env attempt w)).1.2
          (trace ++ [⟨(sessionAtAttempt env attempt w).currentProxyIndex,
            getCurrentProxy (sessionAtAttempt env attempt w),
            (sessionAtAttempt env attempt w).Client,
            (performLogin env u p (attempts attempt) (sessionAtAttempt env attempt w)).1.1,
            (performLogin env u p (attempts attempt) (sessionAtAttempt env attempt w)).1.2⟩]) := by
  have hrot : (if attempt > 0 ∧ w.ProxyEndpoints.length > 1 then
        match rotateProxy env w with
        | none => none
        | some (_, w1) =>
          match getCurrentProxy w1 with
          | none => none
          | some _ => some w1
      else some w) = some (sessionAtAttempt env attempt w) := by
    unfold sessionAtAttempt
    by_cases hc : attempt > 0 ∧ w.ProxyEndpoints.length > 1
    · rw [if_pos hc, if_pos hc]
      obtain ⟨err, w2, hr, _, h2, h3⟩ := rotateProxy_spec env w (by omega)
      rw [hr]
      obtain ⟨q, hq⟩ := getCurrentProxy_valid w2 (Or.inr (by
        rw [h3, h2]
        exact Nat.mod_lt _ (by omega)))
      simp [hq]
    · rw [if_neg hc, if_neg hc]
  conv_lhs => unfold loginLoop
  simp only [hrot]

/-- The loop of `LoginWithRetry` always returns. -/
theorem loginLoop_isSome (env : Env) (u p : String) (attempts : Nat → Attempt)
    (maxRetries : Int) :
    ∀ (left attempt : Nat) (w : WebAurion) (lastError : Option String)
      (trace : List AttemptRecord),
      ∃ run, loginLoop env u p attempts maxRetries left attempt w lastError trace = some run := by
  intro left
  induction left with
  | zero => intro attempt w lastError trace; exact ⟨_, rfl⟩
  | succ left ih =>
    intro attempt w lastError trace
    rw [loginLoop_step]
    split
    · exact ⟨_, rfl⟩
    · exact ih _ _ _ _

/-- When no attempt finds the state token, the loop runs all the iterations
left and reports the error of the last attempt. -/
theorem loginLoop_all_fail (env : Env) (u p : String) (attempts : Nat → Attempt)
    (maxRetries : Int) (base : String) :
    ∀ (left attempt : Nat) (w : WebAurion) (lastError : Option String)
      (trace : List AttemptRecord),
      w.BaseURL = base →
      lastError = trace.getLast?.bind AttemptRecord.err →
      (∀ k, attempt ≤ k → k < attempt + left → landingToken env base (attempts k) = none) →
      ∃ run, loginLoop env u p attempts maxRetries left attempt w lastError trace = some run ∧
        run.success = false ∧
        run.attempts.length = trace.length + left ∧
        run.err = some ("login failed after " ++ toString maxRetries ++
          " attempts. Last error: " ++ fmtError (run.attempts.getLast?.bind AttemptRecord.err)) ∧
        (0 < left → ∃ e, run.attempts.getLast?.bind AttemptRecord.err = some e) := by
  intro left
  induction left with
  | zero =>
    intro attempt w lastError trace _ hinv _
    refine ⟨_, rfl, rfl, rfl, ?_, ?_⟩
    · rw [hinv]
    · intro h; omega
  | succ left ih =>
    intro attempt w lastError trace hbase _ hfail
    have hs := sessionAtAttempt_spec env attempt w
    have htok : landingToken env (sessionAtAttempt env attempt w).BaseURL (attempts attempt)
        = none := by
      rw [hs.1, hbase]
      exact hfail attempt (Nat.le_refl _) (by omega)
    obtain ⟨hfalse, ⟨e, he⟩, _⟩ :=
      performLogin_no_token env u p (attempts attempt) (sessionAtAttempt env attempt w) htok
    rw [loginLoop_step, hfalse]
    simp only [Bool.false_eq_true, if_false]
    have hb2 : (performLogin env u p (attempts attempt)
        (sessionAtAttempt env attempt w)).2.BaseURL = base := by
      rw [(performLogin_samePool env u p (attempts attempt) _).1, hs.1, hbase]
    have hinv2 : (performLogin env u p (attempts attempt) (sessionAtAttempt env attempt w)).1.2 =
        (trace ++ [(⟨(sessionAtAttempt env attempt w).currentProxyIndex,
            getCurrentProxy (sessionAtAttempt env attempt w),
            (sessionAtAttempt env attempt w).Client, false,
            (performLogin env u p (attempts attempt) (sessionAtAttempt env attempt w)).1.2⟩ :
          AttemptRecord)]).getLast?.bind AttemptRecord.err := by
      rw [List.getLast?_concat]
      rfl
    obtain ⟨run, hrun, hsucc, hlen, herr, hlast⟩ :=
      ih (attempt + 1) _ _ _ hb2 hinv2
        (fun k hk1 hk2 => hfail k (by omega) (by omega))
    refine ⟨run, hrun, hsucc, ?_, herr, ?_⟩
    · rw [hlen, List.length_append]
      simp only [List.length_singleton]
      omega
    · intro _
      cases left with
      | zero =>
        simp only [loginLoop] at hrun
        cases hrun
        simp only [List.getLast?_concat]
        exact ⟨e, by simpa using he⟩
      | succ l => exact hlast (Nat.succ_pos l)

/-- When the attempt number `attempt + j` is the first to find the state
token, the loop stops there with `(true, nil)`. -/
theorem loginLoop_first_success (env : Env) (u p : String) (attempts : Nat → Attempt)
    (maxRetries : Int) (base token : String) :
    ∀ (j left attempt : Nat) (w : WebAurion) (lastError : Option String)
      (trace : List AttemptRecord),
      w.BaseURL = base → j < left →
      (∀ k, attempt ≤ k → k < attempt + j → landingToken env base (attempts k) = none) →
      landingToken env base (attempts (attempt + j)) = some token →
      ∃ run, loginLoop env u p attempts maxRetries left attempt w lastError trace = some run ∧
        run.success = true ∧ run.err = none ∧
        run.attempts.length = trace.length + j + 1 ∧
        run.session.LoggedIn = true ∧ run.session.ViewState = token := by
  intro j
  induction j with
  | zero =>
    intro left attempt w lastError trace hbase hj _ htok
    obtain ⟨left, rfl⟩ : ∃ l, left = l + 1 := ⟨left - 1, by omega⟩
    have hs := sessionAtAttempt_spec env attempt w
    have htok2 : landingToken env (sessionAtAttempt env attempt w).BaseURL (attempts attempt)
        = some token := by
      rw [hs.1, hbase]
      simpa using htok
    obtain ⟨hres, hlog, hvs, _⟩ :=
      performLogin_token env u p (attempts attempt) (sessionAtAttempt env attempt w) token htok2
    rw [loginLoop_step]
    have h1 : (performLogin env u p (attempts attempt)
        (sessionAtAttempt env attempt w)).1.1 = true := by rw [hres]
    rw [if_pos h1]
    exact ⟨_, rfl, rfl, rfl, by simp, hlog, hvs⟩
  | succ j ih =>
    intro left attempt w lastError trace hbase hj hfail htok
    obtain ⟨left, rfl⟩ : ∃ l, left = l + 1 := ⟨left - 1, by omega⟩
    have hs := sessionAtAttempt_spec env attempt w
    have htok0 : landingToken env (sessionAtAttempt env attempt w).BaseURL (attempts attempt)
        = none := by
      rw [hs.1, hbase]
      exact hfail attempt (Nat.le_refl _) (by omega)
    obtain ⟨hfalse, _, _⟩ :=
      performLogin_no_token env u p (attempts attempt) (sessionAtAttempt env attempt w) htok0
    rw [loginLoop_step, hfalse]
    simp only [Bool.false_eq_true, if_false]
    have hb2 : (performLogin env u p (attempts attempt)
        (sessionAtAttempt env attempt w)).2.BaseURL = base := by
      rw [(performLogin_samePool env u p (attempts attempt) _).1, hs.1, hbase]
    obtain ⟨run, hrun, h1, h2, h3, h4, h5⟩ :=
      ih left (attempt + 1) _ _ _ hb2 (by omega)
        (fun k hk1 hk2 => hfail k (by omega) (by omega))
        (by rw [show attempt + 1 + j = attempt + (j + 1) by omega]; exact htok)
    refine ⟨run, hrun, h1, h2, ?_, h4, h5⟩
    rw [h3, List.length_append]
    simp only [List.length_singleton]
    omega

/-! ## Login: the claims -/

theorem landingToken_exchangesComplete (env : Env) (base : String) (a : Attempt)
    (token : String) (h : landingToken env base a = some token) :
    exchangesComplete env base a = true := by
  obtain ⟨post, get, now⟩ := a
  unfold landingToken at h
  unfold exchangesComplete
  split at h
  · next hc =>
    cases post with
    | error e => simp at h
    | ok cookies =>
      cases get with
      | error e => simp at h
      | ok body => simp [hc.1, hc.2]
  · simp at h

/-- A login attempt succeeds exactly when it finds the state token. -/
theorem performLogin_success_iff (env : Env) (u p : String) (a : Attempt) (w : WebAurion) :
    (performLogin env u p a w).1.1 = true ↔ ∃ token, landingToken env w.BaseURL a = some token := by
  constructor
  · intro h
    cases ht : landingToken env w.BaseURL a with
    | none =>
      have := (performLogin_no_token env u p a w ht).1
      rw [this] at h
      cases h
    | some token => exact ⟨token, rfl⟩
  · rintro ⟨token, ht⟩
    rw [(performLogin_token env u p a w token ht).1]

/-- C6: for every maxRetries ≥ 1, when every login attempt fails (whatever the
session it starts from, the base URL being that of the session),
`LoginWithRetry` performs exactly maxRetries attempts, all failed, and returns
`(false, err)` where the message of `err` is "login failed after maxRetries
attempts. Last error: " followed by the error of the last attempt. -/
theorem C6_login_retries_exactly_maxRetries (env : Env) (u p : String)
    (attempts : Nat → Attempt) (maxRetries : Int) (w : WebAurion)
    (hmax : 1 ≤ maxRetries)
    (hfail : ∀ k : Nat, (k : Int) < maxRetries → ∀ w2 : WebAurion, w2.BaseURL = w.BaseURL →
      (performLogin env u p (attempts k) w2).1.1 = false) :
    ∃ run e, LoginWithRetry env u p attempts maxRetries w = some run ∧
      run.success = false ∧
      run.attempts.length = maxRetries.toNat ∧
      run.attempts.getLast?.bind AttemptRecord.err = some e ∧
      run.err = some ("login failed after " ++ toString maxRetries ++
        " attempts. Last error: " ++ e) := by
  have hnone : ∀ k, 0 ≤ k → k < 0 + maxRetries.toNat →
      landingToken env w.BaseURL (attempts k) = none := by
    intro k _ hk
    cases ht : landingToken env w.BaseURL (attempts k) with
    | none => rfl
    | some token =>
      have h1 := (performLogin_token env u p (attempts k) w token ht).1
      have h2 := hfail k (by omega) w rfl
      rw [h1] at h2
      cases h2
  obtain ⟨run, hrun, hsucc, hlen, herr, hlast⟩ :=
    loginLoop_all_fail env u p attempts maxRetries w.BaseURL maxRetries.toNat 0 w none [] rfl rfl
      hnone
  obtain ⟨e, he⟩ := hlast (by omega)
  refine ⟨run, e, hrun, hsucc, by simpa using hlen, he, ?_⟩
  rw [herr, he]
  rfl

/-- C6 on an always-failing transport with maxRetries = 3. -/
theorem C6_login_retries_exactly_maxRetries_witness :
    ∃ run e, LoginWithRetry fixtureEnv "user" "secret" fixtureDeadAttempts 3 NewWebAurion =
        some run ∧
      run.success = false ∧
      run.attempts.length = (3 : Int).toNat ∧
      run.attempts.getLast?.bind AttemptRecord.err = some e ∧
      run.err = some ("login failed after " ++ toString (3 : Int) ++
        " attempts. Last error: " ++ e) :=
  C6_login_retries_exactly_maxRetries fixtureEnv "user" "secret" fixtureDeadAttempts 3
    NewWebAurion (by decide)
    (by
      intro k _ w2 _
      simp [performLogin, fixtureEnv, fixtureDeadAttempts])

/-- C7: a login attempt (`performLogin`) succeeds exactly when both exchanges
complete and the landing page fetched right after the credential POST holds a
state token; it then returns `(true, nil)`, the session is marked `LoggedIn`
and its `ViewState` is that token.  When the exchanges complete and the token
is absent it returns `false` with the error "username or password incorrect".
`LoginWithRetry` returns `(true, nil)` at the first successful attempt,
number `j`, after exactly `j + 1` attempts. -/
theorem C7_login_succeeds_on_landing_token (env : Env) (u p : String) (a : Attempt)
    (w : WebAurion) (attempts : Nat → Attempt) (maxRetries : Int) (j : Nat) :
    ((performLogin env u p a w).1.1 = true ↔
      exchangesComplete env w.BaseURL a = true ∧
        ∃ token, landingToken env w.BaseURL a = some token) ∧
    (∀ token, landingToken env w.BaseURL a = some token →
      (performLogin env u p a w).1 = (true, none) ∧
      (performLogin env u p a w).2.LoggedIn = true ∧
      (performLogin env u p a w).2.ViewState = token) ∧
    (exchangesComplete env w.BaseURL a = true → landingToken env w.BaseURL a = none →
      (performLogin env u p a w).1 = (false, some "username or password incorrect")) ∧
    (∀ token, (j : Int) < maxRetries →
      (∀ k, k < j → landingToken env w.BaseURL (attempts k) = none) →
      landingToken env w.BaseURL (attempts j) = some token →
      ∃ run, LoginWithRetry env u p attempts maxRetries w = some run ∧
        run.success = true ∧ run.err = none ∧
        run.attempts.length = j + 1 ∧
        run.session.LoggedIn = true ∧ run.session.ViewState = token) := by
  refine ⟨?_, ?_, ?_, ?_⟩
  · rw [performLogin_success_iff]
    constructor
    · rintro ⟨token, ht⟩
      exact ⟨landingToken_exchangesComplete env _ a token ht, token, ht⟩
    · rintro ⟨_, h⟩
      exact h
  · intro token ht
    obtain ⟨h1, h2, h3, _⟩ := performLogin_token env u p a w token ht
    exact ⟨h1, h2, h3⟩
  · intro hc ht
    exact (performLogin_no_token env u p a w ht).2.2 hc
  · intro token hj hfail htok
    obtain ⟨run, hrun, h1, h2, h3, h4, h5⟩ :=
      loginLoop_first_success env u p attempts maxRetries w.BaseURL token j maxRetries.toNat 0 w
        none [] rfl (by omega) (fun k _ hk => hfail k (by omega)) (by simpa using htok)
    exact ⟨run, hrun, h1, h2, by simpa using h3, h4, h5⟩

/-- C7 on the login fixtures: the first attempt reaches the login form (no
token, authentication error), the second one the landing page; `Login` stops
after these two attempts, logged in with the token of the landing page. -/
theorem C7_login_succeeds_on_landing_token_witness :
    (performLogin fixtureEnv "user" "secret" (fixtureAttempts 0) NewWebAurion).1 =
      (false, some "username or password incorrect") ∧
    ∃ run, LoginWithRetry fixtureEnv "user" "secret" fixtureAttempts 3 NewWebAurion =
        some run ∧
      run.success = true ∧ run.err = none ∧
      run.attempts.length = 1 + 1 ∧
      run.session.LoggedIn = true ∧ run.session.ViewState = "tok1" :=
  ⟨(C7_login_succeeds_on_landing_token fixtureEnv "user" "secret" (fixtureAttempts 0)
      NewWebAurion fixtureAttempts 3 1).2.2.1 (by decide) (by decide),
    (C7_login_succeeds_on_landing_token fixtureEnv "user" "secret" (fixtureAttempts 0)
      NewWebAurion fixtureAttempts 3 1).2.2.2 "tok1" (by decide)
      (by intro k hk; obtain rfl : k = 0 := by omega
          decide)
      (by decide)⟩

/-! ## Proxy rotation along the login loop -/

theorem getCurrentProxy_eq (w : WebAurion) (h : w.ProxyEndpoints.length ≠ 0) :
    getCurrentProxy w = w.ProxyEndpoints[w.currentProxyIndex]? := by
  unfold getCurrentProxy
  rw [if_neg h]

/-- Along the loop of `LoginWithRetry` on a pool of at least two endpoints, the
proxy index of each attempt is one step (modulo the pool size) after that of
the attempt before, and the proxy in use is read inside the pool. -/
theorem loginLoop_proxy (env : Env) (u p : String) (attempts : Nat → Attempt)
    (maxRetries : Int) (pool : List String) (hn : 2 ≤ pool.length) :
    ∀ (left attempt : Nat) (w : WebAurion) (lastError : Option String)
      (trace : List AttemptRecord) (run : LoginRun),
      w.ProxyEndpoints = pool → w.currentProxyIndex < pool.length →
      loginLoop env u p attempts maxRetries left attempt w lastError trace = some run →
      run.session.ProxyEndpoints = pool ∧ run.session.currentProxyIndex < pool.length ∧
      ∃ new, run.attempts = trace ++ new ∧
        ∀ (k : Nat) (r : AttemptRecord), new[k]? = some r →
          r.proxyIndex =
            ((if attempt > 0 then (w.currentProxyIndex + 1) % pool.length
              else w.currentProxyIndex) + k) % pool.length ∧
          r.proxy = pool[r.proxyIndex]? := by
  intro left
  induction left with
  | zero =>
    intro attempt w lastError trace run hpool hidx h
    simp only [loginLoop, Option.some.injEq] at h
    subst h
    exact ⟨hpool, hidx, [], by simp, by intro k r hk; simp at hk⟩
  | succ left ih =>
    intro attempt w lastError trace run hpool hidx h
    rw [loginLoop_step] at h
    obtain ⟨_, hs2, hs3⟩ := sessionAtAttempt_spec env attempt w
    have hsp := performLogin_samePool env u p (attempts attempt) (sessionAtAttempt env attempt w)
    rw [hpool] at hs2 hs3
    have hnext : (sessionAtAttempt env attempt w).currentProxyIndex =
        (if attempt > 0 then (w.currentProxyIndex + 1) % pool.length
          else w.currentProxyIndex) := by
      rw [hs3]
      by_cases ha : attempt > 0
      · rw [if_pos ⟨ha, by omega⟩, if_pos ha]
      · rw [if_neg (fun hc => ha hc.1), if_neg ha]
    have hlt : (sessionAtAttempt env attempt w).currentProxyIndex < pool.length := by
      rw [hnext]
      split
      · exact Nat.mod_lt _ (by omega)
      · exact hidx
    have hproxy : getCurrentProxy (sessionAtAttempt env attempt w) =
        pool[(sessionAtAttempt env attempt w).currentProxyIndex]? := by
      rw [getCurrentProxy_eq _ (by rw [hs2]; omega), hs2]
    have hk0 : ∀ (r : AttemptRecord),
        r.proxyIndex = (sessionAtAttempt env attempt w).currentProxyIndex →
        r.proxy = getCurrentProxy (sessionAtAttempt env attempt w) →
        r.proxyIndex =
          ((if attempt > 0 then (w.currentProxyIndex + 1) % pool.length
            else w.currentProxyIndex) + 0) % pool.length ∧
        r.proxy = pool[r.proxyIndex]? := by
      intro r h1 h2
      refine ⟨?_, ?_⟩
      · rw [h1, ← hnext, Nat.add_zero, Nat.mod_eq_of_lt hlt]
      · rw [h2, hproxy, h1]
    split at h
    · simp only [Option.some.injEq] at h
      subst h
      refine ⟨by rw [hsp.2.1, hs2], by rw [hsp.2.2.1]; exact hlt, _, rfl, ?_⟩
      intro k r hk
      cases k with
      | zero =>
        simp only [List.getElem?_cons_zero, Option.some.injEq] at hk
        subst hk
        exact hk0 _ rfl rfl
      | succ k => simp at hk
    · obtain ⟨h1, h2, new, hnew, hall⟩ :=
        ih (attempt + 1) _ _ _ run (by rw [hsp.2.1, hs2]) (by rw [hsp.2.2.1]; exact hlt) h
      refine ⟨h1, h2, _ :: new, by rw [hnew, List.append_assoc]; rfl, ?_⟩
      intro k r hk
      cases k with
      | zero =>
        simp only [List.getElem?_cons_zero, Option.some.injEq] at hk
        subst hk
        exact hk0 _ rfl rfl
      | succ k =>
        simp only [List.getElem?_cons_succ] at hk
        obtain ⟨e1, e2⟩ := hall k r hk
        refine ⟨?_, e2⟩
        rw [e1, if_pos (Nat.succ_pos attempt), hsp.2.2.1, hnext, Nat.mod_add_mod]
        congr 1
        omega

/-- Method `SetProxies` never panics and leaves a valid index. -/
theorem SetProxies_valid (env : Env) (proxyEndpoints : List String) (w : WebAurion) :
    ∃ err w2, SetProxies env proxyEndpoints w = some (err, w2) ∧
      (w2.ProxyEndpoints = [] ∨ w2.currentProxyIndex < w2.ProxyEndpoints.length) := by
  unfold SetProxies
  simp only []
  split
  · unfold updateClientWithProxy
    simp only []
    cases hs : env.shuffle proxyEndpoints with
    | nil =>
      simp only [List.length_nil, if_true]
      exact ⟨_, _, rfl, Or.inl rfl⟩
    | cons a l =>
      simp only [List.length_cons, Nat.succ_ne_zero, if_false, List.getElem?_cons_zero]
      cases env.urlParse a with
      | some e => exact ⟨_, _, rfl, Or.inr (by simp [hs])⟩
      | none => exact ⟨_, _, rfl, Or.inr (by simp [hs])⟩
  · next h =>
    refine ⟨_, _, rfl, Or.inl ?_⟩
    simp only [gt_iff_lt, List.length_pos, ne_eq, not_not] at h
    exact h

/-- When every endpoint of the pool is a URL `url.Parse` accepts, the client of
a retry goes through the endpoint at the new index. -/
theorem sessionAtAttempt_client (env : Env) (attempt : Nat) (w : WebAurion)
    (hn : 2 ≤ w.ProxyEndpoints.length) (ha : attempt > 0)
    (hparse : ∀ e, e ∈ w.ProxyEndpoints → env.urlParse e = none) :
    (sessionAtAttempt env attempt w).Client.proxy =
      w.ProxyEndpoints[(w.currentProxyIndex + 1) % w.ProxyEndpoints.length]? := by
  have hlt : (w.currentProxyIndex + 1) % w.ProxyEndpoints.length < w.ProxyEndpoints.length :=
    Nat.mod_lt _ (by omega)
  unfold sessionAtAttempt rotateProxy updateClientWithProxy
  rw [if_pos ⟨ha, by omega⟩, if_neg (by omega)]
  simp only []
  rw [if_neg (by omega)]
  cases hg : w.ProxyEndpoints[(w.currentProxyIndex + 1) % w.ProxyEndpoints.length]? with
  | none =>
    rw [List.getElem?_eq_none_iff] at hg
    omega
  | some endpoint =>
    simp only [hparse endpoint (List.getElem?_mem hg)]
    rfl

/-- Along the loop of `LoginWithRetry`, with endpoints that `url.Parse`
accepts and a client that starts on the current endpoint, the client of every
attempt goes through the proxy in use. -/
theorem loginLoop_client (env : Env) (u p : String) (attempts : Nat → Attempt)
    (maxRetries : Int) (pool : List String) (hn : 2 ≤ pool.length)
    (hparse : ∀ e, e ∈ pool → env.urlParse e = none) :
    ∀ (left attempt : Nat) (w : WebAurion) (lastError : Option String)
      (trace : List AttemptRecord) (run : LoginRun),
      w.ProxyEndpoints = pool →
      (attempt = 0 → w.Client.proxy = pool[w.currentProxyIndex]?) →
      loginLoop env u p attempts maxRetries left attempt w lastError trace = some run →
      ∃ new, run.attempts = trace ++ new ∧
        ∀ (k : Nat) (r : AttemptRecord), new[k]? = some r → r.client.proxy = r.proxy := by
  intro left
  induction left with
  | zero =>
    intro attempt w lastError trace run _ _ h
    simp only [loginLoop, Option.some.injEq] at h
    subst h
    exact ⟨[], by simp, by intro k r hk; simp at hk⟩
  | succ left ih =>
    intro attempt w lastError trace run hpool hclient h
    rw [loginLoop_step] at h
    obtain ⟨_, hs2, hs3⟩ := sessionAtAttempt_spec env attempt w
    have hsp := performLogin_samePool env u p (attempts attempt) (sessionAtAttempt env attempt w)
    have hsync : (sessionAtAttempt env attempt w).Client.proxy =
        getCurrentProxy (sessionAtAttempt env attempt w) := by
      rw [getCurrentProxy_eq _ (by rw [hs2, hpool]; omega), hs2, hs3]
      by_cases ha : attempt > 0
      · rw [if_pos ⟨ha, by rw [hpool]; omega⟩]
        exact sessionAtAttempt_client env attempt w (by rw [hpool]; exact hn) ha
          (by rw [hpool]; exact hparse)
      · rw [if_neg (fun hc => ha hc.1)]
        have h0 : attempt = 0 := by omega
        have hw : sessionAtAttempt env attempt w = w := by
          unfold sessionAtAttempt
          rw [if_neg (fun hc => ha hc.1)]
        rw [hw, hclient h0, hpool]
    split at h
    · simp only [Option.some.injEq] at h
      subst h
      refine ⟨_, rfl, ?_⟩
      intro k r hk
      cases k with
      | zero =>
        simp only [List.getElem?_cons_zero, Option.some.injEq] at hk
        subst hk
        exact hsync
      | succ k => simp at hk
    · obtain ⟨new, hnew, hall⟩ :=
        ih (attempt + 1) _ _ _ run (by rw [hsp.2.1, hs2, hpool])
          (by intro h0; omega) h
      refine ⟨_ :: new, by rw [hnew, List.append_assoc]; rfl, ?_⟩
      intro k r hk
      cases k with
      | zero =>
        simp only [List.getElem?_cons_zero, Option.some.injEq] at hk
        subst hk
        exact hsync
      | succ k =>
        simp only [List.getElem?_cons_succ] at hk
        exact hall k r hk

/-- After `SetProxies` with endpoints that `url.Parse` accepts, there is no
error and the client goes through the endpoint at the current index. -/
theorem SetProxies_client (env : Env) (proxyEndpoints : List String) (w : WebAurion)
    (err : Option String) (w2 : WebAurion)
    (h : SetProxies env proxyEndpoints w = some (err, w2))
    (hne : w2.ProxyEndpoints ≠ [])
    (hparse : ∀ e, e ∈ w2.ProxyEndpoints → env.urlParse e = none) :
    err = none ∧ w2.Client.proxy = w2.ProxyEndpoints[w2.currentProxyIndex]? := by
  unfold SetProxies at h
  simp only [] at h
  split at h
  · unfold updateClientWithProxy at h
    simp only [] at h
    cases hs : env.shuffle proxyEndpoints with
    | nil =>
      rw [hs] at h
      simp only [List.length_nil, if_true, Option.some.injEq, Prod.mk.injEq] at h
      obtain ⟨_, rfl⟩ := h
      exact absurd rfl hne
    | cons a l =>
      rw [hs] at h
      simp only [List.length_cons, Nat.succ_ne_zero, if_false, List.getElem?_cons_zero] at h
      cases hp : env.urlParse a with
      | some e =>
        rw [hp] at h
        simp only [Option.some.injEq, Prod.mk.injEq] at h
        obtain ⟨_, rfl⟩ := h
        have := hparse a (by simp)
        rw [hp] at this
        cases this
      | none =>
        rw [hp] at h
        simp only [Option.some.injEq, Prod.mk.injEq] at h
        obtain ⟨rfl, rfl⟩ := h
        exact ⟨rfl, by simp⟩
  · next hlen =>
    simp only [Option.some.injEq, Prod.mk.injEq] at h
    obtain ⟨_, rfl⟩ := h
    simp only [gt_iff_lt, List.length_pos, ne_eq, not_not] at hlen
    exact absurd hlen hne

/-- An endpoint that `url.Parse` rejects: `rotateProxy` moves the index,
returns the error and leaves the client as it was. -/
theorem rotateProxy_rejected (env : Env) (w : WebAurion) (e msg : String)
    (hn : 2 ≤ w.ProxyEndpoints.length)
    (hg : w.ProxyEndpoints[(w.currentProxyIndex + 1) % w.ProxyEndpoints.length]? = some e)
    (hp : env.urlParse e = some msg) :
    rotateProxy env w = some (some ("invalid proxy URL: " ++ msg),
      { w with currentProxyIndex := (w.currentProxyIndex + 1) % w.ProxyEndpoints.length }) := by
  unfold rotateProxy updateClientWithProxy
  rw [if_neg (by omega)]
  simp only []
  rw [if_neg (by omega)]
  simp only [hg, hp]

/-- C9 (amended): proxy rotation is round-robin on the index.  With a pool of
0 or 1 endpoints `rotateProxy` changes nothing.  With n ≥ 2 endpoints it moves
the index to `(index + 1) % n`, a valid index at which `getCurrentProxy` reads
the pool; when `url.Parse` rejects the endpoint at the new index it returns
the error and leaves the client as it was.  `SetProxies` leaves a valid index
and, when `url.Parse` accepts the endpoints, a client on the endpoint at that
index.  On a session with n ≥ 2 endpoints and a valid index, `LoginWithRetry`
returns and the attempt number k is made at index `(index + k) % n`: each
retry advances the index by exactly one modulo n before the attempt, every
index used is inside the pool and `getCurrentProxy` is the endpoint at that
index, so with a pool of two distinct endpoints the endpoint at the index
differs between every two consecutive attempts.  When `url.Parse` accepts
every endpoint of the pool and the client starts on the current one (as
`SetProxies` leaves it), the HTTP client of each attempt goes through the
endpoint at the index, and with two distinct endpoints the proxy of the client
differs between every two consecutive attempts. -/
theorem C9_proxy_rotation_round_robin (env : Env) (u p : String) (attempts : Nat → Attempt)
    (maxRetries : Int) (w : WebAurion) (proxyEndpoints : List String) :
    (w.ProxyEndpoints.length ≤ 1 → rotateProxy env w = some (none, w)) ∧
    (2 ≤ w.ProxyEndpoints.length →
      ∃ err w2, rotateProxy env w = some (err, w2) ∧
        w2.ProxyEndpoints = w.ProxyEndpoints ∧
        w2.currentProxyIndex = (w.currentProxyIndex + 1) % w.ProxyEndpoints.length ∧
        w2.currentProxyIndex < w.ProxyEndpoints.length ∧
        ∃ endpoint, getCurrentProxy w2 = some endpoint) ∧
    (2 ≤ w.ProxyEndpoints.length →
      ∀ e msg : String,
        w.ProxyEndpoints[(w.currentProxyIndex + 1) % w.ProxyEndpoints.length]? = some e →
        env.urlParse e = some msg →
        rotateProxy env w = some (some ("invalid proxy URL: " ++ msg),
          { w with
            currentProxyIndex := (w.currentProxyIndex + 1) % w.ProxyEndpoints.length })) ∧
    (∃ err w2, SetProxies env proxyEndpoints w = some (err, w2) ∧
      (w2.ProxyEndpoints = [] ∨ w2.currentProxyIndex < w2.ProxyEndpoints.length) ∧
      (w2.ProxyEndpoints ≠ [] → (∀ e, e ∈ w2.ProxyEndpoints → env.urlParse e = none) →
        err = none ∧ w2.Client.proxy = w2.ProxyEndpoints[w2.currentProxyIndex]?)) ∧
    (2 ≤ w.ProxyEndpoints.length → w.currentProxyIndex < w.ProxyEndpoints.length →
      ∃ run, LoginWithRetry env u p attempts maxRetries w = some run ∧
        run.session.ProxyEndpoints = w.ProxyEndpoints ∧
        run.session.currentProxyIndex < w.ProxyEndpoints.length ∧
        (∀ (k : Nat) (r : AttemptRecord), run.attempts[k]? = some r →
          r.proxyIndex = (w.currentProxyIndex + k) % w.ProxyEndpoints.length ∧
          r.proxyIndex < w.ProxyEndpoints.length ∧
          r.proxy = w.ProxyEndpoints[r.proxyIndex]? ∧
          ∃ endpoint, r.proxy = some endpoint) ∧
        (∀ (k : Nat) (r r2 : AttemptRecord), run.attempts[k]? = some r →
          run.attempts[k + 1]? = some r2 →
          r2.proxyIndex = (r.proxyIndex + 1) % w.ProxyEndpoints.length) ∧
        (w.ProxyEndpoints.length = 2 → w.ProxyEndpoints.Nodup →
          ∀ (k : Nat) (r r2 : AttemptRecord), run.attempts[k]? = some r →
            run.attempts[k + 1]? = some r2 → r.proxy ≠ r2.proxy) ∧
        ((∀ e, e ∈ w.ProxyEndpoints → env.urlParse e = none) →
          w.Client.proxy = w.ProxyEndpoints[w.currentProxyIndex]? →
          (∀ (k : Nat) (r : AttemptRecord), run.attempts[k]? = some r →
            r.client.proxy = r.proxy) ∧
          (w.ProxyEndpoints.length = 2 → w.ProxyEndpoints.Nodup →
            ∀ (k : Nat) (r r2 : AttemptRecord), run.attempts[k]? = some r →
              run.attempts[k + 1]? = some r2 → r.client.proxy ≠ r2.client.proxy))) := by
  refine ⟨rotateProxy_small env w, ?_, ?_, ?_, ?_⟩
  · intro h
    obtain ⟨err, w2, hr, _, h2, h3⟩ := rotateProxy_spec env w h
    have hlt : w2.currentProxyIndex < w.ProxyEndpoints.length := by
      rw [h3]
      exact Nat.mod_lt _ (by omega)
    exact ⟨err, w2, hr, h2, h3, hlt, getCurrentProxy_valid w2 (Or.inr (by rw [h2]; exact hlt))⟩
  · intro hn e msg hg hp
    exact rotateProxy_rejected env w e msg hn hg hp
  · obtain ⟨err, w2, hs, hv⟩ := SetProxies_valid env proxyEndpoints w
    exact ⟨err, w2, hs, hv, SetProxies_client env proxyEndpoints w err w2 hs⟩
  · intro hn hidx
    obtain ⟨run, hrun⟩ :=
      loginLoop_isSome env u p attempts maxRetries maxRetries.toNat 0 w none []
    obtain ⟨h1, h2, new, hnew, hall⟩ :=
      loginLoop_proxy env u p attempts maxRetries w.ProxyEndpoints hn maxRetries.toNat 0 w none
        [] run rfl hidx hrun
    simp only [List.nil_append] at hnew
    subst hnew
    simp only [Nat.lt_irrefl, if_false] at hall
    have hrec : ∀ (k : Nat) (r : AttemptRecord), run.attempts[k]? = some r →
        r.proxyIndex = (w.currentProxyIndex + k) % w.ProxyEndpoints.length ∧
        r.proxyIndex < w.ProxyEndpoints.length ∧
        r.proxy = w.ProxyEndpoints[r.proxyIndex]? ∧
        ∃ endpoint, r.proxy = some endpoint := by
      intro k r hk
      obtain ⟨e1, e2⟩ := hall k r hk
      have hlt : r.proxyIndex < w.ProxyEndpoints.length := by
        rw [e1]
        exact Nat.mod_lt _ (by omega)
      exact ⟨e1, hlt, e2, _, by rw [e2]; exact List.getElem?_eq_getElem hlt⟩
    have hstep : ∀ (k : Nat) (r r2 : AttemptRecord), run.attempts[k]? = some r →
        run.attempts[k + 1]? = some r2 →
        r2.proxyIndex = (r.proxyIndex + 1) % w.ProxyEndpoints.length := by
      intro k r r2 hk hk2
      rw [(hrec k r hk).1, (hrec (k + 1) r2 hk2).1, Nat.mod_add_mod]
      rfl
    have hdiff : w.ProxyEndpoints.length = 2 → w.ProxyEndpoints.Nodup →
        ∀ (k : Nat) (r r2 : AttemptRecord), run.attempts[k]? = some r →
          run.attempts[k + 1]? = some r2 → r.proxy ≠ r2.proxy := by
      intro h2len hnodup k r r2 hk hk2 heq
      obtain ⟨_, hlt1, hp1, _⟩ := hrec k r hk
      obtain ⟨_, hlt2, hp2, _⟩ := hrec (k + 1) r2 hk2
      have hs := hstep k r r2 hk hk2
      rw [hp1, hp2, List.getElem?_eq_getElem hlt1, List.getElem?_eq_getElem hlt2,
        Option.some.injEq] at heq
      have := (List.Nodup.getElem_inj_iff hnodup).mp heq
      rw [h2len] at hs hlt1
      omega
    refine ⟨run, hrun, h1, h2, hrec, hstep, hdiff, ?_⟩
    intro hparse hclient
    obtain ⟨new, hnew, hall⟩ :=
      loginLoop_client env u p attempts maxRetries w.ProxyEndpoints hn hparse
        maxRetries.toNat 0 w none [] run rfl (fun _ => hclient) hrun
    simp only [List.nil_append] at hnew
    subst hnew
    refine ⟨hall, ?_⟩
    intro h2len hnodup k r r2 hk hk2
    rw [hall k r hk, hall (k + 1) r2 hk2]
    exact hdiff h2len hnodup k r r2 hk hk2

set_option maxRecDepth 100000 in
/-- C9 as first stated fails for the proxy the HTTP client goes through.  On
the pool of the two distinct endpoints `http://proxy-a:3128` and
`10.0.0.2:3128`, installed by `SetProxies`, `url.Parse` rejects the second
endpoint: the retry moves the index to 1 and `getCurrentProxy` reads
`10.0.0.2:3128`, while `updateClientWithProxy` returns its error before it
replaces the client and `LoginWithRetry` goes on.  The three attempts of a
login on a dead transport are made at the indices 0, 1, 0 and all three go
through `http://proxy-a:3128`. -/
theorem C9_counterexample :
    fixtureMixedPool.length = 2 ∧ fixtureMixedPool.Nodup ∧
    ((SetProxies fixtureStrictEnv fixtureMixedPool NewWebAurion).bind (fun s =>
        LoginWithRetry fixtureStrictEnv "user" "secret" fixtureDeadAttempts 3 s.2)).map
      (fun run => run.attempts.map (fun r => (r.proxyIndex, r.proxy, r.client.proxy))) =
      some [(0, some "http://proxy-a:3128", some "http://proxy-a:3128"),
        (1, some "10.0.0.2:3128", some "http://proxy-a:3128"),
        (0, some "http://proxy-a:3128", some "http://proxy-a:3128")] := by
  decide

/-- C9 (amended) on a session with two distinct proxies that `url.Parse`
accepts and a transport that always fails: the three attempts of `Login` are
made at the indices 0, 1, 0 and the client goes through the two proxies in
turn. -/
theorem C9_proxy_rotation_round_robin_witness :
    ∃ run, LoginWithRetry fixtureEnv "user" "secret" fixtureDeadAttempts 3 fixtureProxied =
        some run ∧
      (∀ (k : Nat) (r : AttemptRecord), run.attempts[k]? = some r →
        r.proxyIndex = (0 + k) % 2 ∧ r.proxy = fixtureProxied.ProxyEndpoints[r.proxyIndex]?) ∧
      (∀ (k : Nat) (r r2 : AttemptRecord), run.attempts[k]? = some r →
        run.attempts[k + 1]? = some r2 → r.proxy ≠ r2.proxy) ∧
      (∀ (k : Nat) (r : AttemptRecord), run.attempts[k]? = some r →
        r.client.proxy = r.proxy) ∧
      (∀ (k : Nat) (r r2 : AttemptRecord), run.attempts[k]? = some r →
        run.attempts[k + 1]? = some r2 → r.client.proxy ≠ r2.client.proxy) := by
  obtain ⟨run, hrun, _, _, hrec, _, hdiff, hclient⟩ :=
    (C9_proxy_rotation_round_robin fixtureEnv "user" "secret" fixtureDeadAttempts 3
      fixtureProxied []).2.2.2.2 (by decide) (by decide)
  have hc := hclient (by intro e _; rfl) (by decide)
  exact ⟨run, hrun, fun k r hk => ⟨(hrec k r hk).1, (hrec k r hk).2.2.1⟩,
    hdiff (by decide) (by decide), hc.1, hc.2 (by decide) (by decide)⟩

/-! ## Detail pages -/

/-- A line without label leaves the details as they are. -/
theorem fillDetails_unlabelled (details : CatalogDetails) (ligne : Ligne)
    (h : labelled ligne = false) : fillDetails details ligne = details := by
  unfold labelled at h
  have h0 : strings.TrimSpace ligne.label = "" := by simpa using h
  unfold fillDetails
  simp only [h0]
  rw [if_neg (by decide), if_neg (by decide), if_neg (by decide), if_neg (by decide),
    if_neg (by decide)]

theorem foldl_fillDetails_labelled (lignes : List Ligne) :
    ∀ details : CatalogDetails,
      lignes.foldl fillDetails details = (lignes.filter labelled).foldl fillDetails details := by
  induction lignes with
  | nil => intro details; rfl
  | cons l ls ih =>
    intro details
    by_cases h : labelled l = true
    · rw [List.filter_cons_of_pos h, List.foldl_cons, List.foldl_cons, ih]
    · have h2 : labelled l = false := by simpa using h
      rw [List.filter_cons_of_neg h, List.foldl_cons, fillDetails_unlabelled _ _ h2, ih]

theorem fillDetails_title (details : CatalogDetails) (ligne : Ligne)
    (h : strings.TrimSpace ligne.label = "Titre du stage") :
    fillDetails details ligne = { details with Title := ligneValue ligne } := by
  unfold fillDetails
  simp only [h]
  rw [if_pos (by decide)]

theorem fillDetails_start (details : CatalogDetails) (ligne : Ligne)
    (h : strings.TrimSpace ligne.label = "Date de début") :
    fillDetails details ligne = { details with StartDate := ligneValue ligne } := by
  unfold fillDetails
  simp only [h]
  rw [if_neg (by decide), if_pos (by decide)]

/-- C10 (amended): for every catalog entry and every detail page whose only
labelled lines are "Titre du stage" and "Date de début" (in either order, among
lines without label), the exchanges having succeeded, `GetCatalogEntryDetails`
returns no error and a `CatalogDetails` whose `Title` and `StartDate` are the
values of those two lines, whose `EndDate`, `Description` and `StudentName`
are empty, and whose `Company`, `City`, `PostalCode` and `Year` are those of
the entry, carried through. -/
theorem C10_details_title_and_start_date (env : Env) (w : WebAurionClient)
    (entry : CatalogEntry) (bodyBytes bodyBytes2 viewState : String) (doc doc2 : Document)
    (titre debut : Ligne)
    (hget : env.httpNewRequest "GET"
      (w.GetBaseURL ++ "/webAurion/faces/ChoixEvenementDUnFormulaire.xhtml") = none)
    (hpost : env.httpNewRequest "POST"
      (w.GetBaseURL ++ "/webAurion/faces/ChoixEvenementDUnFormulaire.xhtml") = none)
    (hdoc : env.parseHTML bodyBytes = .ok doc)
    (hvs : w.GetViewState bodyBytes false = (viewState, none))
    (hdoc2 : env.parseHTML bodyBytes2 = .ok doc2)
    (htitre : strings.TrimSpace titre.label = "Titre du stage")
    (hdebut : strings.TrimSpace debut.label = "Date de début")
    (hlignes : doc2.lignes.filter labelled = [titre, debut] ∨
      doc2.lignes.filter labelled = [debut, titre]) :
    (GetCatalogEntryDetails env w entry (.body bodyBytes) (.body bodyBytes2)).result =
      .ok { Title := ligneValue titre, StartDate := ligneValue debut, EndDate := "",
            Description := "", StudentName := "", Company := entry.Company,
            City := entry.City, PostalCode := entry.PostalCode, Year := entry.Year } := by
  unfold GetCatalogEntryDetails
  simp only [hget, hpost, hdoc, hvs, hdoc2]
  rw [foldl_fillDetails_labelled]
  rcases hlignes with h | h
  · rw [h]
    simp only [List.foldl_cons, List.foldl_nil]
    rw [fillDetails_title _ _ htitre, fillDetails_start _ _ hdebut]
  · rw [h]
    simp only [List.foldl_cons, List.foldl_nil]
    rw [fillDetails_start _ _ hdebut, fillDetails_title _ _ htitre]

set_option maxRecDepth 100000 in
/-- C10, as stated, fails for the entry ACME, Brest, 29200, 2024: on a detail
page whose only labelled lines are "Titre du stage" and "Date de début" the
details returned have four more fields populated, those of the entry. -/
theorem C10_counterexample :
    fixtureDetailsPage.lignes.filter labelled =
      [{ label := " Titre du stage ", typeString := "Stage ingénieur" },
        { label := "Date de début", firstSpan := " 02/09/2024 " }] ∧
    (GetCatalogEntryDetails fixtureEnv fixtureClient
      (NewCatalogEntry "ACME" "Brest" "29200" "2024" 7) (.body "first") (.body "details")).result =
      .ok { Title := "Stage ingénieur", StartDate := "02/09/2024", EndDate := "",
            Description := "", Company := "ACME", City := "Brest", PostalCode := "29200",
            Year := "2024", StudentName := "" } ∧
    "ACME" ≠ "" := by
  decide

set_option maxRecDepth 100000 in
/-- C10 (amended) on the detail page of the fixtures. -/
theorem C10_details_title_and_start_date_witness :
    (GetCatalogEntryDetails fixtureEnv fixtureClient
      (NewCatalogEntry "ACME" "Brest" "29200" "2024" 7) (.body "first") (.body "details")).result =
      .ok { Title := ligneValue { label := " Titre du stage ", typeString := "Stage ingénieur" },
            StartDate := ligneValue { label := "Date de début", firstSpan := " 02/09/2024 " },
            EndDate := "", Description := "", StudentName := "", Company := "ACME",
            City := "Brest", PostalCode := "29200", Year := "2024" } :=
  C10_details_title_and_start_date fixtureEnv fixtureClient
    (NewCatalogEntry "ACME" "Brest" "29200" "2024" 7) "first" "details" "tok"
    fixtureFirstPage fixtureDetailsPage
    { label := " Titre du stage ", typeString := "Stage ingénieur" }
    { label := "Date de début", firstSpan := " 02/09/2024 " }
    (by decide) (by decide) (by decide) (by decide) (by decide) (by decide) (by decide)
    (Or.inl (by decide))

/-! ## Data containers and payload builder -/

/-- C19: the catalog payload builder is a function of its two arguments that
keeps the base payload verbatim: `BuildCatalogPayload b m` is `b` followed by
"&form:sidebar=form:sidebar&form:sidebar_menuid=" followed by `m`, so `b` is a
prefix of the output, and identical arguments give identical outputs.
`GetCatalogPayload i` returns that string for the menu id of `catalogs[i]` when
`0 ≤ i < len(catalogs)` and the error "catalog index out of range" otherwise. -/
theorem C19_BuildCatalogPayload_keeps_base (w : WebAurionClient) (catalogs : List Catalog)
    (b m b2 m2 : String) (i : Int) :
    BuildCatalogPayload b m = b ++ "&form:sidebar=form:sidebar&form:sidebar_menuid=" ++ m ∧
    b.data <+: (BuildCatalogPayload b m).data ∧
    (b = b2 → m = m2 → BuildCatalogPayload b m = BuildCatalogPayload b2 m2) ∧
    (∀ c : Catalog, 0 ≤ i → catalogs[i.toNat]? = some c →
      GetCatalogPayload w i catalogs = .ok (BuildCatalogPayload w.GetPayload c.MenuID)) ∧
    ((i < 0 ∨ (catalogs.length : Int) ≤ i) →
      GetCatalogPayload w i catalogs = .error "catalog index out of range") := by
  refine ⟨rfl, ?_, ?_, ?_, ?_⟩
  · unfold BuildCatalogPayload
    simp only [String.data_append, List.append_assoc]
    exact List.prefix_append _ _
  · intro h1 h2
    rw [h1, h2]
  · intro c h0 hc
    have hlt : i.toNat < catalogs.length := by
      by_contra hge
      rw [List.getElem?_eq_none_iff.mpr (by omega)] at hc
      cases hc
    unfold GetCatalogPayload
    rw [if_neg (by omega)]
    simp only [List.getD_eq_getElem?_getD, hc, Option.getD_some]
  · intro h
    unfold GetCatalogPayload
    rw [if_pos (by omega)]

/-- C19 on the catalogs of the fixtures: index 0 is in range. -/
theorem C19_BuildCatalogPayload_keeps_base_witness :
    GetCatalogPayload fixtureClient 0 fixtureCatalogs =
      .ok (BuildCatalogPayload fixtureClient.GetPayload "1_0") ∧
    GetCatalogPayload fixtureClient 1 fixtureCatalogs = .error "catalog index out of range" ∧
    GetCatalogPayload fixtureClient (-1) fixtureCatalogs = .error "catalog index out of range" :=
  ⟨(C19_BuildCatalogPayload_keeps_base fixtureClient fixtureCatalogs "" "" "" "" 0).2.2.2.1
      (NewCatalog "Catalogue des stages" "submenu_1" "1_0") (by decide) (by decide),
    (C19_BuildCatalogPayload_keeps_base fixtureClient fixtureCatalogs "" "" "" "" 1).2.2.2.2
      (Or.inr (by decide)),
    (C19_BuildCatalogPayload_keeps_base fixtureClient fixtureCatalogs "" "" "" "" (-1)).2.2.2.2
      (Or.inl (by decide))⟩

/-- C20: field access by name on the four containers.  For each container,
`Get key` returns the field whose JSON name is `key`, with no error, when `key`
is one of its serialized field names; for every other key it returns no value
and an error whose message is "invalid key: " followed by the key (and, for
three of the containers, by the list of the valid keys). -/
theorem C20_Get_by_field_name (c : Catalog) (ce : CatalogEntry) (cd : CatalogDetails)
    (cr : CatalogReport) (key : String) :
    (c.Get "name" = .ok (.str c.Name) ∧ c.Get "submenuId" = .ok (.str c.SubmenuID) ∧
      c.Get "menuId" = .ok (.str c.MenuID)) ∧
    (key ∉ ["name", "submenuId", "menuId"] →
      c.Get key = .error ("invalid key: " ++ key ++
        ", valid keys are \x27name\x27, \x27submenuId\x27, and \x27menuId\x27")) ∧
    (ce.Get "company" = .ok (.str ce.Company) ∧ ce.Get "city" = .ok (.str ce.City) ∧
      ce.Get "postalCode" = .ok (.str ce.PostalCode) ∧ ce.Get "year" = .ok (.str ce.Year)) ∧
    (key ∉ ["company", "city", "postalCode", "year"] →
      ce.Get key = .error ("invalid key: " ++ key ++
        ", valid keys are \x27company\x27, \x27city\x27, \x27postalCode\x27, and \x27year\x27")) ∧
    (cd.Get "title" = .ok (.str cd.Title) ∧ cd.Get "startDate" = .ok (.str cd.StartDate) ∧
      cd.Get "endDate" = .ok (.str cd.EndDate) ∧
      cd.Get "description" = .ok (.str cd.Description) ∧
      cd.Get "company" = .ok (.str cd.Company) ∧ cd.Get "city" = .ok (.str cd.City) ∧
      cd.Get "postalCode" = .ok (.str cd.PostalCode) ∧ cd.Get "year" = .ok (.str cd.Year) ∧
      cd.Get "studentName" = .ok (.str cd.StudentName)) ∧
    (key ∉ ["title", "startDate", "endDate", "description", "company", "city", "postalCode",
        "year", "studentName"] →
      cd.Get key = .error ("invalid key: " ++ key)) ∧
    (cr.Get "totalEntries" = .ok (.int cr.TotalEntries) ∧
      cr.Get "entries" = .ok (.entries cr.Entries)) ∧
    (key ∉ ["totalEntries", "entries"] →
      cr.Get key = .error ("invalid key: " ++ key ++
        ", valid keys are \x27totalEntries\x27 and \x27entries\x27")) := by
  refine ⟨⟨?_, ?_, ?_⟩, ?_, ⟨?_, ?_, ?_, ?_⟩, ?_, ⟨?_, ?_, ?_, ?_, ?_, ?_, ?_, ?_, ?_⟩, ?_,
    ⟨?_, ?_⟩, ?_⟩
  all_goals first
    | (intro h
       simp only [List.mem_cons, List.mem_singleton, List.not_mem_nil, not_or, or_false] at h
       simp [Catalog.Get, CatalogEntry.Get, CatalogDetails.Get, CatalogReport.Get, h])
    | simp [Catalog.Get, CatalogEntry.Get, CatalogDetails.Get, CatalogReport.Get]

/-- C20 on the fixtures: a known key of each container, the unserialized
`rowIndex` of an entry and an unknown key of the details. -/
theorem C20_Get_by_field_name_witness :
    fixtureEntry.Get "rowIndex" =
      .error "invalid key: rowIndex, valid keys are \x27company\x27, \x27city\x27, \x27postalCode\x27, and \x27year\x27" ∧
    fixtureDetails.Get "Title" = .error "invalid key: Title" ∧
    fixtureEntry.Get "company" = .ok (.str "ACME") ∧
    (NewCatalogReport [fixtureEntry]).Get "totalEntries" = .ok (.int 1) :=
  ⟨(C20_Get_by_field_name (NewCatalog "" "" "") fixtureEntry fixtureDetails
      (NewCatalogReport [fixtureEntry]) "rowIndex").2.2.2.1 (by decide),
    (C20_Get_by_field_name (NewCatalog "" "" "") fixtureEntry fixtureDetails
      (NewCatalogReport [fixtureEntry]) "Title").2.2.2.2.2.1 (by decide),
    (C20_Get_by_field_name (NewCatalog "" "" "") fixtureEntry fixtureDetails
      (NewCatalogReport [fixtureEntry]) "").2.2.1.1,
    (C20_Get_by_field_name (NewCatalog "" "" "") fixtureEntry fixtureDetails
      (NewCatalogReport [fixtureEntry]) "").2.2.2.2.2.2.1.1⟩

/-! ## The report invariant -/

/-- Every report `GetCatalogEntries` returns is built by `NewCatalogReport`. -/
theorem GetCatalogEntries_report (env : Env) (w : WebAurionClient) (catalogIndex : Int)
    (catalogs : List Catalog) (doRequest : String → Except String String)
    (replies : Nat → Reply) (run : CatalogRun) (report : CatalogReport)
    (hrun : GetCatalogEntries env w catalogIndex catalogs doRequest replies = some run)
    (hres : run.result = .ok report) :
    ∃ entries, report = NewCatalogReport entries := by
  unfold GetCatalogEntries at hrun
  cases hp : GetCatalogPayload w catalogIndex catalogs with
  | error e =>
    rw [hp] at hrun
    cases hrun
    cases hres
  | ok payload =>
    rw [hp] at hrun
    dsimp only at hrun
    cases hd : doRequest payload with
    | error e =>
      rw [hd] at hrun
      cases hrun
      cases hres
    | ok data =>
      rw [hd] at hrun
      dsimp only at hrun
      cases hdoc : env.parseHTML data with
      | error e =>
        rw [hdoc] at hrun
        cases hrun
        cases hres
      | ok doc =>
        rw [hdoc] at hrun
        dsimp only at hrun
        split at hrun
        · cases hl : pageLoop env w (w.GetViewState data false).1 (pageIdInit doc) replies 99 20
              2 (ParseCatalogEntries env doc) [] with
          | none =>
            rw [hl] at hrun
            cases hrun
          | some r =>
            obtain ⟨es, log⟩ := r
            rw [hl] at hrun
            cases hrun
            cases hres
            exact ⟨es, rfl⟩
        · cases hrun
          cases hres
          exact ⟨_, rfl⟩

/-- C16: the count of a report is the length of its sequence.  For every list
of entries, `NewCatalogReport entries` has `TotalEntries = len(entries)` and
`Entries = entries`.  `GetCatalogEntries` always returns, and every report it
returns, however many pages were merged and however the walk ended, has
`TotalEntries` equal to the length of its `Entries`. -/
theorem C16_report_count_is_length (env : Env) (w : WebAurionClient) (catalogIndex : Int)
    (catalogs : List Catalog) (doRequest : String → Except String String)
    (replies : Nat → Reply) (entries : List CatalogEntry) :
    ((NewCatalogReport entries).TotalEntries = (entries.length : Int) ∧
      (NewCatalogReport entries).Entries = entries) ∧
    ∃ run, GetCatalogEntries env w catalogIndex catalogs doRequest replies = some run ∧
      ∀ report, run.result = .ok report →
        report.TotalEntries = (report.Entries.length : Int) := by
  refine ⟨⟨rfl, rfl⟩, ?_⟩
  obtain ⟨run, hrun⟩ := GetCatalogEntries_isSome env w catalogIndex catalogs doRequest replies
  refine ⟨run, hrun, ?_⟩
  intro report hres
  obtain ⟨es, rfl⟩ :=
    GetCatalogEntries_report env w catalogIndex catalogs doRequest replies run report hrun hres
  rfl

/-! ## Column layouts -/

/-- The text `ParseCatalogEntries` reads in the cell number `i` of a row. -/
theorem cellsEq_lt (cells : List Cell) (i : Nat) (h : i < cells.length) :
    cellsEq cells i = [cells[i]] := by
  unfold cellsEq
  rw [List.drop_eq_getElem_cons h]
  rfl

/-- C11: `ParseCatalogEntries` reads a marked row by its number of cells `n`
and builds a record for every `n ≥ 1`.  The company is the text of cell 0.
For `n = 6` and `n = 5` the city is cell 1, the postal code cell 2 and the
period label cell 4 (cell 3 is skipped); for `n = 4` the period label is
cell 3; for every other `n ≥ 2` the period label is cell 1 and city and postal
code are empty; for `n = 1` only the company is filled.  The text of a cell is
`extractCellText`; in the period label the non-breaking spaces are replaced. -/
theorem C11_columns_by_cell_count (env : Env) (row : Row) (rowIndex : String) (n : Nat)
    (hmark : row.Attr "data-ri" = some rowIndex) (hn : row.cells.length = n) (h1 : 1 ≤ n) :
    ∃ e, parseCatalogRow env [] row = [e] ∧
      e.RowIndex = env.sscanfInt rowIndex ∧
      e.Company = extractCellText (cellsEq row.cells 0) ∧
      ((n = 6 ∨ n = 5) →
        e.City = extractCellText (cellsEq row.cells 1) ∧
        e.PostalCode = extractCellText (cellsEq row.cells 2) ∧
        e.Year = strings.ReplaceAll (extractCellText (cellsEq row.cells 4)) nbsp ' ') ∧
      (n = 4 →
        e.City = extractCellText (cellsEq row.cells 1) ∧
        e.PostalCode = extractCellText (cellsEq row.cells 2) ∧
        e.Year = strings.ReplaceAll (extractCellText (cellsEq row.cells 3)) nbsp ' ') ∧
      ((2 ≤ n ∧ n ≠ 4 ∧ n ≠ 5 ∧ n ≠ 6) →
        e.City = "" ∧ e.PostalCode = "" ∧
        e.Year = strings.ReplaceAll (extractCellText (cellsEq row.cells 1)) nbsp ' ') ∧
      (n = 1 → e.City = "" ∧ e.PostalCode = "" ∧ e.Year = "") := by
  refine ⟨catalogRowEntry env rowIndex row.cells, ?_, rfl, rfl, ?_, ?_, ?_, ?_⟩
  · unfold parseCatalogRow
    rw [hmark]
    simp only [List.nil_append]
    rw [if_neg (by omega)]
  · rintro (h | h)
    · subst h
      simp [catalogRowEntry, NewCatalogEntry, hn]
    · subst h
      simp [catalogRowEntry, NewCatalogEntry, hn]
  · intro h
    subst h
    simp [catalogRowEntry, NewCatalogEntry, hn]
  · rintro ⟨h2, h4, h5, h6⟩
    subst hn
    simp [catalogRowEntry, NewCatalogEntry, h4, h5, h6, h2]
  · intro h
    subst h
    simp [catalogRowEntry, NewCatalogEntry, hn]

/-- C11 on a row of six cells and on a row of three cells. -/
theorem C11_columns_by_cell_count_witness :
    (∃ e, parseCatalogRow fixtureEnv [] fixtureRow6 = [e] ∧
      e.Company = "ACME" ∧ e.City = "Brest" ∧ e.PostalCode = "29200" ∧
      e.Year = "2024 - 2025") ∧
    (∃ e, parseCatalogRow fixtureEnv [] fixtureRow3 = [e] ∧
      e.Company = "Initech" ∧ e.City = "" ∧ e.PostalCode = "" ∧ e.Year = "2023") := by
  obtain ⟨e, he, _, hc, h65, _, _, _⟩ :=
    C11_columns_by_cell_count fixtureEnv fixtureRow6 "0" 6 (by decide) (by decide) (by decide)
  obtain ⟨e3, he3, _, hc3, _, _, h3, _⟩ :=
    C11_columns_by_cell_count fixtureEnv fixtureRow3 "1" 3 (by decide) (by decide) (by decide)
  obtain ⟨h1, h2, h4⟩ := h65 (Or.inl rfl)
  obtain ⟨g1, g2, g3⟩ := h3 (by decide)
  refine ⟨⟨e, he, ?_, ?_, ?_, ?_⟩, ⟨e3, he3, ?_, g1, g2, ?_⟩⟩
  · rw [hc]; decide
  · rw [h1]; decide
  · rw [h2]; decide
  · rw [h4]; decide
  · rw [hc3]; decide
  · rw [g3]; decide

/-! ## The period label -/

theorem ReplaceAll_no_nbsp (s : String) : nbsp ∉ (strings.ReplaceAll s nbsp ' ').data := by
  unfold strings.ReplaceAll
  simp only [List.mem_map, not_exists, not_and]
  intro c _
  by_cases h : c = nbsp
  · rw [if_pos h]
    decide
  · rw [if_neg h]
    exact h

/-- The period label `ParseCatalogEntries` gives a row is the trimmed text of
one of its cells with the non-breaking spaces replaced, or is empty. -/
theorem catalogRowEntry_year (env : Env) (rowIndex : String) (cells : List Cell) :
    ∃ t, (t = "" ∨ ∃ k, t = extractCellText (cellsEq cells k)) ∧
      (catalogRowEntry env rowIndex cells).Year = strings.ReplaceAll t nbsp ' ' := by
  unfold catalogRowEntry NewCatalogEntry
  simp only []
  split
  · exact ⟨_, Or.inr ⟨4, rfl⟩, rfl⟩
  · split
    · exact ⟨_, Or.inr ⟨4, rfl⟩, rfl⟩
    · split
      · exact ⟨_, Or.inr ⟨3, rfl⟩, rfl⟩
      · split
        · exact ⟨_, Or.inr ⟨1, rfl⟩, rfl⟩
        · exact ⟨"", Or.inl rfl, by decide⟩

/-- The callback of the paginated page keeps a row with the marker and at
least four cells as one record and drops any other. -/
theorem parsePageRow_eq (env : Env) (entries : List CatalogEntry) (row : Row) :
    parsePageRow env entries row =
      entries ++ (if wellFormedPageRow row then
        [pageRowEntry env ((row.Attr "data-ri").getD "") row.cells] else []) := by
  unfold parsePageRow wellFormedPageRow
  cases h : row.Attr "data-ri" with
  | none => simp
  | some ri =>
    by_cases hc : row.cells.length < 4
    · have : ¬ (4 ≤ row.cells.length) := by omega
      simp [hc, this]
    · have : 4 ≤ row.cells.length := by omega
      simp [hc, this, pageRowEntry]

theorem foldl_parsePageRow (env : Env) (rows : List Row) :
    ∀ entries : List CatalogEntry,
      rows.foldl (parsePageRow env) entries =
        entries ++ (rows.filter wellFormedPageRow).map
          (fun r => pageRowEntry env ((r.Attr "data-ri").getD "") r.cells) := by
  induction rows with
  | nil => intro entries; simp
  | cons r rs ih =>
    intro entries
    rw [List.foldl_cons, ih, parsePageRow_eq]
    by_cases h : wellFormedPageRow r = true
    · simp [h, List.filter_cons]
    · simp [h, List.filter_cons]

/-- A successful decoding of a reply: the records are those of the rows of the
parsed fragment. -/
theorem decodeCatalogPage_ok (env : Env) (responseStr : String) (page : List CatalogEntry)
    (more : Bool) (h : decodeCatalogPage env responseStr = some (.ok (page, more))) :
    ∃ html doc, env.parseHTML ("<table><tbody>" ++ html ++ "</tbody></table>") = .ok doc ∧
      page = doc.rows.foldl (parsePageRow env) [] := by
  unfold decodeCatalogPage at h
  simp only [] at h
  split at h
  · cases h
  · split at h
    · cases h
    · split at h
      · cases h
      · split at h
        · cases h
        · next html _ =>
          split at h
          · cases h
          · next doc hdoc =>
            cases h
            exact ⟨html, doc, hdoc, rfl⟩

theorem fetchResult_ok (env : Env) (w : WebAurionClient) (first : Nat)
    (viewState idInit : String) (reply : Reply) (page : List CatalogEntry) (more : Bool)
    (h : fetchResult env w first viewState idInit reply = some (.ok (page, more))) :
    ∃ html doc, env.parseHTML ("<table><tbody>" ++ html ++ "</tbody></table>") = .ok doc ∧
      page = doc.rows.foldl (parsePageRow env) [] := by
  rw [fetchResult_eq] at h
  split at h
  · cases h
  · split at h
    · cases h
    · cases h
    · exact decodeCatalogPage_ok env _ page more h

/-- C15: the period label (`Year`) of every entry of listing extraction holds
no non-breaking space.  For `ParseCatalogEntries` (first page) it is the
trimmed text of a cell of a row of the table, or the empty text, in which every
U+00A0 is replaced by a space; for `getCatalogPage` (later pages) it is the
trimmed text of cell 3 of a row of the fragment with the same replacement.
The replacement changes the U+00A0 characters and nothing else. -/
theorem C15_period_label_without_nbsp (env : Env) (doc : Document) (w : WebAurionClient)
    (first : Nat) (viewState idInit : String) (reply : Reply) (page : List CatalogEntry)
    (more : Bool) :
    (∀ e, e ∈ ParseCatalogEntries env doc →
      nbsp ∉ e.Year.data ∧
      ∃ row t, row ∈ doc.catalogRows ∧
        (t = "" ∨ ∃ k, t = extractCellText (cellsEq row.cells k)) ∧
        e.Year = strings.ReplaceAll t nbsp ' ') ∧
    (fetchResult env w first viewState idInit reply = some (.ok (page, more)) →
      ∀ e, e ∈ page →
        nbsp ∉ e.Year.data ∧
        ∃ html doc2 row, env.parseHTML ("<table><tbody>" ++ html ++ "</tbody></table>") =
            .ok doc2 ∧ row ∈ doc2.rows ∧
          e.Year = strings.ReplaceAll
            (strings.TrimSpace (preformattedText (cellsEq row.cells 3))) nbsp ' ') ∧
    (∀ t : String, (strings.ReplaceAll t nbsp ' ').data =
      t.data.map (fun c => if c = nbsp then ' ' else c)) := by
  refine ⟨?_, ?_, fun t => rfl⟩
  · intro e he
    have hparse := foldl_parseCatalogRow env doc.catalogRows []
    simp only [List.nil_append] at hparse
    unfold ParseCatalogEntries at he
    rw [hparse, List.mem_map] at he
    obtain ⟨row, hrow, rfl⟩ := he
    obtain ⟨t, ht, hy⟩ := catalogRowEntry_year env ((row.Attr "data-ri").getD "") row.cells
    refine ⟨?_, row, t, (List.mem_filter.mp hrow).1, ht, hy⟩
    rw [hy]
    exact ReplaceAll_no_nbsp t
  · intro h e he
    obtain ⟨html, doc2, hdoc2, rfl⟩ := fetchResult_ok env w first viewState idInit reply page
      more h
    rw [foldl_parsePageRow, List.nil_append, List.mem_map] at he
    obtain ⟨row, hrow, rfl⟩ := he
    refine ⟨ReplaceAll_no_nbsp _, html, doc2, row, hdoc2, (List.mem_filter.mp hrow).1, rfl⟩

/-- C15 on a six-cell row whose period cell reads U+00A0 2024 U+00A0 - U+00A0
2025 U+00A0: the outer ones are trimmed, the inner ones become spaces. -/
theorem C15_period_label_without_nbsp_witness :
    ParseCatalogEntries fixtureEnv { catalogRows := [fixtureRow6] } =
      [NewCatalogEntry "ACME" "Brest" "29200" "2024 - 2025" 0] ∧
    ∀ e, e ∈ ParseCatalogEntries fixtureEnv { catalogRows := [fixtureRow6] } →
      nbsp ∉ e.Year.data :=
  ⟨by decide, fun e he =>
    ((C15_period_label_without_nbsp fixtureEnv { catalogRows := [fixtureRow6] } fixtureClient
      20 "" "" shortReply [] false).1 e he).1⟩

/-! ## The state token of the page fetches -/

theorem callsFrom_getElem (viewState idInit : String) :
    ∀ (m first k : Nat) (c : PageCall), (callsFrom viewState idInit first m)[k]? = some c →
      c = ⟨first + 20 * k, viewState, idInit⟩ := by
  intro m
  induction m with
  | zero => intro first k c h; simp [callsFrom] at h
  | succ m ih =>
    intro first k c h
    cases k with
    | zero =>
      simp only [callsFrom, List.getElem?_cons_zero, Option.some.injEq] at h
      rw [← h]
      rfl
    | succ k =>
      simp only [callsFrom, List.getElem?_cons_succ] at h
      rw [ih (first + 20) k c h]
      congr 1
      omega

/-- The calls the page loop makes are made at successive offsets, all with
the token and the identifier it was entered with. -/
theorem pageLoop_calls (env : Env) (w : WebAurionClient) (viewState idInit : String)
    (replies : Nat → Reply) :
    ∀ (fuel first pageNum : Nat) (entries : List CatalogEntry) (log : List PageCall)
      (r : List CatalogEntry × List PageCall),
      pageLoop env w viewState idInit replies fuel first pageNum entries log = some r →
      ∃ m, r.2 = log ++ callsFrom viewState idInit first m := by
  intro fuel
  induction fuel with
  | zero => intro first pageNum entries log r h; simp [pageLoop] at h
  | succ fuel ih =>
    intro first pageNum entries log r h
    have hone : log ++ [(⟨first, viewState, idInit⟩ : PageCall)] =
        log ++ callsFrom viewState idInit first 1 := rfl
    unfold pageLoop at h
    cases hf : getCatalogPage env w first viewState idInit (replies log.length) with
    | none => simp [hf] at h
    | some f =>
      simp only [hf] at h
      split at h
      · cases h
        exact ⟨1, hone⟩
      · split at h
        · cases h
          exact ⟨1, hone⟩
        · split at h
          · cases h
            exact ⟨1, hone⟩
          · split at h
            · obtain ⟨m, hm⟩ := ih _ _ _ _ r h
              refine ⟨m + 1, ?_⟩
              rw [hm, List.append_assoc]
              rfl
            · cases h
              exact ⟨1, hone⟩

/-- The calls of `getCatalogPage` made by `GetCatalogEntries` all carry the
token read on the first page. -/
theorem GetCatalogEntries_calls (env : Env) (w : WebAurionClient) (catalogIndex : Int)
    (catalogs : List Catalog) (doRequest : String → Except String String)
    (replies : Nat → Reply) (payload data : String) (doc : Document) (run : CatalogRun)
    (hpayload : GetCatalogPayload w catalogIndex catalogs = .ok payload)
    (hdata : doRequest payload = .ok data)
    (hdoc : env.parseHTML data = .ok doc)
    (hrun : GetCatalogEntries env w catalogIndex catalogs doRequest replies = some run) :
    run.calls = callsFrom (w.GetViewState data false).1 (pageIdInit doc) 20 run.calls.length := by
  unfold GetCatalogEntries at hrun
  simp only [hpayload, hdata, hdoc] at hrun
  split at hrun
  · cases hl : pageLoop env w (w.GetViewState data false).1 (pageIdInit doc) replies 99 20 2
        (ParseCatalogEntries env doc) [] with
    | none =>
      rw [hl] at hrun
      cases hrun
    | some r =>
      obtain ⟨m, hm⟩ := pageLoop_calls env w _ _ replies 99 20 2 _ [] r hl
      obtain ⟨es, log⟩ := r
      rw [hl] at hrun
      cases hrun
      simp only [List.nil_append] at hm
      show log = _
      rw [hm, callsFrom_length]
  · cases hrun
    rfl

/-- C12 (amended): in `GetCatalogEntries` every page fetch carries the state
token that `GetViewState` extracts from the response of the first page (the
response to `doRequest`), not a token held by the session since login.  The
fetch number `k` is made at offset `20 * (k + 1)` and the body it hands to the
client ends with that token; the same token is sent with every fetch, so it is
the token of the immediately preceding response for the fetch of page 2
only. -/
theorem C12_page_fetches_send_first_page_token (env : Env) (w : WebAurionClient)
    (catalogIndex : Int) (catalogs : List Catalog)
    (doRequest : String → Except String String) (replies : Nat → Reply)
    (payload data : String) (doc : Document)
    (hpayload : GetCatalogPayload w catalogIndex catalogs = .ok payload)
    (hdata : doRequest payload = .ok data)
    (hdoc : env.parseHTML data = .ok doc)
    (hreq : env.httpNewRequest "POST"
      (w.GetBaseURL ++ "/webAurion/faces/ChoixEvenementDUnFormulaire.xhtml") = none) :
    ∃ run, GetCatalogEntries env w catalogIndex catalogs doRequest replies = some run ∧
      ∀ (k : Nat) (c : PageCall), run.calls[k]? = some c →
        c.first = 20 * (k + 1) ∧
        c.viewState = (w.GetViewState data false).1 ∧
        c.idInit = pageIdInit doc ∧
        ∃ f, getCatalogPage env w c.first c.viewState c.idInit (replies k) = some f ∧
          f.sent = some (paginationBody env (20 * (k + 1)) (paginationFields w.GetPayload).1
            (pageIdInit doc) (paginationFields w.GetPayload).2 (w.GetViewState data false).1) := by
  obtain ⟨run, hrun⟩ := GetCatalogEntries_isSome env w catalogIndex catalogs doRequest replies
  have hcalls := GetCatalogEntries_calls env w catalogIndex catalogs doRequest replies payload
    data doc run hpayload hdata hdoc hrun
  refine ⟨run, hrun, ?_⟩
  intro k c hk
  rw [hcalls] at hk
  have hc := callsFrom_getElem _ _ _ _ _ _ hk
  subst hc
  have hfirst : 20 + 20 * k = 20 * (k + 1) := by omega
  simp only [hfirst]
  refine ⟨trivial, trivial, trivial, ?_⟩
  obtain ⟨f, hf⟩ := getCatalogPage_isSome env w (20 * (k + 1)) (w.GetViewState data false).1
    (pageIdInit doc) (replies k)
  exact ⟨f, hf, getCatalogPage_sent env w _ _ _ _ f hreq hf⟩

set_option maxRecDepth 100000 in
/-- C12, as stated, fails on a three-page listing: the reply that delivers
page 2 carries the token "tok2", and the fetch of page 3 still sends "tok",
the token of the first page. -/
theorem C12_counterexample :
    fixtureTokenClient.GetViewState "first" false = ("tok", none) ∧
    fixtureTokenReplies 0 = .body tokenReplyBody ∧
    fixtureTokenClient.GetViewState tokenReplyBody false = ("tok2", none) ∧
    (GetCatalogEntries fixtureEnv fixtureTokenClient 0 fixtureCatalogs (fun _ => .ok "first")
      fixtureTokenReplies).map (fun run => run.calls) =
        some [⟨20, "tok", ""⟩, ⟨40, "tok", ""⟩] ∧
    (getCatalogPage fixtureEnv fixtureTokenClient 40 "tok" "" (fixtureTokenReplies 1)).map
      (fun f => f.sent) = some (some (paginationBody fixtureEnv 40 "1022" "" "275805" "tok")) ∧
    "tok" ≠ "tok2" := by
  decide

set_option maxRecDepth 100000 in
/-- C12 (amended) on the three-page listing of the fixtures. -/
theorem C12_page_fetches_send_first_page_token_witness :
    ∃ run, GetCatalogEntries fixtureEnv fixtureTokenClient 0 fixtureCatalogs
        (fun _ => .ok "first") fixtureTokenReplies = some run ∧
      ∀ (k : Nat) (c : PageCall), run.calls[k]? = some c →
        c.first = 20 * (k + 1) ∧ c.viewState = "tok" := by
  obtain ⟨run, hrun, h⟩ :=
    C12_page_fetches_send_first_page_token fixtureEnv fixtureTokenClient 0 fixtureCatalogs
      (fun _ => .ok "first") fixtureTokenReplies
      (BuildCatalogPayload fixtureTokenClient.GetPayload "1_0") "first" fixtureFirstPage
      (by decide) rfl (by decide) (by decide)
  exact ⟨run, hrun, fun k c hk => ⟨(h k c hk).1, (h k c hk).2.1⟩⟩

/-! ## The base payload -/

theorem foldl_harvestLink_Payload (l : List Element) :
    ∀ w : WebAurion, (l.foldl harvestLink w).Payload = w.Payload := by
  induction l with
  | nil => intro w; rfl
  | cons s l ih =>
    intro w
    rw [List.foldl_cons, ih]
    unfold harvestLink
    simp only []
    split
    · rfl
    · split
      · rfl
      · split <;> rfl

theorem foldl_append_String (l : List String) :
    ∀ a : String, l.foldl (fun r s => r ++ s) a = a ++ l.foldl (fun r s => r ++ s) "" := by
  induction l with
  | nil => intro a; simp
  | cons b l ih =>
    intro a
    rw [List.foldl_cons, List.foldl_cons, ih (a ++ b), ih ("" ++ b)]
    simp [String.append_assoc]

theorem String_join_cons (a : String) (l : List String) :
    String.join (a :: l) = a ++ String.join l := by
  unfold String.join
  rw [List.foldl_cons, foldl_append_String]
  simp

theorem foldl_harvestInput_Payload (l : List Element) :
    ∀ w : WebAurion, (l.foldl harvestInput w).Payload =
      w.Payload ++ String.join (l.map
        (fun s => (s.Attr "name").getD "" ++ "=" ++ (s.Attr "value").getD "" ++ "&")) := by
  induction l with
  | nil =>
    intro w
    simp [String.join]
  | cons s l ih =>
    intro w
    rw [List.foldl_cons, ih, List.map_cons, String_join_cons]
    simp only [harvestInput, String.append_assoc]

/-- The branch `if first` of `getViewState` appends the serialization of the
inputs of the page to the payload the session already holds. -/
theorem harvest_Payload (doc : Document) (w : WebAurion) :
    (harvest doc w).Payload = w.Payload ++ basePayloadOf doc := by
  unfold harvest basePayloadOf
  simp only []
  rw [foldl_harvestInput_Payload, foldl_harvestLink_Payload]
  apply String.ext
  simp [String.data_append, List.append_assoc]

/-- A login attempt whose landing page is read and parsed appends the
serialization of its inputs to the payload of the session, token or not. -/
theorem performLogin_Payload (env : Env) (u p : String) (a : Attempt) (w : WebAurion)
    (cookies : List String) (body : Except String String) (doc : Document)
    (hP : env.httpNewRequest "POST" (w.BaseURL ++ "/webAurion/login") = none)
    (hG : env.httpNewRequest "GET" (w.BaseURL ++ "/webAurion/") = none)
    (hpost : a.post = .ok cookies) (hget : a.get = .ok body)
    (hdoc : body.bind env.parseHTML = .ok doc) :
    (performLogin env u p a w).2.Payload = w.Payload ++ basePayloadOf doc := by
  obtain ⟨post, get, now⟩ := a
  simp only at hpost hget
  subst hpost hget
  have hh := harvest_Payload doc { w with Cookies := cookies }
  simp only [performLogin, hP, hG, getViewState, hdoc, if_true]
  cases hs : selAttr (whereAttr doc.inputs "name" "javax.faces.ViewState") "value" with
  | none => exact hh
  | some v => exact hh

set_option maxRecDepth 100000 in
/-- C13 on the code: the payload is not captured once.  On a fresh session,
`Login` whose first attempt is served the login form and whose second attempt
reaches the landing page succeeds with a payload that starts with the inputs
of the login form, glued to the inputs of the landing page; a second `Login`
on the same session appends the inputs of the landing page once more. -/
theorem C13_payload_accumulates_across_attempts :
    basePayloadOf fixtureLanding =
      "form=form&form:largeurDivCenter=1022&javax.faces.ViewState=tok1&form:j_idt820_input=275805" ∧
    (Login fixtureEnv "user" "secret" fixtureAttempts NewWebAurion).map
      (fun run => (run.success, run.err, run.session.Payload)) =
        some (true, none,
          "username=&password=&form:j_idt820_input=275805form=form&form:largeurDivCenter=1022&javax.faces.ViewState=tok1&form:j_idt820_input=275805") ∧
    ((Login fixtureEnv "user" "secret" (fun _ => fixtureAttempts 1) NewWebAurion).bind
      (fun run => Login fixtureEnv "user" "secret" (fun _ => fixtureAttempts 1) run.session)).map
      (fun run => (run.success, run.err, run.session.Payload)) =
        some (true, none,
          "form=form&form:largeurDivCenter=1022&javax.faces.ViewState=tok1&form:j_idt820_input=275805form=form&form:largeurDivCenter=1022&javax.faces.ViewState=tok1&form:j_idt820_input=275805") := by
  decide

/-! ## The named update section (C14) -/

theorem indexFrom_of_first (sub : List Char) :
    ∀ (s : List Char) (i k : Nat), k ≤ s.length → sub.isPrefixOf (s.drop k) = true →
      (∀ j, j < k → sub.isPrefixOf (s.drop j) = false) →
      strings.indexFrom sub s i = some (i + k) := by
  intro s
  induction s with
  | nil =>
    intro i k hk hp _
    have hk0 : k = 0 := by simpa using hk
    subst hk0
    unfold strings.indexFrom
    simp only [List.drop_zero] at hp
    simp [hp]
  | cons c cs ih =>
    intro i k hk hp hfirst
    unfold strings.indexFrom
    cases k with
    | zero =>
      simp only [List.drop_zero] at hp
      simp [hp]
    | succ k =>
      have h0 : sub.isPrefixOf (c :: cs) = false := by
        simpa using hfirst 0 (Nat.succ_pos k)
      rw [if_neg (by simp [h0])]
      rw [ih (i + 1) k (by simpa using hk) (by simpa using hp)
        (fun j hj => by simpa using hfirst (j + 1) (Nat.succ_lt_succ hj))]
      congr 1
      omega

theorem indexFrom_of_absent (sub : List Char) :
    ∀ (s : List Char) (i : Nat), (∀ k, k ≤ s.length → sub.isPrefixOf (s.drop k) = false) →
      strings.indexFrom sub s i = none := by
  intro s
  induction s with
  | nil =>
    intro i h
    have h0 : sub.isPrefixOf [] = false := by simpa using h 0 (Nat.le_refl _)
    unfold strings.indexFrom
    simp [h0]
  | cons c cs ih =>
    intro i h
    have h0 : sub.isPrefixOf (c :: cs) = false := by simpa using h 0 (Nat.zero_le _)
    unfold strings.indexFrom
    rw [if_neg (by simp [h0])]
    exact ih (i + 1) (fun k hk => by simpa using h (k + 1) (by simpa using hk))

theorem firstAtOrAfter_spec (sub s : String) (p k : Nat)
    (h : firstAtOrAfter sub s p k = true) :
    p ≤ k ∧ k ≤ s.data.length ∧ sub.data.isPrefixOf (s.data.drop k) = true ∧
      ∀ j, p ≤ j → j < k → sub.data.isPrefixOf (s.data.drop j) = false := by
  unfold firstAtOrAfter occursAt at h
  simp only [Bool.and_eq_true, decide_eq_true_eq, List.all_eq_true, List.mem_range,
    Bool.or_eq_true, Bool.not_eq_true', Bool.and_eq_false_imp] at h
  obtain ⟨⟨hpk, hkl, hp⟩, hall⟩ := h
  refine ⟨hpk, hkl, hp, ?_⟩
  intro j hpj hjk
  rcases hall j hjk with hlt | hno
  · omega
  · exact hno (by omega)

theorem absentFrom_spec (sub s : String) (p : Nat) (h : absentFrom sub s p = true) :
    ∀ k, p ≤ k → k ≤ s.data.length → sub.data.isPrefixOf (s.data.drop k) = false := by
  unfold absentFrom occursAt at h
  simp only [List.all_eq_true, List.mem_range, Bool.or_eq_true, decide_eq_true_eq,
    Bool.not_eq_true', Bool.and_eq_false_imp] at h
  intro k hpk hkl
  rcases h k (by omega) with hlt | hno
  · omega
  · exact hno hkl

/-- Search in `s[p:]`: the first occurrence at or after `p`, counted from `p`. -/
theorem Index_sliceFrom_first (sub s : String) (p k : Nat)
    (h : firstAtOrAfter sub s p k = true) :
    strings.Index (strings.sliceFrom s (p : Int)) sub = ((k - p : Nat) : Int) := by
  obtain ⟨hpk, hkl, hp, hfirst⟩ := firstAtOrAfter_spec sub s p k h
  unfold strings.Index strings.sliceFrom
  simp only [Int.toNat_ofNat]
  have := indexFrom_of_first sub.data (s.data.drop p) 0 (k - p)
    (by simp only [List.length_drop]; omega)
    (by rw [List.drop_drop, show p + (k - p) = k by omega]; exact hp)
    (fun j hj => by rw [List.drop_drop]; exact hfirst (p + j) (by omega) (by omega))
  rw [this]
  simp

/-- Search in `s[p:]` when there is no occurrence at or after `p`. -/
theorem Index_sliceFrom_absent (sub s : String) (p : Nat) (hpl : p ≤ s.data.length)
    (h : absentFrom sub s p = true) :
    strings.Index (strings.sliceFrom s (p : Int)) sub = -1 := by
  have hab := absentFrom_spec sub s p h
  unfold strings.Index strings.sliceFrom
  simp only [Int.toNat_ofNat]
  have := indexFrom_of_absent sub.data (s.data.drop p) 0
    (fun k hk => by
      rw [List.drop_drop]
      simp only [List.length_drop] at hk
      exact hab (p + k) (by omega) (by omega))
  rw [this]

theorem Index_first (sub s : String) (k : Nat) (h : firstAtOrAfter sub s 0 k = true) :
    strings.Index s sub = (k : Int) := by
  have := Index_sliceFrom_first sub s 0 k h
  simpa [strings.sliceFrom] using this

theorem Index_absent (sub s : String) (h : absentFrom sub s 0 = true) :
    strings.Index s sub = -1 := by
  have := Index_sliceFrom_absent sub s 0 (Nat.zero_le _) h
  simpa [strings.sliceFrom] using this
theorem slice_cdataText (s : String) (c e : Nat) (hce : c + 9 ≤ e) (hel : e ≤ s.data.length) :
    strings.slice s ((c : Int) + 9) (e : Int) = some (cdataText s c e) := by
  unfold strings.slice cdataText
  rw [if_pos (by omega)]
  have h1 : ((c : Int) + 9).toNat = c + 9 := by omega
  rw [h1, Int.toNat_ofNat]

/-- The decoding of a response in which the three delimiters are found. -/
theorem decodeCatalogPage_section (env : Env) (s : String) (m c e : Nat)
    (hm : firstAtOrAfter "<update id=\"form:j_idt193\">" s 0 m = true)
    (hc : firstAtOrAfter "<![CDATA[" s m c = true)
    (he : firstAtOrAfter "]]>" s c e = true) :
    c + 9 ≤ e ∧ e ≤ s.data.length ∧
    decodeCatalogPage env s =
      some (match env.parseHTML ("<table><tbody>" ++ cdataText s c e ++ "</tbody></table>") with
        | .error err => .error ("error parsing page HTML: " ++ err)
        | .ok doc => .ok (doc.rows.foldl (parsePageRow env) [],
            (doc.rows.foldl (parsePageRow env) []).length == 20)) := by
  have h1 := Index_first _ s m hm
  have h2 := Index_sliceFrom_first _ s m c hc
  have h3 := Index_sliceFrom_first _ s c e he
  obtain ⟨hmc, _, hopen, _⟩ := firstAtOrAfter_spec _ s m c hc
  obtain ⟨hce, hel, hend, _⟩ := firstAtOrAfter_spec _ s c e he
  have h9 : 9 ≤ e - c := by
    apply cdata_end_after_opening (s.data.drop c) (e - c) hopen
    rw [List.drop_drop, show c + (e - c) = e by omega]
    exact hend
  have hce9 : c + 9 ≤ e := by omega
  refine ⟨hce9, hel, ?_⟩
  have e2 : ((c - m : Nat) : Int) + (m : Int) = (c : Int) := by omega
  have e3 : ((e - c : Nat) : Int) + (c : Int) = (e : Int) := by omega
  have n1 : ¬ ((m : Int) = -1) := by omega
  have n2 : ¬ (((c - m : Nat) : Int) = -1) := by omega
  have n3 : ¬ (((e - c : Nat) : Int) = -1) := by omega
  unfold decodeCatalogPage
  simp only [h1, h2, e2, h3, e3, n1, n2, n3, if_false, slice_cdataText s c e hce9 hel]
  cases env.parseHTML ("<table><tbody>" ++ cdataText s c e ++ "</tbody></table>") <;> rfl

theorem decodeCatalogPage_no_marker (env : Env) (s : String)
    (h : absentFrom "<update id=\"form:j_idt193\">" s 0 = true) :
    decodeCatalogPage env s =
      some (.error "table update section not found in pagination response") := by
  have h1 := Index_absent _ s h
  unfold decodeCatalogPage
  simp only [h1, if_true]

theorem decodeCatalogPage_no_cdata (env : Env) (s : String) (m : Nat)
    (hm : firstAtOrAfter "<update id=\"form:j_idt193\">" s 0 m = true)
    (h : absentFrom "<![CDATA[" s m = true) :
    decodeCatalogPage env s = some (.error "CDATA not found in table update section") := by
  have h1 := Index_first _ s m hm
  obtain ⟨_, hml, _, _⟩ := firstAtOrAfter_spec _ s 0 m hm
  have h2 := Index_sliceFrom_absent _ s m hml h
  have n1 : ¬ ((m : Int) = -1) := by omega
  unfold decodeCatalogPage
  simp only [h1, h2, n1, if_false, if_true]

theorem decodeCatalogPage_no_end (env : Env) (s : String) (m c : Nat)
    (hm : firstAtOrAfter "<update id=\"form:j_idt193\">" s 0 m = true)
    (hc : firstAtOrAfter "<![CDATA[" s m c = true)
    (h : absentFrom "]]>" s c = true) :
    decodeCatalogPage env s = some (.error "CDATA end not found") := by
  have h1 := Index_first _ s m hm
  have h2 := Index_sliceFrom_first _ s m c hc
  obtain ⟨hmc, hcl, _, _⟩ := firstAtOrAfter_spec _ s m c hc
  have h3 := Index_sliceFrom_absent _ s c hcl h
  have e2 : ((c - m : Nat) : Int) + (m : Int) = (c : Int) := by omega
  have n1 : ¬ ((m : Int) = -1) := by omega
  have n2 : ¬ (((c - m : Nat) : Int) = -1) := by omega
  unfold decodeCatalogPage
  simp only [h1, h2, e2, h3, n1, n2, if_false, if_true]

/-- Either a pattern does not occur at or after `p`, or it has a first
occurrence there. -/
theorem first_or_absent (sub s : String) (p : Nat) :
    absentFrom sub s p = true ∨ ∃ k, firstAtOrAfter sub s p k = true := by
  by_cases h : ∃ k, p ≤ k ∧ occursAt sub s k = true
  · right
    classical
    refine ⟨Nat.find h, ?_⟩
    obtain ⟨hpk, hocc⟩ := Nat.find_spec h
    unfold firstAtOrAfter
    simp only [Bool.and_eq_true, decide_eq_true_eq, List.all_eq_true, List.mem_range,
      Bool.or_eq_true, Bool.not_eq_true']
    refine ⟨⟨hpk, hocc⟩, ?_⟩
    intro j hj
    by_cases hpj : j < p
    · exact Or.inl hpj
    · right
      have := Nat.find_min h hj
      simp only [not_and, Bool.not_eq_true] at this
      exact this (by omega)
  · left
    unfold absentFrom
    simp only [List.all_eq_true, List.mem_range, Bool.or_eq_true, decide_eq_true_eq,
      Bool.not_eq_true']
    intro k _
    by_cases hpk : k < p
    · exact Or.inl hpk
    · right
      simp only [not_exists, not_and, Bool.not_eq_true] at h
      exact h k (by omega)
/-- C14: `getCatalogPage`, once its request is created and the body is read,
extracts the payload of the section named `form:j_idt193`, whatever other
sections the response holds.  With `m` the first offset of the marker
`<update id="form:j_idt193">`, `c` the first offset of `<![CDATA[` at or
after `m` and `e` the first offset of `]]>` at or after `c`: the slice is in
range (`c + 9 ≤ e ≤ |responseStr|`, so there is no panic), the text parsed is
the one strictly between the opening and the end, wrapped in a table and a
table body, and the opening is never before the marker.  When the marker is
absent, when no opening follows it, or when no end follows the opening, the
result is the error naming the missing delimiter, with no records.  These four
cases are all the cases. -/
theorem C14_named_section_extracted (env : Env) (w : WebAurionClient) (first : Nat)
    (viewState idInit responseStr : String)
    (hreq : env.httpNewRequest "POST"
      (w.GetBaseURL ++ "/webAurion/faces/ChoixEvenementDUnFormulaire.xhtml") = none) :
    (absentFrom "<update id=\"form:j_idt193\">" responseStr 0 = true →
      fetchResult env w first viewState idInit (.body responseStr) =
        some (.error "table update section not found in pagination response")) ∧
    (∀ m, firstAtOrAfter "<update id=\"form:j_idt193\">" responseStr 0 m = true →
      (absentFrom "<![CDATA[" responseStr m = true →
        fetchResult env w first viewState idInit (.body responseStr) =
          some (.error "CDATA not found in table update section")) ∧
      (∀ c, firstAtOrAfter "<![CDATA[" responseStr m c = true →
        m ≤ c ∧
        (absentFrom "]]>" responseStr c = true →
          fetchResult env w first viewState idInit (.body responseStr) =
            some (.error "CDATA end not found")) ∧
        (∀ e, firstAtOrAfter "]]>" responseStr c e = true →
          c + 9 ≤ e ∧ e ≤ responseStr.data.length ∧
          fetchResult env w first viewState idInit (.body responseStr) =
            some (match env.parseHTML
                ("<table><tbody>" ++ cdataText responseStr c e ++ "</tbody></table>") with
              | .error err => .error ("error parsing page HTML: " ++ err)
              | .ok doc => .ok (doc.rows.foldl (parsePageRow env) [],
                  (doc.rows.foldl (parsePageRow env) []).length == 20))))) ∧
    (∀ (sub : String) (p : Nat), absentFrom sub responseStr p = true ∨
      ∃ k, firstAtOrAfter sub responseStr p k = true) := by
  have hf : fetchResult env w first viewState idInit (.body responseStr) =
      decodeCatalogPage env responseStr := by
    rw [fetchResult_eq, hreq]
  rw [hf]
  refine ⟨decodeCatalogPage_no_marker env responseStr, ?_, fun sub p => first_or_absent sub responseStr p⟩
  intro m hm
  refine ⟨decodeCatalogPage_no_cdata env responseStr m hm, ?_⟩
  intro c hc
  refine ⟨(firstAtOrAfter_spec _ _ _ _ hc).1,
    decodeCatalogPage_no_end env responseStr m c hm hc, ?_⟩
  intro e he
  exact decodeCatalogPage_section env responseStr m c e hm hc he

set_option maxRecDepth 100000 in
/-- C14 on a response with three update sections: the section
`form:j_idt193` is the second one, and its five rows are returned, not the
twenty rows of the CDATA block of the section before it. -/
theorem C14_named_section_extracted_witness :
    fixtureEnv.httpNewRequest "POST"
      (fixtureClient.GetBaseURL ++ "/webAurion/faces/ChoixEvenementDUnFormulaire.xhtml") = none ∧
    firstAtOrAfter "<![CDATA[" multiSectionBody 0 54 = true ∧
    firstAtOrAfter "<update id=\"form:j_idt193\">" multiSectionBody 0 79 = true ∧
    firstAtOrAfter "<![CDATA[" multiSectionBody 79 106 = true ∧
    firstAtOrAfter "]]>" multiSectionBody 106 120 = true ∧
    cdataText multiSectionBody 106 120 = "short" ∧
    fetchResult fixtureEnv fixtureClient 20 "tok" "" (.body multiSectionBody) =
      some (.ok (List.replicate 5 (NewCatalogEntry "ACME" "Brest" "29200" "2024" 7),
        false)) := by
  have h := C14_named_section_extracted fixtureEnv fixtureClient 20 "tok" ""
    multiSectionBody (by decide)
  have hm : firstAtOrAfter "<update id=\"form:j_idt193\">" multiSectionBody 0 79 = true := by
    decide
  have hc : firstAtOrAfter "<![CDATA[" multiSectionBody 79 106 = true := by decide
  have he : firstAtOrAfter "]]>" multiSectionBody 106 120 = true := by decide
  refine ⟨by decide, by decide, hm, hc, he, by decide, ?_⟩
  rw [(((h.2.1 79 hm).2 106 hc).2.2 120 he).2.2]
  decide

/-! ## The request operation and the last-activity timestamp (C17, C18) -/

theorem proxyIndexValid_iff (w : WebAurion) :
    proxyIndexValid w = true ↔
      (w.ProxyEndpoints = [] ∨ w.currentProxyIndex < w.ProxyEndpoints.length) := by
  unfold proxyIndexValid
  simp [List.isEmpty_iff]

/-- Rotation touches the transport state only, and leaves a valid index. -/
theorem rotateProxy_frame (env : Env) (w : WebAurion) (h : 2 ≤ w.ProxyEndpoints.length) :
    ∃ err w2, rotateProxy env w = some (err, w2) ∧ sessionData w2 = sessionData w ∧
      proxyIndexValid w2 = true := by
  have hlt : (w.currentProxyIndex + 1) % w.ProxyEndpoints.length < w.ProxyEndpoints.length :=
    Nat.mod_lt _ (by omega)
  unfold rotateProxy updateClientWithProxy
  rw [if_neg (by omega)]
  simp only []
  rw [if_neg (by omega)]
  cases hg : w.ProxyEndpoints[(w.currentProxyIndex + 1) % w.ProxyEndpoints.length]? with
  | none =>
    rw [List.getElem?_eq_none_iff] at hg
    omega
  | some endpoint =>
    simp only []
    cases env.urlParse endpoint with
    | some e =>
      refine ⟨_, _, rfl, rfl, ?_⟩
      rw [proxyIndexValid_iff]
      exact Or.inr hlt
    | none =>
      refine ⟨_, _, rfl, rfl, ?_⟩
      rw [proxyIndexValid_iff]
      exact Or.inr hlt

/-- The target of a request depends on the base URL only. -/
theorem requestTarget_sessionData (w w1 : WebAurion) (referer : List String)
    (h : sessionData w1 = sessionData w) : requestTarget w1 referer = requestTarget w referer := by
  have hb : w1.BaseURL = w.BaseURL := congrArg (fun s => s.BaseURL) h
  unfold requestTarget
  rw [hb]

/-- Function `performRequest` with a valid proxy index: it returns, and a
response is the body the client gave. -/
theorem performRequest_cases (env : Env) (payload : String) (referer : List String)
    (reply : Reply) (w : WebAurion) (hv : proxyIndexValid w = true) :
    (∃ e, env.httpNewRequest "POST" (requestTarget w referer) = some e ∧
      performRequest env payload referer reply w = some (.error e)) ∨
    (env.httpNewRequest "POST" (requestTarget w referer) = none ∧
      ((∃ e, performRequest env payload referer reply w = some (.error e)) ∨
        (∃ data, reply = .body data ∧
          performRequest env payload referer reply w = some (.ok data)))) := by
  unfold performRequest
  simp only []
  cases hreq : env.httpNewRequest "POST" (requestTarget w referer) with
  | some e => exact Or.inl ⟨e, rfl, rfl⟩
  | none =>
    refine Or.inr ⟨rfl, ?_⟩
    cases reply with
    | transportError e =>
      obtain ⟨p, hp⟩ := getCurrentProxy_valid w ((proxyIndexValid_iff w).mp hv)
      simp only [hp]
      exact Or.inl ⟨_, rfl⟩
    | readError e => exact Or.inl ⟨_, rfl⟩
    | body data => exact Or.inr ⟨data, rfl, rfl⟩

/-- The loop of `DoRequestWithRetry` from a session with a valid proxy index:
it returns; the session it leaves differs from the one it started with in the
transport state at most; it hands at most one POST per iteration to the
client, each with the payload and to the target of the call; a response comes
with at least one POST. -/
theorem requestLoop_spec (env : Env) (payload : String) (referer : List String)
    (replies : Nat → Reply) (maxRetries : Int) :
    ∀ (left attempt : Nat) (w : WebAurion) (lastError : Option String)
      (posts : List PostRecord), proxyIndexValid w = true →
      ∃ run, requestLoop env payload referer replies maxRetries left attempt w lastError posts =
          some run ∧
        sessionData run.session = sessionData w ∧
        proxyIndexValid run.session = true ∧
        ∃ extra, run.posts = posts ++ extra ∧ extra.length ≤ left ∧
          (∀ p, p ∈ extra → p = ⟨requestTarget w referer, payload⟩) ∧
          (∀ data, run.result = .ok data → 1 ≤ extra.length) := by
  intro left
  induction left with
  | zero =>
    intro attempt w lastError posts hv
    refine ⟨_, rfl, rfl, hv, [], by simp, by simp, by simp, ?_⟩
    intro data h
    cases h
  | succ left ih =>
    intro attempt w lastError posts hv
    have hrot : ∃ w1, (if attempt > 0 ∧ w.ProxyEndpoints.length > 1 then
          match rotateProxy env w with
          | none => none
          | some (_, w1) => some w1
        else some w) = some w1 ∧ sessionData w1 = sessionData w ∧
        proxyIndexValid w1 = true := by
      by_cases hc : attempt > 0 ∧ w.ProxyEndpoints.length > 1
      · rw [if_pos hc]
        obtain ⟨err, w2, hr, h1, h2⟩ := rotateProxy_frame env w (by omega)
        rw [hr]
        exact ⟨w2, rfl, h1, h2⟩
      · rw [if_neg hc]
        exact ⟨w, rfl, rfl, hv⟩
    obtain ⟨w1, hw1, hfr, hv1⟩ := hrot
    have htgt := requestTarget_sessionData w w1 referer hfr
    unfold requestLoop
    simp only [hw1]
    rcases performRequest_cases env payload referer (replies attempt) w1 hv1 with
      ⟨e, hreq, hp⟩ | ⟨hreq, ⟨e, hp⟩ | ⟨data, _, hp⟩⟩
    · rw [hp]
      simp only [postOf, hreq, List.append_nil]
      obtain ⟨run, hrun, hs, hvr, extra, hposts, hlen, hall, hok⟩ :=
        ih (attempt + 1) w1 (some e) posts hv1
      refine ⟨run, hrun, hs.trans hfr, hvr, extra, hposts, by omega, ?_, hok⟩
      intro p hp
      rw [← htgt]
      exact hall p hp
    · rw [hp]
      simp only [postOf, hreq]
      obtain ⟨run, hrun, hs, hvr, extra, hposts, hlen, hall, hok⟩ :=
        ih (attempt + 1) w1 (some e) (posts ++ [⟨requestTarget w1 referer, payload⟩]) hv1
      refine ⟨run, hrun, hs.trans hfr, hvr, ⟨requestTarget w1 referer, payload⟩ :: extra,
        by rw [hposts]; simp, by simp; omega, ?_, fun _ _ => by simp⟩
      intro p hp
      rw [← htgt]
      rcases List.mem_cons.mp hp with h | h
      · exact h
      · exact hall p h
    · rw [hp]
      simp only [postOf, hreq]
      refine ⟨_, rfl, hfr, hv1, [⟨requestTarget w1 referer, payload⟩], rfl, by simp, ?_,
        fun _ _ => by simp⟩
      intro p hp
      rw [← htgt]
      simpa using hp
/-- Whatever the loop of `DoRequestWithRetry` returns, the session it leaves
differs from the one it started with in the transport state at most. -/
theorem requestLoop_frame (env : Env) (payload : String) (referer : List String)
    (replies : Nat → Reply) (maxRetries : Int) :
    ∀ (left attempt : Nat) (w : WebAurion) (lastError : Option String)
      (posts : List PostRecord) (run : RequestRun),
      requestLoop env payload referer replies maxRetries left attempt w lastError posts =
        some run →
      sessionData run.session = sessionData w := by
  intro left
  induction left with
  | zero =>
    intro attempt w lastError posts run h
    simp only [requestLoop, Option.some.injEq] at h
    subst h
    rfl
  | succ left ih =>
    intro attempt w lastError posts run h
    have hrot : (if attempt > 0 ∧ w.ProxyEndpoints.length > 1 then
          match rotateProxy env w with
          | none => none
          | some (_, w1) => some w1
        else some w) = none ∨
        ∃ w1, (if attempt > 0 ∧ w.ProxyEndpoints.length > 1 then
          match rotateProxy env w with
          | none => none
          | some (_, w1) => some w1
        else some w) = some w1 ∧ sessionData w1 = sessionData w := by
      by_cases hc : attempt > 0 ∧ w.ProxyEndpoints.length > 1
      · rw [if_pos hc]
        obtain ⟨err, w2, hr, h1, _⟩ := rotateProxy_frame env w (by omega)
        rw [hr]
        exact Or.inr ⟨w2, rfl, h1⟩
      · rw [if_neg hc]
        exact Or.inr ⟨w, rfl, rfl⟩
    unfold requestLoop at h
    rcases hrot with hnone | ⟨w1, hw1, hfr⟩
    · simp only [hnone] at h
      cases h
    · simp only [hw1] at h
      cases hp : performRequest env payload referer (replies attempt) w1 with
      | none =>
        rw [hp] at h
        cases h
      | some r =>
        rw [hp] at h
        cases r with
        | ok data =>
          simp only [Option.some.injEq] at h
          subst h
          exact hfr
        | error e =>
          exact (ih _ _ _ _ run h).trans hfr

/-- C17 (amended): the request operation never writes the last-activity
timestamp.  Whenever `DoRequestWithRetry`, and so `DoRequest` which is the same
call with 3 attempts, returns, with a response or with an error,
`LastRequetTime` is what it was before the call: the session differs in the
transport state (client, index of the proxy in use) at most.  From a session
with a valid proxy index the call does return. -/
theorem C17_request_keeps_timestamp (env : Env) (replies : Nat → Reply) (payload : String)
    (maxRetries : Int) (referer : List String) (w : WebAurion) :
    DoRequest env replies payload referer w =
      DoRequestWithRetry env replies payload 3 referer w ∧
    (∀ run, DoRequestWithRetry env replies payload maxRetries referer w = some run →
      run.session.LastRequetTime = w.LastRequetTime ∧
      sessionData run.session = sessionData w) ∧
    (proxyIndexValid w = true →
      ∃ run, DoRequestWithRetry env replies payload maxRetries referer w = some run ∧
        run.session.LastRequetTime = w.LastRequetTime ∧
        sessionData run.session = sessionData w) := by
  refine ⟨rfl, ?_, ?_⟩
  · intro run hrun
    have hs := requestLoop_frame env payload referer replies maxRetries maxRetries.toNat 0 w
      none [] run hrun
    exact ⟨congrArg (fun s => s.LastRequetTime) hs, hs⟩
  · intro hv
    obtain ⟨run, hrun, hs, _, _⟩ :=
      requestLoop_spec env payload referer replies maxRetries maxRetries.toNat 0 w none [] hv
    exact ⟨run, hrun, congrArg (fun s => s.LastRequetTime) hs, hs⟩

set_option maxRecDepth 100000 in
/-- C17 as first stated fails: a session whose last activity dates from
instant 100 makes a request that succeeds, on the first POST or after a retry
through the second proxy, and the timestamp is still 100 after the call. -/
theorem C17_counterexample :
    fixtureIdle.LastRequetTime = 100 ∧
    (DoRequest fixtureEnv (fun _ => .body "grades") (GetGradesPayload fixtureIdle) []
        fixtureIdle).map (fun run => (run.result, run.session.LastRequetTime, run.posts.length)) =
      some (.ok "grades", 100, 1) ∧
    (DoRequestWithRetry fixtureEnv fixtureRetryReplies (GetGradesPayload fixtureIdleProxied) 3 []
        fixtureIdleProxied).map
        (fun run => (run.result, run.session.LastRequetTime, run.posts.length,
          run.session.currentProxyIndex)) =
      some (.ok "grades", 100, 2, 1) := by
  decide

set_option maxRecDepth 100000 in
/-- C17 (amended) on a request that succeeds after a retry through the second
proxy of the pool. -/
theorem C17_request_keeps_timestamp_witness :
    proxyIndexValid fixtureIdleProxied = true ∧
    (DoRequest fixtureEnv fixtureRetryReplies "form=form" [] fixtureIdleProxied =
      DoRequestWithRetry fixtureEnv fixtureRetryReplies "form=form" 3 [] fixtureIdleProxied ∧
    ∃ run, DoRequestWithRetry fixtureEnv fixtureRetryReplies "form=form" 3 []
        fixtureIdleProxied = some run ∧
      run.session.LastRequetTime = fixtureIdleProxied.LastRequetTime ∧
      sessionData run.session = sessionData fixtureIdleProxied) :=
  ⟨by decide,
    (C17_request_keeps_timestamp fixtureEnv fixtureRetryReplies "form=form" 3 []
      fixtureIdleProxied).1,
    (C17_request_keeps_timestamp fixtureEnv fixtureRetryReplies "form=form" 3 []
      fixtureIdleProxied).2.2 (by decide)⟩

/-- C18: `Refresh` with the clock as input (`now` when the idle time is
measured, `later` when the timestamp is written), from a session with a valid
proxy index.  (1) Idle for at most 30 minutes: no POST, result nil, session
unchanged.  (2) Idle for more than 30 minutes: one call of the request
operation `DoRequest` with the grades payload and no referer, which hands at
most 3 POSTs to the client, each to the main menu page with that payload; if
the call gives a response, at least one POST was made, the result is nil and
the session is the one the call left with `LastRequetTime` set to `later`; if
it gives an error, that error is returned and the timestamp is unchanged.
(3) Idempotence: after a `Refresh` that returned nil, a `Refresh` at an
instant within 30 minutes of the timestamp makes no POST, returns nil and
leaves the session unchanged. -/
theorem C18_Refresh_keeps_warm (env : Env) (replies : Nat → Reply) (now later : Int)
    (w : WebAurion) (hv : proxyIndexValid w = true) :
    (now - w.LastRequetTime ≤ thirtyMinutes →
      Refresh env replies now later w = some ⟨none, w, []⟩) ∧
    (now - w.LastRequetTime > thirtyMinutes →
      ∃ run, DoRequest env replies (GetGradesPayload w) [] w = some run ∧
        run.posts.length ≤ 3 ∧
        (∀ p, p ∈ run.posts →
          p = ⟨w.BaseURL ++ "/webAurion/faces/MainMenuPage.xhtml", GetGradesPayload w⟩) ∧
        sessionData run.session = sessionData w ∧
        (∀ data, run.result = .ok data →
          1 ≤ run.posts.length ∧
          Refresh env replies now later w =
            some ⟨none, { run.session with LastRequetTime := later }, run.posts⟩) ∧
        (∀ e, run.result = .error e →
          Refresh env replies now later w = some ⟨some e, run.session, run.posts⟩ ∧
          run.session.LastRequetTime = w.LastRequetTime)) ∧
    (∀ r, Refresh env replies now later w = some r → r.err = none →
      ∀ (replies2 : Nat → Reply) (now2 later2 : Int),
        now2 - r.session.LastRequetTime ≤ thirtyMinutes →
        Refresh env replies2 now2 later2 r.session = some ⟨none, r.session, []⟩) := by
  refine ⟨?_, ?_, ?_⟩
  · intro h
    unfold Refresh
    rw [if_neg (by omega)]
  · intro h
    obtain ⟨run, hrun, hs, _, extra, hposts, hlen, hall, hok⟩ :=
      requestLoop_spec env (GetGradesPayload w) [] replies 3 (3 : Int).toNat 0 w none [] hv
    have hrun2 : DoRequest env replies (GetGradesPayload w) [] w = some run := hrun
    have hp : run.posts = extra := by simpa using hposts
    refine ⟨run, hrun2, ?_, ?_, hs, ?_, ?_⟩
    · rw [hp]
      exact hlen
    · intro p hmem
      rw [hp] at hmem
      exact hall p hmem
    · intro data hd
      refine ⟨by rw [hp]; exact hok data hd, ?_⟩
      unfold Refresh
      rw [if_pos h, hrun2]
      simp only [hd]
    · intro e he
      refine ⟨?_, congrArg (fun s => s.LastRequetTime) hs⟩
      unfold Refresh
      rw [if_pos h, hrun2]
      simp only [he]
  · intro r _ _ replies2 now2 later2 h
    unfold Refresh
    rw [if_neg (by omega)]

set_option maxRecDepth 100000 in
/-- C18 on the idle session of the fixtures: at an instant more than 30
minutes after the last activity `Refresh` makes one POST and writes the
timestamp; called again right after, with a client that is down, it does
nothing and returns nil. -/
theorem C18_Refresh_keeps_warm_witness :
    proxyIndexValid fixtureIdle = true ∧
    Refresh fixtureEnv (fun _ => .body "grades") (thirtyMinutes + 101) (thirtyMinutes + 150)
        fixtureIdle =
      some ⟨none, { fixtureIdle with LastRequetTime := thirtyMinutes + 150 },
        [⟨"https://portal/webAurion/faces/MainMenuPage.xhtml",
          "form=form&form:j_idt1=form:j_idt1"⟩]⟩ ∧
    Refresh fixtureEnv (fun _ => .transportError "down") (thirtyMinutes + 151)
        (thirtyMinutes + 200) { fixtureIdle with LastRequetTime := thirtyMinutes + 150 } =
      some ⟨none, { fixtureIdle with LastRequetTime := thirtyMinutes + 150 }, []⟩ := by
  have h := C18_Refresh_keeps_warm fixtureEnv (fun _ => .body "grades") (thirtyMinutes + 101)
    (thirtyMinutes + 150) fixtureIdle (by decide)
  have h1 : Refresh fixtureEnv (fun _ => .body "grades") (thirtyMinutes + 101)
      (thirtyMinutes + 150) fixtureIdle =
      some ⟨none, { fixtureIdle with LastRequetTime := thirtyMinutes + 150 },
        [⟨"https://portal/webAurion/faces/MainMenuPage.xhtml",
          "form=form&form:j_idt1=form:j_idt1"⟩]⟩ := by
    decide
  refine ⟨by decide, h1, ?_⟩
  exact h.2.2 _ h1 rfl (fun _ => .transportError "down") (thirtyMinutes + 151)
    (thirtyMinutes + 200) (by decide)

/-! ## Embedded parameter blocks: `parseOnclickButton` (C22) -/

theorem length_dropWhile_le (p : Char → Bool) (l : List Char) :
    (l.dropWhile p).length ≤ l.length :=
  (List.dropWhile_sublist p).length_le

/-- The loop of `parseOnclickButton` ends within its budget. -/
theorem buttonLoop_isSome :
    ∀ (fuel : Nat) (rest : List Char) (params : StringMap), rest.length < fuel →
      ∃ m, buttonLoop fuel rest params = some m := by
  intro fuel
  induction fuel with
  | zero => intro rest params h; omega
  | succ fuel ih =>
    intro rest params h
    cases rest with
    | nil => exact ⟨_, rfl⟩
    | cons c cs =>
      have hcs : cs.length < fuel := by simpa using h
      unfold buttonLoop
      split
      · exact ih cs params hcs
      · simp only []
        have h1 := length_dropWhile_le (fun x => x ≠ quote) cs
        split
        · exact ⟨_, rfl⟩
        · next afterKey hk =>
          rw [hk] at h1
          have h2 := length_dropWhile_le (fun x => x ≠ quote) afterKey
          split
          · exact ⟨_, rfl⟩
          · next afterQuote hq =>
            rw [hq] at h2
            have h3 := length_dropWhile_le (fun x => x ≠ quote) afterQuote
            split
            · exact ⟨_, rfl⟩
            · next afterValue hv =>
              rw [hv] at h3
              simp only [List.length_cons] at h1 h2 h3
              exact ih afterValue _ (by omega)

theorem lastIndexFrom_spec (sub : List Char) :
    ∀ (s : List Char) (i j : Nat), strings.lastIndexFrom sub s i = some j →
      ∃ k, j = i + k ∧ k ≤ s.length ∧ sub.isPrefixOf (s.drop k) = true := by
  intro s
  induction s with
  | nil =>
    intro i j h
    unfold strings.lastIndexFrom at h
    split at h
    · next hp =>
      refine ⟨0, ?_, Nat.le_refl _, by simpa using hp⟩
      simpa using (Option.some.inj h).symm
    · simp at h
  | cons c cs ih =>
    intro i j h
    unfold strings.lastIndexFrom at h
    split at h
    · next j2 hj2 =>
      obtain ⟨k, hk, hle, hp⟩ := ih (i + 1) j2 hj2
      have hj : j2 = j := Option.some.inj h
      exact ⟨k + 1, by omega, by simp; omega, by simpa using hp⟩
    · split at h
      · next hp =>
        refine ⟨0, ?_, Nat.zero_le _, by simpa using hp⟩
        simpa using (Option.some.inj h).symm
      · simp at h

/-- A found last occurrence: `LastIndex` is a position of the text at which
the pattern starts. -/
theorem LastIndex_found (s sub : String) (h : strings.LastIndex s sub ≠ -1) :
    ∃ k : Nat, strings.LastIndex s sub = (k : Int) ∧ k ≤ s.data.length ∧
      sub.data.isPrefixOf (s.data.drop k) = true := by
  unfold strings.LastIndex at h ⊢
  cases hi : strings.lastIndexFrom sub.data s.data 0 with
  | none => simp [hi] at h
  | some j =>
    obtain ⟨k, hk, hle, hp⟩ := lastIndexFrom_spec sub.data s.data 0 j hi
    refine ⟨k, ?_, hle, hp⟩
    simp [hk]

/-- When `parseOnclickButton` panics: exactly when both braces are found and
the last closing brace stands before the first opening brace. -/
theorem parseOnclickButton_none_iff (onclick : String) :
    parseOnclickButton onclick = none ↔
      (strings.Index onclick "\x7b" ≠ -1 ∧ strings.LastIndex onclick "\x7d" ≠ -1 ∧
        strings.LastIndex onclick "\x7d" < strings.Index onclick "\x7b") := by
  unfold parseOnclickButton
  simp only []
  by_cases h1 : strings.Index onclick "\x7b" = -1
  · simp [h1]
  · by_cases h2 : strings.LastIndex onclick "\x7d" = -1
    · simp [h2]
    · obtain ⟨a, ha, hal, hap⟩ := Index_found onclick "\x7b" h1
      obtain ⟨b, hb, hbl, hbp⟩ := LastIndex_found onclick "\x7d" h2
      have hne : a ≠ b := by
        intro hab
        subst hab
        cases hd : onclick.data.drop a with
        | nil => rw [hd] at hap; simp [List.isPrefixOf] at hap
        | cons c cs =>
          rw [hd] at hap hbp
          simp [List.isPrefixOf] at hap hbp
          rw [← hap] at hbp
          exact absurd hbp (by decide)
      rw [if_neg (by simp [h1, h2])]
      rw [ha, hb]
      by_cases hlt : b < a
      · have hs : strings.slice onclick ((a : Int) + 1) (b : Int) = none := by
          unfold strings.slice
          rw [if_neg (by omega)]
        rw [hs]
        simp only [true_iff]
        exact ⟨by omega, by omega, by omega⟩
      · have hs : strings.slice onclick ((a : Int) + 1) (b : Int) =
            some ⟨(onclick.data.take b).drop (a + 1)⟩ := by
          unfold strings.slice
          rw [if_pos (by omega)]
          have e1 : ((a : Int) + 1).toNat = a + 1 := by omega
          rw [e1, Int.toNat_ofNat]
        rw [hs]
        simp only []
        obtain ⟨m, hm⟩ := buttonLoop_isSome (((onclick.data.take b).drop (a + 1)).length + 1)
          ((onclick.data.take b).drop (a + 1)) [] (Nat.lt_succ_self _)
        rw [hm]
        constructor
        · intro h; cases h
        · rintro ⟨_, _, h⟩
          omega

set_option maxRecDepth 100000 in
/-- C22 on the code: `parseOnclickButton` is not total.  On the text `}{`
the first opening brace is at offset 1 and the last closing brace at offset 0,
and the slice `onclick[2:0]` is out of range; the same happens whenever the
last closing brace stands before the first opening brace, and only then.
`parseOnclickButtonParams` has the guard `endIndex <= startIndex` and returns
the empty mapping on such a block.  Unbalanced braces in the other order and
unterminated quotes are handled. -/
theorem C22_parseOnclickButton_panics_on_reversed_braces :
    parseOnclickButton "\x7d\x7b" = none ∧
    parseOnclickButton "return f(x)\x7d; if (c) \x7bg(\x27a\x27,\x27b\x27)" = none ∧
    parseOnclickButtonParams "PrimeFaces.addSubmitParam\x7d\x7b" = some [] ∧
    parseOnclickButton "\x7b\x7b\x27a\x27:\x27b" = some [] ∧
    parseOnclickButton "PrimeFaces.ab(\x7b\x27form:sidebar_menuid\x27:\x271_0\x27\x7d);" =
      some [("form:sidebar_menuid", "1_0")] ∧
    (∀ onclick : String, parseOnclickButton onclick = none ↔
      (strings.Index onclick "\x7b" ≠ -1 ∧ strings.LastIndex onclick "\x7d" ≠ -1 ∧
        strings.LastIndex onclick "\x7d" < strings.Index onclick "\x7b")) :=
  ⟨by decide, by decide, by decide, by decide, by decide, parseOnclickButton_none_iff⟩
/-! ## The two listing extractors side by side (C23) -/

/-- The extractor of `ParseCatalogEntries` on a cell whose text is in its
`span.preformatted`. -/
theorem extractCellText_preformatted (sel : List Cell)
    (h : strings.TrimSpace (preformattedText sel) ≠ "") :
    extractCellText sel = strings.TrimSpace (preformattedText sel) := by
  unfold extractCellText
  simp only []
  rw [if_pos h]

/-- The two extractors on a marked row whose cells hold their text in
`span.preformatted`: with 4 cells both build the same record; with 5 or 6
cells they agree on company, city, postal code and row index, and the page
extractor of `getCatalogPage` reads the period label in cell 3 where
`ParseCatalogEntries` reads it in cell 4. -/
theorem extractors_compared (env : Env) (row : Row) (rowIndex : String)
    (hmark : row.Attr "data-ri" = some rowIndex)
    (hpre : ∀ i, i < row.cells.length →
      strings.TrimSpace (preformattedText (cellsEq row.cells i)) ≠ "") :
    (row.cells.length = 4 → parsePageRow env [] row = parseCatalogRow env [] row) ∧
    ((row.cells.length = 5 ∨ row.cells.length = 6) →
      ∃ p c, parsePageRow env [] row = [p] ∧ parseCatalogRow env [] row = [c] ∧
        p.Company = c.Company ∧ p.City = c.City ∧ p.PostalCode = c.PostalCode ∧
        p.RowIndex = c.RowIndex ∧
        p.Year = strings.ReplaceAll
          (strings.TrimSpace (preformattedText (cellsEq row.cells 3))) nbsp ' ' ∧
        c.Year = strings.ReplaceAll
          (strings.TrimSpace (preformattedText (cellsEq row.cells 4))) nbsp ' ') := by
  constructor
  · intro h4
    unfold parsePageRow parseCatalogRow catalogRowEntry
    rw [hmark]
    simp only [h4, List.nil_append]
    rw [extractCellText_preformatted _ (hpre 0 (by omega)),
      extractCellText_preformatted _ (hpre 1 (by omega)),
      extractCellText_preformatted _ (hpre 2 (by omega)),
      extractCellText_preformatted _ (hpre 3 (by omega))]
    simp
  · intro h56
    refine ⟨pageRowEntry env rowIndex row.cells, catalogRowEntry env rowIndex row.cells,
      ?_, ?_, ?_⟩
    · unfold parsePageRow pageRowEntry
      rw [hmark]
      simp only [List.nil_append]
      rw [if_neg (by omega)]
    · unfold parseCatalogRow
      rw [hmark]
      simp only [List.nil_append]
      rw [if_neg (by omega)]
    · unfold pageRowEntry catalogRowEntry NewCatalogEntry
      rw [extractCellText_preformatted _ (hpre 0 (by omega)),
        extractCellText_preformatted _ (hpre 1 (by omega)),
        extractCellText_preformatted _ (hpre 2 (by omega)),
        extractCellText_preformatted _ (hpre 4 (by omega))]
      rcases h56 with h | h <;> simp [h]

set_option maxRecDepth 100000 in
/-- C23 on the code: the two extractors do not agree on a row of the table
with the columns company, city, postal code, country, period, button.  For the
row of six cells of the fixtures `ParseCatalogEntries` builds the period label
from cell 4 ("2024 - 2025") and the page extractor of `getCatalogPage` from
cell 3, the country ("France").  In general, on a marked row whose cells hold
their text in `span.preformatted`, the records are equal for 4 cells, and for
5 or 6 cells they differ in the period label only: cell 3 on later pages,
cell 4 on the first page. -/
theorem C23_extractors_disagree_on_wide_rows :
    wellFormedPageRow fixtureRow5 = true ∧
    (∀ i, i < fixtureRow5.cells.length →
      strings.TrimSpace (preformattedText (cellsEq fixtureRow5.cells i)) ≠ "") ∧
    parseCatalogRow fixtureEnv [] fixtureRow5 =
      [NewCatalogEntry "ACME" "Brest" "29200" "2024 - 2025" 21] ∧
    parsePageRow fixtureEnv [] fixtureRow5 =
      [NewCatalogEntry "ACME" "Brest" "29200" "France" 21] ∧
    parseCatalogRow fixtureEnv [] fixtureRow6 =
      [NewCatalogEntry "ACME" "Brest" "29200" "2024 - 2025" 0] ∧
    parsePageRow fixtureEnv [] fixtureRow6 =
      [NewCatalogEntry "ACME" "Brest" "29200" "France" 0] ∧
    (∀ (env : Env) (row : Row) (rowIndex : String),
      row.Attr "data-ri" = some rowIndex →
      (∀ i, i < row.cells.length →
        strings.TrimSpace (preformattedText (cellsEq row.cells i)) ≠ "") →
      (row.cells.length = 4 → parsePageRow env [] row = parseCatalogRow env [] row) ∧
      ((row.cells.length = 5 ∨ row.cells.length = 6) →
        ∃ p c, parsePageRow env [] row = [p] ∧ parseCatalogRow env [] row = [c] ∧
          p.Company = c.Company ∧ p.City = c.City ∧ p.PostalCode = c.PostalCode ∧
          p.RowIndex = c.RowIndex ∧
          p.Year = strings.ReplaceAll
            (strings.TrimSpace (preformattedText (cellsEq row.cells 3))) nbsp ' ' ∧
          c.Year = strings.ReplaceAll
            (strings.TrimSpace (preformattedText (cellsEq row.cells 4))) nbsp ' ')) :=
  ⟨by decide, by decide, by decide, by decide, by decide, by decide, extractors_compared⟩

/-! ## Embedded parameter blocks: `parseOnclickButtonParams` (C21) -/

/-- Absence of a pattern, in the words of Go: `strings.Contains` is false. -/
theorem Contains_false_absent (s sub : String) (h : strings.Contains s sub = false) :
    ∀ k, k ≤ s.data.length → sub.data.isPrefixOf (s.data.drop k) = false := by
  rcases first_or_absent sub s 0 with ha | ⟨k, hk⟩
  · intro k hk
    exact absentFrom_spec sub s 0 ha k (Nat.zero_le _) hk
  · obtain ⟨_, hkl, hp, hfirst⟩ := firstAtOrAfter_spec sub s 0 k hk
    have := indexFrom_of_first sub.data s.data 0 k hkl hp
      (fun j hj => hfirst j (Nat.zero_le _) hj)
    unfold strings.Contains at h
    rw [this] at h
    simp at h

theorem cut_none_of_absent (sep : List Char) :
    ∀ s : List Char, (∀ k, k ≤ s.length → sep.isPrefixOf (s.drop k) = false) →
      strings.cut sep s = none := by
  intro s
  induction s with
  | nil =>
    intro h
    have h0 : sep.isPrefixOf [] = false := by simpa using h 0 (Nat.le_refl _)
    unfold strings.cut
    simp [h0]
  | cons c cs ih =>
    intro h
    have h0 : sep.isPrefixOf (c :: cs) = false := by simpa using h 0 (Nat.zero_le _)
    unfold strings.cut
    rw [if_neg (by simp [h0])]
    rw [ih (fun k hk => by simpa using h (k + 1) (by simpa using hk))]
    rfl

/-- A text that holds no occurrence of the separator is the only part. -/
theorem SplitSep_absent (s sep : String) (h : strings.Contains s sep = false) :
    strings.SplitSep s sep = [s] := by
  unfold strings.SplitSep strings.splitLoop
  rw [cut_none_of_absent sep.data s.data (Contains_false_absent s sep h)]
  rfl

/-- No occurrence of the separator starts in `Y`: the cut of `Y ++ X` is the
cut of `X`. -/
theorem cut_append_of_absent (sep : List Char) (X : List Char) :
    ∀ Y : List Char, (∀ j, j < Y.length → sep.isPrefixOf ((Y ++ X).drop j) = false) →
      strings.cut sep (Y ++ X) = (strings.cut sep X).map (fun p => (Y ++ p.1, p.2)) := by
  intro Y
  induction Y with
  | nil =>
    intro _
    rw [List.nil_append]
    cases strings.cut sep X <;> rfl
  | cons y Y ih =>
    intro h
    have h0 : sep.isPrefixOf (y :: (Y ++ X)) = false := by
      simpa using h 0 (by simp)
    rw [List.cons_append]
    conv_lhs => unfold strings.cut
    rw [if_neg (by simp [h0])]
    rw [ih (fun j hj => by simpa using h (j + 1) (by simpa using hj))]
    cases strings.cut sep X <;> rfl

theorem cut_at_separator (sep X : List Char) (hne : sep ≠ []) :
    strings.cut sep (sep ++ X) = some ([], X) := by
  cases sep with
  | nil => exact absurd rfl hne
  | cons c cs =>
    rw [List.cons_append]
    unfold strings.cut
    have hp : (c :: cs).isPrefixOf (c :: (cs ++ X)) = true := by
      rw [← List.cons_append]
      exact List.isPrefixOf_iff_prefix.mpr (List.prefix_append _ _)
    rw [if_pos hp]
    simp

/-- An occurrence of `sep` that starts in `Y`, in a text `Y ++ X`, either lies
in `Y` or has the end of `Y` as a proper prefix. -/
theorem occurrence_across (sep Y X : List Char) (j : Nat) (hj : j < Y.length)
    (h : sep.isPrefixOf ((Y ++ X).drop j) = true) :
    sep.isPrefixOf (Y.drop j) = true ∨
      ((Y.drop j).length < sep.length ∧ Y.drop j <+: sep ∧
        sep.drop (Y.drop j).length <+: X) := by
  have hd : (Y ++ X).drop j = Y.drop j ++ X := by
    rw [List.drop_append_of_le_length (by omega)]
  rw [hd] at h
  have hpre : sep <+: Y.drop j ++ X := List.isPrefixOf_iff_prefix.mp h
  by_cases hlen : sep.length ≤ (Y.drop j).length
  · left
    exact List.isPrefixOf_iff_prefix.mpr
      (List.prefix_of_prefix_length_le hpre (List.prefix_append _ _) hlen)
  · right
    have hq : Y.drop j <+: sep :=
      List.prefix_of_prefix_length_le (List.prefix_append _ _) hpre (by omega)
    refine ⟨by omega, hq, ?_⟩
    obtain ⟨S, hS⟩ := hq
    have hS2 : sep.drop (Y.drop j).length = S := by
      rw [← hS]
      simp
    rw [hS2]
    rw [← hS] at hpre
    exact (List.prefix_append_right_inj _).mp hpre
set_option maxRecDepth 100000 in
/-- The function name does not overlap itself: none of its proper suffixes is
one of its prefixes. -/
theorem submitParamName_unbordered :
    ∀ t, t < 25 → 0 < t →
      (submitParamName.data.drop t).isPrefixOf submitParamName.data = false := by
  decide

set_option maxRecDepth 100000 in
theorem submitParamName_no_brace : ¬ ('}' ∈ submitParamName.data) := by
  decide

/-- In `P ++ name ++ X`, where `P` does not contain the function name, no
occurrence of the name starts inside `P`. -/
theorem no_occurrence_before_name (P X : List Char)
    (hP : ∀ k, k ≤ P.length → submitParamName.data.isPrefixOf (P.drop k) = false) :
    ∀ j, j < P.length →
      submitParamName.data.isPrefixOf ((P ++ (submitParamName.data ++ X)).drop j) = false := by
  intro j hj
  cases hocc : submitParamName.data.isPrefixOf ((P ++ (submitParamName.data ++ X)).drop j) with
  | false => rfl
  | true =>
    exfalso
    rcases occurrence_across _ P _ j hj hocc with h | ⟨hlt, _, hsuf⟩
    · rw [hP j (by omega)] at h
      cases h
    · have hlen : submitParamName.data.length = 25 := by decide
      have ht : 0 < (P.drop j).length := by
        rw [List.length_drop]
        omega
      have hpre : submitParamName.data.drop (P.drop j).length <+: submitParamName.data :=
        List.prefix_of_prefix_length_le hsuf (List.prefix_append _ _)
          (by rw [List.length_drop]; omega)
      have := submitParamName_unbordered (P.drop j).length (by omega) ht
      rw [List.isPrefixOf_iff_prefix.mpr hpre] at this
      cases this

/-- In `Z ++ "}" ++ R`, where `Z ++ "}"` does not contain the function name,
no occurrence of the name starts before `R`. -/
theorem no_occurrence_before_close (Z R : List Char)
    (hY : ∀ k, k ≤ (Z ++ ['}']).length →
      submitParamName.data.isPrefixOf ((Z ++ ['}']).drop k) = false) :
    ∀ j, j < (Z ++ ['}']).length →
      submitParamName.data.isPrefixOf (((Z ++ ['}']) ++ R).drop j) = false := by
  intro j hj
  cases hocc : submitParamName.data.isPrefixOf (((Z ++ ['}']) ++ R).drop j) with
  | false => rfl
  | true =>
    exfalso
    rcases occurrence_across _ (Z ++ ['}']) R j hj hocc with h | ⟨_, hpre, _⟩
    · rw [hY j (by omega)] at h
      cases h
    · have hjZ : j ≤ Z.length := by
        simp only [List.length_append, List.length_singleton] at hj
        omega
      have hmem : '}' ∈ (Z ++ ['}']).drop j := by
        rw [List.drop_append_of_le_length hjZ]
        simp
      exact submitParamName_no_brace (hpre.subset hmem)

/-- The parts of `P ++ name ++ Z ++ "}" ++ R`: at least two, and the second
one starts with `Z ++ "}"`. -/
theorem splitLoop_block (P Z R : List Char) (n : Nat)
    (hP : ∀ k, k ≤ P.length → submitParamName.data.isPrefixOf (P.drop k) = false)
    (hY : ∀ k, k ≤ (Z ++ ['}']).length →
      submitParamName.data.isPrefixOf ((Z ++ ['}']).drop k) = false) :
    ∃ R2 more, strings.splitLoop submitParamName.data (n + 2)
        (P ++ (submitParamName.data ++ ((Z ++ ['}']) ++ R))) =
      P :: ((Z ++ ['}']) ++ R2) :: more := by
  have hc1 : strings.cut submitParamName.data
      (P ++ (submitParamName.data ++ ((Z ++ ['}']) ++ R))) = some (P, (Z ++ ['}']) ++ R) := by
    rw [cut_append_of_absent _ _ P (no_occurrence_before_name P _ hP),
      cut_at_separator _ _ (by decide)]
    simp
  have hc2 := cut_append_of_absent submitParamName.data R (Z ++ ['}'])
    (no_occurrence_before_close Z R hY)
  simp only [strings.splitLoop, hc1, hc2]
  cases strings.cut submitParamName.data R with
  | none => exact ⟨R, [], rfl⟩
  | some p => exact ⟨p.1, _, rfl⟩
theorem takeWhile_to_quote (k rest : List Char) (h : ¬ (quote ∈ k)) :
    (k ++ quote :: rest).takeWhile (fun x => x ≠ quote) = k := by
  rw [List.takeWhile_append_of_pos (fun a ha => by
    simp only [ne_eq, decide_not, Bool.not_eq_true', decide_eq_false_iff_not]
    rintro rfl
    exact h ha)]
  simp

theorem dropWhile_to_quote (k rest : List Char) (h : ¬ (quote ∈ k)) :
    (k ++ quote :: rest).dropWhile (fun x => x ≠ quote) = quote :: rest := by
  rw [List.dropWhile_append_of_pos (fun a ha => by
    simp only [ne_eq, decide_not, Bool.not_eq_true', decide_eq_false_iff_not]
    rintro rfl
    exact h ha)]
  simp

/-- The characters of the text of a non-empty list of pairs. -/
theorem pairsText_cons (p : String × String) (ps : List (String × String)) :
    (pairsText (p :: ps)).data =
      quote :: (p.1.data ++ quote :: ':' :: quote :: (p.2.data ++ quote ::
        (match ps with
          | [] => []
          | _ :: _ => ',' :: (pairsText ps).data))) := by
  have hq : ("\x27" : String).data = [quote] := by decide
  have hm : ("\x27:\x27" : String).data = [quote, ':', quote] := by decide
  have hc : ("," : String).data = [','] := by decide
  cases ps with
  | nil =>
    simp only [pairsText, pairText, String.data_append, hq, hm]
    simp
    decide
  | cons q qs =>
    simp only [pairsText, pairText, String.data_append, hq, hm, hc]
    simp
    decide

theorem not_mem_of_contains_false (l : List Char) (c : Char) (h : l.contains c = false) :
    ¬ (c ∈ l) := by
  intro hm
  have ht : l.contains c = true := List.elem_iff.mpr hm
  rw [h] at ht
  cases ht

theorem plainPairs_cons (p : String × String) (ps : List (String × String))
    (h : plainPairs (p :: ps) = true) :
    (¬ (quote ∈ p.1.data) ∧ ¬ ('}' ∈ p.1.data) ∧ ¬ (quote ∈ p.2.data) ∧ ¬ ('}' ∈ p.2.data)) ∧
      plainPairs ps = true := by
  unfold plainPairs at h ⊢
  simp only [List.all_cons, Bool.and_eq_true, Bool.not_eq_true'] at h
  obtain ⟨⟨⟨⟨h1, h2⟩, h3⟩, h4⟩, hps⟩ := h
  refine ⟨⟨?_, ?_, ?_, ?_⟩, hps⟩
  · exact not_mem_of_contains_false _ _ h1
  · exact not_mem_of_contains_false _ _ h2
  · exact not_mem_of_contains_false _ _ h3
  · exact not_mem_of_contains_false _ _ h4

/-- The loop of `parseOnclickButtonParams` on the text of a list of pairs:
one assignment per pair, in order. -/
theorem paramsLoop_pairs :
    ∀ (pairs : List (String × String)) (m : StringMap) (fuel : Nat),
      plainPairs pairs = true → pairs.length < fuel →
      paramsLoop fuel (pairsText pairs).data m =
        some (pairs.foldl (fun m p => m.set p.1 p.2) m) := by
  intro pairs
  induction pairs with
  | nil =>
    intro m fuel _ hf
    cases fuel with
    | zero => omega
    | succ f => rfl
  | cons p ps ih =>
    intro m fuel hplain hf
    obtain ⟨⟨hk1, _, hv1, _⟩, hps⟩ := plainPairs_cons p ps hplain
    cases fuel with
    | zero => omega
    | succ f =>
      have hf2 : ps.length < f := by simpa using hf
      have hcolon : ¬ (quote = ':') := by decide
      have hspace : ¬ (quote = ' ') := by decide
      have hcomma : ¬ (quote = ',') := by decide
      rw [pairsText_cons]
      unfold paramsLoop
      rw [if_neg (by simp)]
      simp only [takeWhile_to_quote _ _ hk1, dropWhile_to_quote _ _ hk1]
      have hd1 : ∀ l : List Char, (':' :: quote :: l).dropWhile (fun x => x = ':' ∨ x = ' ') =
          quote :: l := by
        intro l
        simp [List.dropWhile_cons, hcolon, hspace]
      simp only [hd1]
      rw [if_neg (by simp)]
      simp only [takeWhile_to_quote _ _ hv1, dropWhile_to_quote _ _ hv1]
      have hd2 : (match ps with
            | [] => []
            | _ :: _ => ',' :: (pairsText ps).data).dropWhile (fun x => x = ',' ∨ x = ' ') =
          (pairsText ps).data := by
        cases ps with
        | nil => rfl
        | cons q qs =>
          simp only []
          rw [pairsText_cons]
          simp [List.dropWhile_cons, hcomma, hspace]
      rw [hd2]
      rw [List.foldl_cons]
      exact ih _ f hps hf2
theorem indexFrom_char (c : Char) (rest : List Char) :
    ∀ (A : List Char) (i : Nat), ¬ (c ∈ A) →
      strings.indexFrom [c] (A ++ c :: rest) i = some (i + A.length) := by
  intro A
  induction A with
  | nil =>
    intro i _
    rw [List.nil_append]
    unfold strings.indexFrom
    simp [List.isPrefixOf]
  | cons a A ih =>
    intro i h
    have hne : ¬ (c = a) := fun hca => h (by simp [hca])
    have hA : ¬ (c ∈ A) := fun hm => h (by simp [hm])
    rw [List.cons_append]
    unfold strings.indexFrom
    rw [if_neg (by simp [List.isPrefixOf, hne])]
    rw [ih (i + 1) hA]
    simp only [List.length_cons]
    congr 1
    omega

/-- The offset of the first occurrence of a character. -/
theorem Index_char (c : Char) (A rest : List Char) (h : ¬ (c ∈ A)) :
    strings.Index ⟨A ++ c :: rest⟩ ⟨[c]⟩ = (A.length : Int) := by
  unfold strings.Index
  simp only []
  rw [indexFrom_char c rest A 0 h]
  simp

theorem pairsText_no_close (pairs : List (String × String)) (h : plainPairs pairs = true) :
    ¬ ('}' ∈ (pairsText pairs).data) := by
  induction pairs with
  | nil => simp [pairsText]
  | cons p ps ih =>
    obtain ⟨⟨_, hk, _, hv⟩, hps⟩ := plainPairs_cons p ps h
    have hq : ¬ ('}' = quote) := by decide
    rw [pairsText_cons]
    cases ps with
    | nil => simp [hk, hv, hq]
    | cons q qs =>
      have := ih hps
      simp [hk, hv, hq, this]

theorem pairsText_length (pairs : List (String × String)) :
    pairs.length ≤ (pairsText pairs).data.length := by
  induction pairs with
  | nil => simp
  | cons p ps ih =>
    rw [pairsText_cons]
    cases ps with
    | nil => simp
    | cons q qs =>
      simp only [List.length_cons, List.length_append] at ih ⊢
      omega

/-- The second half of `parseOnclickButtonParams`, on a part that starts with
a brace-free text and a well-formed block. -/
theorem paramPart_block (A R2 : List Char) (pairs : List (String × String))
    (hA1 : ¬ ('{' ∈ A)) (hA2 : ¬ ('}' ∈ A)) (hplain : plainPairs pairs = true) :
    let paramPart : String := ⟨(A ++ '{' :: (pairsText pairs).data ++ ['}']) ++ R2⟩
    (if strings.Index paramPart "\x7b" = -1 ∨ strings.Index paramPart "\x7d" = -1 ∨
        strings.Index paramPart "\x7d" ≤ strings.Index paramPart "\x7b" then some []
      else
        match strings.slice paramPart (strings.Index paramPart "\x7b" + 1)
          (strings.Index paramPart "\x7d") with
        | none => none
        | some paramString =>
          paramsLoop (paramString.data.length + 1) paramString.data []) =
      some (mappingOf pairs) := by
  intro paramPart
  have hopen : strings.Index paramPart "\x7b" = (A.length : Int) := by
    have e : paramPart = ⟨A ++ '{' :: ((pairsText pairs).data ++ '}' :: R2)⟩ := by
      simp [paramPart]
    rw [e]
    exact Index_char '{' A _ hA1
  have hclose : strings.Index paramPart "\x7d" =
      ((A ++ '{' :: (pairsText pairs).data).length : Int) := by
    have e : paramPart = ⟨(A ++ '{' :: (pairsText pairs).data) ++ '}' :: R2⟩ := by
      simp [paramPart]
    rw [e]
    apply Index_char '}' _ _
    have hb := pairsText_no_close pairs hplain
    have hne : ¬ ('}' = '{') := by decide
    simp [hA2, hb, hne]
  have hslice : strings.slice paramPart ((A.length : Int) + 1)
      ((A ++ '{' :: (pairsText pairs).data).length : Int) = some (pairsText pairs) := by
    unfold strings.slice
    rw [if_pos (by
      refine ⟨by omega, by simp, ?_⟩
      simp [paramPart]
      omega)]
    have e1 : ((A.length : Int) + 1).toNat = A.length + 1 := by omega
    rw [e1, Int.toNat_ofNat]
    have e : paramPart.data = (A ++ '{' :: (pairsText pairs).data) ++ '}' :: R2 := by
      simp [paramPart]
    have e2 : A ++ '{' :: (pairsText pairs).data = (A ++ ['{']) ++ (pairsText pairs).data := by
      simp
    have e3 : (A ++ ['{']).length = A.length + 1 := by simp
    rw [e, List.take_left, e2, List.drop_left' e3]
  rw [hopen, hclose, hslice]
  rw [if_neg (by
    simp only [List.length_append, List.length_cons]
    omega)]
  exact paramsLoop_pairs pairs [] _ hplain (by
    have := pairsText_length pairs
    omega)
theorem StringMap_get_set (m : StringMap) (k v key : String) :
    (m.set k v).get key = if key = k then some v else m.get key := by
  unfold StringMap.set StringMap.get
  by_cases h : key = k
  · subst h
    simp [List.lookup]
  · rw [if_neg h]
    have hb : (key == k) = false := by simpa using h
    rw [List.lookup_cons, hb]
    simp only []
    induction m with
    | nil => rfl
    | cons q qs ih =>
      by_cases hq : q.1 = k
      · have hkq : (key == q.1) = false := by
          rw [hq]
          exact hb
        rw [List.filter_cons_of_neg (by simp [hq])]
        rw [ih]
        obtain ⟨q1, q2⟩ := q
        rw [List.lookup_cons]
        simp only [] at hkq
        rw [hkq]
      · rw [List.filter_cons_of_pos (by simp [hq])]
        obtain ⟨q1, q2⟩ := q
        rw [List.lookup_cons, List.lookup_cons, ih]

/-- Lookup in the mapping built from a list of pairs: the last pair with the
key decides, and a key of no pair falls through to the mapping before. -/
theorem foldl_set_get (key : String) :
    ∀ (pairs : List (String × String)) (m : StringMap),
      (pairs.foldl (fun m p => m.set p.1 p.2) m).get key =
        match pairs.reverse.find? (fun p => p.1 == key) with
        | some p => some p.2
        | none => m.get key := by
  intro pairs
  induction pairs with
  | nil => intro m; rfl
  | cons p ps ih =>
    intro m
    rw [List.foldl_cons, ih, List.reverse_cons, List.find?_append]
    cases hf : ps.reverse.find? (fun p => p.1 == key) with
    | some q => rfl
    | none =>
      simp only [Option.none_or, StringMap_get_set]
      by_cases hk : key = p.1
      · subst hk
        simp
      · have hk2 : ¬ (p.1 = key) := fun h => hk h.symm
        simp [hk, hk2]

theorem mappingOf_get (pairs : List (String × String)) (key : String) :
    (mappingOf pairs).get key =
      (pairs.reverse.find? (fun p => p.1 == key)).map Prod.snd := by
  unfold mappingOf
  rw [foldl_set_get]
  cases pairs.reverse.find? (fun p => p.1 == key) <;> rfl

/-- The parser on a well-formed block behind the function name. -/
theorem parseOnclickButtonParams_block (P A R : String) (pairs : List (String × String))
    (hP : strings.Contains P submitParamName = false)
    (hA : braceFree A = true)
    (hplain : plainPairs pairs = true)
    (hname : strings.Contains (A ++ paramBlock pairs) submitParamName = false) :
    parseOnclickButtonParams (P ++ submitParamName ++ A ++ paramBlock pairs ++ R) =
      some (mappingOf pairs) := by
  have hA1 : ¬ ('{' ∈ A.data) ∧ ¬ ('}' ∈ A.data) := by
    unfold braceFree at hA
    simp only [Bool.and_eq_true, Bool.not_eq_true'] at hA
    exact ⟨not_mem_of_contains_false _ _ hA.1, not_mem_of_contains_false _ _ hA.2⟩
  have hopen : ("\x7b" : String).data = ['{'] := by decide
  have hclose : ("\x7d" : String).data = ['}'] := by decide
  have hYdata : (A ++ paramBlock pairs).data =
      (A.data ++ '{' :: (pairsText pairs).data) ++ ['}'] := by
    simp [paramBlock, String.data_append, hopen, hclose]
  have hdata : (P ++ submitParamName ++ A ++ paramBlock pairs ++ R).data =
      P.data ++ (submitParamName.data ++
        (((A.data ++ '{' :: (pairsText pairs).data) ++ ['}']) ++ R.data)) := by
    simp [paramBlock, String.data_append, hopen, hclose]
  have hY := Contains_false_absent _ _ hname
  rw [hYdata] at hY
  have hlen : 1 ≤ (P ++ submitParamName ++ A ++ paramBlock pairs ++ R).data.length := by
    rw [hdata]
    simp only [List.length_append, List.length_cons]
    omega
  obtain ⟨R2, more, hsplit⟩ := splitLoop_block P.data (A.data ++ '{' :: (pairsText pairs).data)
    R.data ((P ++ submitParamName ++ A ++ paramBlock pairs ++ R).data.length - 1)
    (Contains_false_absent _ _ hP) hY
  have hparts : strings.SplitSep (P ++ submitParamName ++ A ++ paramBlock pairs ++ R)
      "PrimeFaces.addSubmitParam" =
      P :: ⟨((A.data ++ '{' :: (pairsText pairs).data) ++ ['}']) ++ R2⟩ ::
        more.map String.mk := by
    unfold strings.SplitSep
    rw [show (P ++ submitParamName ++ A ++ paramBlock pairs ++ R).data.length + 1 =
      (P ++ submitParamName ++ A ++ paramBlock pairs ++ R).data.length - 1 + 2 by omega]
    rw [hdata]
    rw [hdata] at hsplit
    exact congrArg (List.map String.mk) hsplit
  unfold parseOnclickButtonParams
  simp only [hparts]
  rw [if_neg (by simp)]
  simp only [List.getElem?_cons_succ, List.getElem?_cons_zero]
  exact paramPart_block A.data R2 pairs hA1.1 hA1.2 hplain
/-- C21 (amended): `parseOnclickButtonParams` on well-formed parameter
blocks.  For an onclick text `P ++ "PrimeFaces.addSubmitParam" ++ A ++
"{'k1':'v1',...,'kn':'vn'}" ++ R` where `P` does not contain the function
name, `A` holds no brace, no key and no value holds a single quote or a
closing brace, and the function name does not occur again in `A` followed by
the block, the result is the mapping of the pairs: the value bound to a key is
the value of the last pair with that key, and a key of no pair is not bound.
For an onclick text that does not contain the function name the mapping is
empty. -/
theorem C21_parseOnclickButtonParams_wellformed (P A R onclick : String)
    (pairs : List (String × String))
    (hP : strings.Contains P submitParamName = false)
    (hA : braceFree A = true)
    (hplain : plainPairs pairs = true)
    (hname : strings.Contains (A ++ paramBlock pairs) submitParamName = false) :
    parseOnclickButtonParams (P ++ submitParamName ++ A ++ paramBlock pairs ++ R) =
      some (mappingOf pairs) ∧
    (∀ key, (mappingOf pairs).get key =
      (pairs.reverse.find? (fun p => p.1 == key)).map Prod.snd) ∧
    (strings.Contains onclick submitParamName = false →
      parseOnclickButtonParams onclick = some []) := by
  refine ⟨parseOnclickButtonParams_block P A R pairs hP hA hplain hname,
    mappingOf_get pairs, ?_⟩
  intro h
  have hparts : strings.SplitSep onclick "PrimeFaces.addSubmitParam" = [onclick] :=
    SplitSep_absent onclick submitParamName h
  unfold parseOnclickButtonParams
  simp only [hparts]
  rfl

set_option maxRecDepth 100000 in
/-- C21 as first stated fails when the function name occurs again before the
end of the block.  With a value that is the function name, or with a first
call without block in front of the call that carries the block, the
conditions of the claim hold (`P` without the name, `A` without brace, plain
keys and values) and the result is the empty mapping, not the mapping of the
pairs: the split on the function name cuts the block. -/
theorem C21_counterexample :
    strings.Contains "" submitParamName = false ∧
    braceFree "(\x27form\x27," = true ∧
    plainPairs [("next", "PrimeFaces.addSubmitParam")] = true ∧
    parseOnclickButtonParams ("" ++ submitParamName ++ "(\x27form\x27," ++
      paramBlock [("next", "PrimeFaces.addSubmitParam")] ++ ");") = some [] ∧
    mappingOf [("next", "PrimeFaces.addSubmitParam")] =
      [("next", "PrimeFaces.addSubmitParam")] ∧
    braceFree "(\x27a\x27);PrimeFaces.addSubmitParam(\x27form\x27," = true ∧
    plainPairs [("k", "v")] = true ∧
    parseOnclickButtonParams ("" ++ submitParamName ++
      "(\x27a\x27);PrimeFaces.addSubmitParam(\x27form\x27," ++ paramBlock [("k", "v")] ++ ");") =
      some [] ∧
    mappingOf [("k", "v")] = [("k", "v")] := by
  decide

set_option maxRecDepth 100000 in
/-- C21 (amended) on the onclick text of a catalog menu item. -/
theorem C21_parseOnclickButtonParams_wellformed_witness :
    strings.Contains "return " submitParamName = false ∧
    braceFree "(\x27form\x27," = true ∧
    plainPairs [("form:sidebar", "form:sidebar"), ("form:sidebar_menuid", "1_0")] = true ∧
    strings.Contains ("(\x27form\x27," ++
      paramBlock [("form:sidebar", "form:sidebar"), ("form:sidebar_menuid", "1_0")])
      submitParamName = false ∧
    "return " ++ submitParamName ++ "(\x27form\x27," ++
        paramBlock [("form:sidebar", "form:sidebar"), ("form:sidebar_menuid", "1_0")] ++
        ").submit(\x27form\x27);return false;" =
      "return PrimeFaces.addSubmitParam(\x27form\x27,\x7b\x27form:sidebar\x27:\x27form:sidebar\x27,\x27form:sidebar_menuid\x27:\x271_0\x27\x7d).submit(\x27form\x27);return false;" ∧
    parseOnclickButtonParams ("return " ++ submitParamName ++ "(\x27form\x27," ++
        paramBlock [("form:sidebar", "form:sidebar"), ("form:sidebar_menuid", "1_0")] ++
        ").submit(\x27form\x27);return false;") =
      some [("form:sidebar_menuid", "1_0"), ("form:sidebar", "form:sidebar")] ∧
    (mappingOf [("form:sidebar", "form:sidebar"), ("form:sidebar_menuid", "1_0")]).get
      "form:sidebar_menuid" = some "1_0" := by
  have h := C21_parseOnclickButtonParams_wellformed "return " "(\x27form\x27,"
    ").submit(\x27form\x27);return false;" ""
    [("form:sidebar", "form:sidebar"), ("form:sidebar_menuid", "1_0")]
    (by decide) (by decide) (by decide) (by decide)
  refine ⟨by decide, by decide, by decide, by decide, by decide, ?_, ?_⟩
  · rw [h.1]
    decide
  · rw [h.2.1]
    decide

end Isengo
